import Mathlib

/-!
# docker-manager: the interactive exec-session subsystem

A shallow embedding of `service/session.go`, `utils/helper.go`,
`api/handlers/session.go`, `auth/token.go` and the port mapping of
`service/container.go`.

* Go strings and byte slices are lists of bytes (`Bytes`).
* The hijacked connection, the Docker client and the wall clock are the
  environment: `Env` fixes, for every connection and every call ordinal, what
  the call answers; `World` counts the calls made so far and logs them.
  The code is deterministic once those answers are fixed, so a statement
  quantified over every `Env` covers every behaviour of the remote side in
  which each call returns. A call that does not return has no answer and is
  not described: `ExecuteCommandWithTimeout` sets no read deadline, so its
  `Read` on a connection that has nothing to give blocks.
* Go's `int` is the 64-bit two's-complement integer; `counter++` wraps.
* The two loops are run with a fuel bound: `none` means that the loop has not
  returned within that many iterations.
-/

namespace DockerManager

/-! ## Strings, errors, the environment -/

/-- A Go `string` or `[]byte`: a sequence of bytes. -/
abbrev Bytes := List Nat

/-- Bytes of an ASCII literal (for ASCII the code point is the byte). -/
def ascii (s : String) : Bytes := s.toList.map Char.toNat

/-- A Go `error` value, as far as this code inspects it: the text of `Error()`
and whether the value is a `net.Error` whose `Timeout()` is true. -/
structure GoError where
  msg : Bytes
  netTimeout : Bool
deriving DecidableEq, Repr

/-- Outcome of one `Reader.Read(buffer)`: `data` is `buffer[:n]`, so `n` is
`data.length`; `err` is the error returned next to it. -/
structure ReadResult where
  data : Bytes
  err : Option GoError
deriving DecidableEq, Repr

/-- The `types.ExecConfig` passed to `ContainerExecCreate`. -/
structure ExecConfig where
  AttachStdin : Bool
  AttachStdout : Bool
  AttachStderr : Bool
  Cmd : List Bytes
  Tty : Bool
deriving DecidableEq, Repr

/-- An operation on one hijacked connection. The deadline is `none` for the
zero `time.Time` (no deadline) and `some t` for the instant `t` in nanoseconds. -/
inductive Op where
  | write (p : Bytes)
  | read
  | setReadDeadline (t : Option Nat)
  | close
deriving DecidableEq, Repr

/-- One observable effect: an operation on connection `c`, a `time.Sleep`, or a
call of the Docker client. -/
inductive Event where
  | conn (c : Nat) (op : Op)
  | sleep (d : Nat)
  | execCreate (container : Bytes) (cfg : ExecConfig)
  | execAttach (execID : Bytes)
deriving DecidableEq, Repr

/-- What the outside world answers. `write c i` and `read c i` are the outcomes
of the `i`-th `Write` and `Read` on connection `c`; `now i` is the value of the
`i`-th `time.Now()`; `execCreate i` is the exec ID or the error of the `i`-th
`ContainerExecCreate`; `execAttach i` is the connection or the error of the
`i`-th `ContainerExecAttach`. Every call is described by what it returns: a
`Read` that blocks for ever has no outcome here. -/
structure Env where
  now : Nat → Nat
  write : Nat → Nat → Option GoError
  read : Nat → Nat → ReadResult
  execCreate : Nat → Except GoError Bytes
  execAttach : Nat → Except GoError Nat

/-- How many calls of each kind were made, and the log of effects, oldest
first. -/
structure World where
  nNow : Nat
  nWrites : Nat → Nat
  nReads : Nat → Nat
  nExecCreate : Nat
  nExecAttach : Nat
  trace : List Event

/-- `time.Millisecond`, in nanoseconds. -/
def Millisecond : Nat := 1000000

/-- `time.Second`, in nanoseconds. -/
def Second : Nat := 1000 * Millisecond

/-- `Conn.Write(p)`: the byte count is dropped by every caller. -/
def connWrite (env : Env) (c : Nat) (p : Bytes) (w : World) : Option GoError × World :=
  (env.write c (w.nWrites c),
   { w with nWrites := Function.update w.nWrites c (w.nWrites c + 1),
            trace := w.trace ++ [Event.conn c (Op.write p)] })

/-- `Reader.Read(buffer)`, once it has returned. -/
def connRead (env : Env) (c : Nat) (w : World) : ReadResult × World :=
  (env.read c (w.nReads c),
   { w with nReads := Function.update w.nReads c (w.nReads c + 1),
            trace := w.trace ++ [Event.conn c Op.read] })

/-- `Conn.SetReadDeadline(t)`; its result is dropped by every caller. -/
def connSetReadDeadline (c : Nat) (t : Option Nat) (w : World) : World :=
  { w with trace := w.trace ++ [Event.conn c (Op.setReadDeadline t)] }

/-- `Hijack.Close()`. -/
def connClose (c : Nat) (w : World) : World :=
  { w with trace := w.trace ++ [Event.conn c Op.close] }

/-- `time.Sleep(d)`. -/
def timeSleep (d : Nat) (w : World) : World :=
  { w with trace := w.trace ++ [Event.sleep d] }

/-- `time.Now()`. -/
def timeNow (env : Env) (w : World) : Nat × World :=
  (env.now w.nNow, { w with nNow := w.nNow + 1 })

/-! ## Go `int` -/

/-- Largest value of Go's 64-bit `int`. -/
def maxInt : Int := 2 ^ 63 - 1

/-- Smallest value of Go's 64-bit `int`. -/
def minInt : Int := -(2 ^ 63)

/-- Two's-complement wrap-around of an integer result to 64 bits. -/
def wrapInt (i : Int) : Int := (i + 2 ^ 63) % 2 ^ 64 - 2 ^ 63

/-! ## utils/helper.go -/

/-- The class `[0-9;?]`. -/
def isParamByte (b : Nat) : Bool := (48 ≤ b && b ≤ 57) || b == 59 || b == 63

/-- The class `[a-zA-Z]`. -/
def isLetterByte (b : Nat) : Bool := (97 ≤ b && b ≤ 122) || (65 ≤ b && b ≤ 90)

/-- Length of the match of `[0-9;?]*[a-zA-Z]` at the head of the text, if there
is one. The two classes are disjoint, so the greedy star has one way to match. -/
def csiTailLen : Bytes → Option Nat
  | [] => none
  | b :: rest =>
    if isParamByte b then (csiTailLen rest).map (· + 1)
    else if isLetterByte b then some 1
    else none

/-- Length of the match of `\x1b\[[0-9;?]*[a-zA-Z]` at the head of the text, if
there is one. -/
def csiMatchLen : Bytes → Option Nat
  | [] => none
  | [_] => none
  | b0 :: b1 :: rest =>
    if b0 = 27 ∧ b1 = 91 then (csiTailLen rest).map (· + 2) else none

/-- `ReplaceAllString(text, "")` scanning left to right: `skip` is the number of
bytes of the current match still to drop. -/
def cleanFrom : Nat → Bytes → Bytes
  | _, [] => []
  | skip + 1, _ :: rest => cleanFrom skip rest
  | 0, b :: rest =>
    match csiMatchLen (b :: rest) with
    | some n => cleanFrom (n - 1) rest
    | none => b :: cleanFrom 0 rest

/-- `CleanANSIEscapes`: removes the successive leftmost matches of
`\x1b\[[0-9;?]*[a-zA-Z]`. -/
def CleanANSIEscapes (text : Bytes) : Bytes := cleanFrom 0 text

/-! ## service/session.go -/

/-- `ExecSession`. `Hijack` is the hijacked connection (both `Hijack.Conn` and
the buffered `Hijack.Reader` over it); `Cli` and `Ctx` are never read by the
code below and are left out. -/
structure ExecSession where
  ContainerName : Bytes
  ExecID : Bytes
  Hijack : Nat
deriving DecidableEq, Repr

/-- Go `m[k]` with the comma-ok form, on a map kept as an association list. -/
def mapGet (m : List (Bytes × ExecSession)) (k : Bytes) : Option ExecSession :=
  match m with
  | [] => none
  | (k1, v) :: rest => if k1 = k then some v else mapGet rest k

/-- Go `delete(m, k)`. -/
def mapDelete (m : List (Bytes × ExecSession)) (k : Bytes) : List (Bytes × ExecSession) :=
  m.filter (fun e => decide (e.1 ≠ k))

/-- Go `m[k] = v`. -/
def mapSet (m : List (Bytes × ExecSession)) (k : Bytes) (v : ExecSession) :
    List (Bytes × ExecSession) :=
  (k, v) :: mapDelete m k

/-- `SessionService`: the `sessions` map. The embedded `*DockerService` is the
Docker client, whose answers are in `Env`. -/
structure SessionService where
  sessions : List (Bytes × ExecSession)
deriving DecidableEq, Repr

/-- `NewSessionService`. -/
def NewSessionService : SessionService := { sessions := [] }

/-- `client.ContainerExecCreate(ctx, containerName, execConfig)`. -/
def clientExecCreate (env : Env) (containerName : Bytes) (cfg : ExecConfig) (w : World) :
    Except GoError Bytes × World :=
  (env.execCreate w.nExecCreate,
   { w with nExecCreate := w.nExecCreate + 1,
            trace := w.trace ++ [Event.execCreate containerName cfg] })

/-- `client.ContainerExecAttach(ctx, execID, ExecStartCheck{Detach: false, Tty: true})`. -/
def clientExecAttach (env : Env) (execID : Bytes) (w : World) : Except GoError Nat × World :=
  (env.execAttach w.nExecAttach,
   { w with nExecAttach := w.nExecAttach + 1,
            trace := w.trace ++ [Event.execAttach execID] })

/-- `SessionService.CreateSession`. -/
def SessionService.CreateSession (env : Env) (ss : SessionService) (containerName : Bytes)
    (w : World) : Except GoError ExecSession × SessionService × World :=
  let execConfig : ExecConfig :=
    { AttachStdin := true, AttachStdout := true, AttachStderr := true,
      Cmd := [ascii "/bin/bash"], Tty := true }
  match clientExecCreate env containerName execConfig w with
  | (Except.error err, w1) => (Except.error err, ss, w1)
  | (Except.ok respID, w1) =>
    match clientExecAttach env respID w1 with
    | (Except.error err, w2) => (Except.error err, ss, w2)
    | (Except.ok hijack, w2) =>
      let session : ExecSession :=
        { ContainerName := containerName, ExecID := respID, Hijack := hijack }
      let sessionID := if session.ExecID.length > 12 then session.ExecID.take 12 else session.ExecID
      (Except.ok session, { sessions := mapSet ss.sessions sessionID session }, w2)

/-- `SessionService.GetSession`: `some s` is `(s, true)`, `none` is `(nil, false)`. -/
def SessionService.GetSession (ss : SessionService) (sessionID : Bytes) : Option ExecSession :=
  mapGet ss.sessions sessionID

/-- `err.Error() == "EOF"`. -/
def isEOFText (e : GoError) : Bool := decide (e.msg = ascii "EOF")

/-- `strings.Contains(s, sub)`. -/
def bytesContains (s sub : Bytes) : Bool := s.tails.any (fun t => sub.isPrefixOf t)

/-- `strings.Contains(err.Error(), "i/o timeout")`. -/
def isIOTimeoutText (e : GoError) : Bool := bytesContains e.msg (ascii "i/o timeout")

/-- The error test at the head of the loop body of `ExecuteCommandWithTimeout`:
true when `err != nil` and one of the two `break`s is taken. -/
def readErrBreaks (err : Option GoError) : Bool :=
  match err with
  | some e => isEOFText e || isIOTimeoutText e
  | none => false

/-- The `for counter <= timeout` loop of `ExecuteCommandWithTimeout` on
connection `c`. Returns the contents of `output` at the exit of the loop. -/
def pollLoop (env : Env) (c : Nat) (timeout : Int) :
    Nat → Int → Bytes → World → Option (Bytes × World)
  | 0, _, _, _ => none
  | fuel + 1, counter, output, w =>
    if counter ≤ timeout then
      match connRead env c w with
      | (r, w1) =>
        if readErrBreaks r.err then
          some (output, w1)
        else if r.data.length > 0 then
          some (output ++ r.data, w1)
        else
          pollLoop env c timeout fuel (wrapInt (counter + 1)) output (timeSleep Second w1)
    else
      some (output, w)

/-- `ExecSession.ExecuteCommandWithTimeout`. The result is the returned pair
`(string, error)` and the world after the call. -/
def ExecSession.ExecuteCommandWithTimeout (env : Env) (fuel : Nat) (s : ExecSession)
    (cmd : Bytes) (timeout : Int) (w : World) : Option ((Bytes × Option GoError) × World) :=
  match connWrite env s.Hijack (cmd ++ ascii "\n") w with
  | (some err, w1) => some (([], some err), w1)
  | (none, w1) =>
    match pollLoop env s.Hijack timeout fuel 1 [] (timeSleep (2 * Second) w1) with
    | none => none
    | some (output, w2) => some ((CleanANSIEscapes output, none), w2)

/-- How the `for` loop of `GetSessionOutput` is left: by `break`, with the
contents of `output`, or by `return "", err`. -/
inductive DrainExit where
  | done (output : Bytes)
  | fail (err : GoError)
deriving DecidableEq, Repr

/-- The `for` loop of `GetSessionOutput` on connection `c`. -/
def drainLoop (env : Env) (c : Nat) : Nat → Bytes → World → Option (DrainExit × World)
  | 0, _, _ => none
  | fuel + 1, output, w =>
    match connRead env c w with
    | (r, w1) =>
      match r.err with
      | some err =>
        if err.netTimeout then some (DrainExit.done output, w1)
        else some (DrainExit.fail err, w1)
      | none =>
        if r.data.length > 0 then
          match timeNow env w1 with
          | (t, w2) =>
            drainLoop env c fuel (output ++ r.data)
              (connSetReadDeadline c (some (t + 100 * Millisecond)) w2)
        else
          some (DrainExit.done output, w1)

/-- `ExecSession.GetSessionOutput`. The deferred `SetReadDeadline(time.Time{})`
runs when the function returns, on either exit of the loop. -/
def ExecSession.GetSessionOutput (env : Env) (fuel : Nat) (s : ExecSession) (w : World) :
    Option ((Bytes × Option GoError) × World) :=
  match timeNow env w with
  | (t, w0) =>
    match drainLoop env s.Hijack fuel []
        (connSetReadDeadline s.Hijack (some (t + 100 * Millisecond)) w0) with
    | none => none
    | some (DrainExit.fail err, w1) =>
      some (([], some err), connSetReadDeadline s.Hijack none w1)
    | some (DrainExit.done output, w1) =>
      some ((CleanANSIEscapes output, none), connSetReadDeadline s.Hijack none w1)

/-- `ExecSession.Close`: the result of the write is dropped. -/
def ExecSession.Close (env : Env) (s : ExecSession) (w : World) : World :=
  match connWrite env s.Hijack (ascii "exit\n") w with
  | (_, w1) => connClose s.Hijack w1

/-- `SessionService.CloseSession`. -/
def SessionService.CloseSession (env : Env) (ss : SessionService) (sessionID : Bytes)
    (w : World) : Bool × SessionService × World :=
  match mapGet ss.sessions sessionID with
  | none => (false, ss, w)
  | some session =>
    (true, { sessions := mapDelete ss.sessions sessionID }, ExecSession.Close env session w)

/-- `ExecSession.GetSessionID`. -/
def ExecSession.GetSessionID (s : ExecSession) : Bytes :=
  if s.ExecID.length > 12 then s.ExecID.take 12 else s.ExecID

/-! ## models/types.go, api/handlers/session.go -/

/-- `models.ExecRequest`. -/
structure ExecRequest where
  ContainerName : Bytes
  Cmd : Bytes
  ExecSessionID : Bytes
deriving DecidableEq, Repr

/-- What a handler sends with `c.JSON(code, gin.H{...})`: the status code and
the key/value pairs of the body. -/
structure Response where
  code : Nat
  body : List (String × Bytes)
deriving DecidableEq, Repr

/-- `SessionHandler.ExecuteCommand`. `bound` is the outcome of
`c.ShouldBindJSON(&req)`. -/
def SessionHandler.ExecuteCommand (env : Env) (fuel : Nat) (ss : SessionService)
    (bound : Except GoError ExecRequest) (w : World) :
    Option (Response × SessionService × World) :=
  match bound with
  | Except.error err => some ({ code := 400, body := [("error", err.msg)] }, ss, w)
  | Except.ok req =>
    match ss.GetSession req.ExecSessionID with
    | none => some ({ code := 404, body := [("error", ascii "session not found")] }, ss, w)
    | some session =>
      if session.ContainerName ≠ req.ContainerName then
        some ({ code := 400, body := [("error", ascii "invalid container name")] }, ss, w)
      else
        match session.ExecuteCommandWithTimeout env fuel req.Cmd 5 w with
        | none => none
        | some ((_, some err), w1) =>
          some ({ code := 500, body := [("error", err.msg)] }, ss, w1)
        | some ((output, none), w1) =>
          some ({ code := 200, body := [("status", ascii "success"), ("output", output)] },
                ss, w1)

/-- `models.ContainerNameRequest`. -/
structure ContainerNameRequest where
  ContainerName : Bytes
deriving DecidableEq, Repr

/-- `SessionHandler.CreateSession`. `bound` is the outcome of
`c.ShouldBindJSON(&req)`. -/
def SessionHandler.CreateSession (env : Env) (ss : SessionService)
    (bound : Except GoError ContainerNameRequest) (w : World) :
    Response × SessionService × World :=
  match bound with
  | Except.error err => ({ code := 400, body := [("error", err.msg)] }, ss, w)
  | Except.ok req =>
    match ss.CreateSession env req.ContainerName w with
    | (Except.error err, ss1, w1) => ({ code := 500, body := [("error", err.msg)] }, ss1, w1)
    | (Except.ok session, ss1, w1) =>
      let sessionID := session.GetSessionID
      ({ code := 200, body := [("status", ascii "success"), ("exec_session_id", sessionID)] },
       ss1, w1)

/-- `SessionHandler.GetMoreOutput`. `bound` is the outcome of
`c.ShouldBindJSON(&req)`. -/
def SessionHandler.GetMoreOutput (env : Env) (fuel : Nat) (ss : SessionService)
    (bound : Except GoError ExecRequest) (w : World) :
    Option (Response × SessionService × World) :=
  match bound with
  | Except.error err => some ({ code := 400, body := [("error", err.msg)] }, ss, w)
  | Except.ok req =>
    match ss.GetSession req.ExecSessionID with
    | none => some ({ code := 404, body := [("error", ascii "session not found")] }, ss, w)
    | some session =>
      if session.ContainerName ≠ req.ContainerName then
        some ({ code := 400, body := [("error", ascii "invalid container name")] }, ss, w)
      else
        match session.GetSessionOutput env fuel w with
        | none => none
        | some ((_, some err), w1) =>
          some ({ code := 500, body := [("error", err.msg)] }, ss, w1)
        | some ((output, none), w1) =>
          some ({ code := 200, body := [("output", output)] }, ss, w1)

/-- `SessionHandler.CloseSession`. `bound` is the outcome of
`c.ShouldBindJSON(&req)`. -/
def SessionHandler.CloseSession (env : Env) (ss : SessionService)
    (bound : Except GoError ExecRequest) (w : World) : Response × SessionService × World :=
  match bound with
  | Except.error err => ({ code := 400, body := [("error", err.msg)] }, ss, w)
  | Except.ok req =>
    match ss.GetSession req.ExecSessionID with
    | none => ({ code := 404, body := [("error", ascii "session not found")] }, ss, w)
    | some session =>
      if session.ContainerName ≠ req.ContainerName then
        ({ code := 400, body := [("error", ascii "invalid container name")] }, ss, w)
      else
        match ss.CloseSession env req.ExecSessionID w with
        | (true, ss1, w1) => ({ code := 200, body := [("status", ascii "success")] }, ss1, w1)
        | (false, ss1, w1) =>
          ({ code := 500, body := [("error", ascii "failed to close session")] }, ss1, w1)

/-- A registry call that does not create: `GetSession` or `CloseSession`. -/
inductive RegistryCall where
  | get (sessionID : Bytes)
  | close (sessionID : Bytes)
deriving DecidableEq, Repr

/-- Runs registry calls one after the other. -/
def runCalls (env : Env) : List RegistryCall → SessionService × World → SessionService × World
  | [], st => st
  | RegistryCall.get _ :: rest, st => runCalls env rest st
  | RegistryCall.close sessionID :: rest, st =>
    match SessionService.CloseSession env st.1 sessionID st.2 with
    | (_, ss1, w1) => runCalls env rest (ss1, w1)

/-- A call on the session service: `CreateSession`, `GetSession` or
`CloseSession`. -/
inductive ServiceCall where
  | create (containerName : Bytes)
  | get (sessionID : Bytes)
  | close (sessionID : Bytes)
deriving DecidableEq, Repr

/-- Runs calls on the session service one after the other. -/
def runService (env : Env) : List ServiceCall → SessionService × World → SessionService × World
  | [], st => st
  | ServiceCall.create containerName :: rest, st =>
    match SessionService.CreateSession env st.1 containerName st.2 with
    | (_, ss1, w1) => runService env rest (ss1, w1)
  | ServiceCall.get _ :: rest, st => runService env rest st
  | ServiceCall.close sessionID :: rest, st =>
    match SessionService.CloseSession env st.1 sessionID st.2 with
    | (_, ss1, w1) => runService env rest (ss1, w1)

/-! ## auth/token.go -/

/-- `TokenManager`: `whitelist` lists the keys of the Go map. -/
structure TokenManager where
  whitelist : List Bytes
  enabled : Bool
deriving DecidableEq, Repr

/-- `NewTokenManager`. -/
def NewTokenManager : TokenManager := { whitelist := [], enabled := false }

/-- What the operating system and the `bufio.Scanner` answer in `LoadFromFile`:
`filepath.Abs` fails; or `os.Open` fails, with an error for which
`os.IsNotExist` holds or with another error; or the file is opened, the
scanner yields `lines` (the values of `scanner.Text()`) and `scanner.Err()` is
`scanErr`. -/
inductive TokenFile where
  | absFails (err : GoError)
  | notExist
  | openFails (err : GoError)
  | opened (lines : List Bytes) (scanErr : Option GoError)
deriving DecidableEq, Repr

/-- `strings.HasPrefix(line, "#")`. -/
def hasHashPrefix (line : Bytes) : Bool := (ascii "#").isPrefixOf line

/-- Go `tm.whitelist[line] = struct{}{}`. -/
def whitelistAdd (whitelist : List Bytes) (line : Bytes) : List Bytes :=
  if line ∈ whitelist then whitelist else whitelist ++ [line]

/-- `TokenManager.LoadFromFile`. `trimSpace` is `strings.TrimSpace`. The result
is the returned error and the manager after the call. -/
def TokenManager.LoadFromFile (trimSpace : Bytes → Bytes) (tm : TokenManager)
    (file : TokenFile) : Option GoError × TokenManager :=
  match file with
  | TokenFile.absFails err => (some err, tm)
  | TokenFile.notExist => (none, { tm with enabled := false })
  | TokenFile.openFails err => (some err, tm)
  | TokenFile.opened lines scanErr =>
    let whitelist := lines.foldl
      (fun wl text =>
        let line := trimSpace text
        if line = [] ∨ hasHashPrefix line = true then wl else whitelistAdd wl line) []
    (scanErr, { whitelist := whitelist, enabled := true })

/-- `TokenManager.IsValidToken`. -/
def TokenManager.IsValidToken (tm : TokenManager) (token : Bytes) : Bool :=
  if tm.enabled = false then true else decide (token ∈ tm.whitelist)

/-- The parts of a request that the middleware reads: the method, the path and
the `Authorization` header, if there is one. -/
structure AuthRequest where
  Method : Bytes
  Path : Bytes
  Authorization : Option Bytes
deriving DecidableEq, Repr

/-- What the middleware does with a request: `c.Next()` or
`c.AbortWithStatusJSON`. -/
inductive MiddlewareOutcome where
  | next
  | abort (resp : Response)
deriving DecidableEq, Repr

/-- `TokenManager.Middleware`. `c.GetHeader` gives the empty string when the
header is absent. -/
def TokenManager.Middleware (tm : TokenManager) (req : AuthRequest) : MiddlewareOutcome :=
  if tm.enabled = false then MiddlewareOutcome.next
  else if req.Method = ascii "GET" ∧ req.Path = ascii "/api" then MiddlewareOutcome.next
  else
    let token := req.Authorization.getD []
    if tm.IsValidToken token = false then
      MiddlewareOutcome.abort
        { code := 401,
          body := [("error", ascii "invalid or missing token"), ("status", ascii "fail")] }
    else MiddlewareOutcome.next

/-! ## service/container.go: port mapping -/

/-- `nat.PortBinding`. -/
structure PortBinding where
  HostIP : Bytes
  HostPort : Bytes
deriving DecidableEq, Repr

/-- `strings.Split(p, sep)` for a separator of one byte. -/
def splitByte (sep : Nat) : Bytes → List Bytes
  | [] => [[]]
  | b :: rest =>
    if b = sep then [] :: splitByte sep rest
    else
      match splitByte sep rest with
      | [] => [[b]]
      | part :: parts => (b :: part) :: parts

/-- Go `m[k]` with the comma-ok form on a `nat.PortMap` kept as an association
list. -/
def bindingsGet (m : List (Bytes × List PortBinding)) (k : Bytes) : Option (List PortBinding) :=
  match m with
  | [] => none
  | (k1, v) :: rest => if k1 = k then some v else bindingsGet rest k

/-- Go `m[k] = v` on a `nat.PortMap`. -/
def bindingsSet (m : List (Bytes × List PortBinding)) (k : Bytes) (v : List PortBinding) :
    List (Bytes × List PortBinding) :=
  (k, v) :: m.filter (fun e => decide (e.1 ≠ k))

/-- Go `s[k] = struct{}{}` on a `nat.PortSet` kept as the list of its keys. -/
def portSetAdd (s : List Bytes) (k : Bytes) : List Bytes :=
  if k ∈ s then s else k :: s

/-- The `for _, p := range portMap` loop of `processPortMapping`. The indexing
of `parts` cannot fail after the test of the colon count. -/
def processPortLoop :
    List Bytes → List (Bytes × List PortBinding) × List Bytes →
      Except GoError (List (Bytes × List PortBinding) × List Bytes)
  | [], acc => Except.ok acc
  | p :: rest, (portBindings, exposedPorts) =>
    if p.count 58 ≠ 1 then
      Except.error { msg := ascii "portMap error", netTimeout := false }
    else
      let parts := splitByte 58 p
      let hostPort := parts.getD 0 []
      let containerPort := parts.getD 1 []
      processPortLoop rest
        (bindingsSet portBindings (containerPort ++ ascii "/tcp")
           [{ HostIP := ascii "0.0.0.0", HostPort := hostPort }],
         portSetAdd exposedPorts (containerPort ++ ascii "/tcp"))

/-- `ContainerService.processPortMapping`. -/
def processPortMapping (portMap : List Bytes) :
    Except GoError (List (Bytes × List PortBinding) × List Bytes) :=
  processPortLoop portMap ([], [])

/-- The host port of the last entry of the port list whose key, the container
port followed by `/tcp`, is `k`. -/
def lastHostPort : List Bytes → Bytes → Option Bytes
  | [], _ => none
  | p :: rest, k =>
    match lastHostPort rest k with
    | some h => some h
    | none =>
      if (splitByte 58 p).getD 1 [] ++ ascii "/tcp" = k then some ((splitByte 58 p).getD 0 [])
      else none

/-- A sample of `strings.TrimSpace`, right on texts whose white space is
ASCII: drops the leading and trailing tabs, line feeds, vertical tabs, form
feeds, carriage returns and spaces. -/
def trimSpaceASCII (t : Bytes) : Bytes :=
  ((t.dropWhile (fun b => decide (b ∈ [9, 10, 11, 12, 13, 32]))).reverse.dropWhile
    (fun b => decide (b ∈ [9, 10, 11, 12, 13, 32]))).reverse

/-! ## Measuring a run -/

/-- The world after `j` rounds of the polling loop in which the read gave
nothing: each round is one read and one sleep of a second. -/
def idleRounds (env : Env) (c : Nat) : Nat → World → World
  | 0, w => w
  | j + 1, w => idleRounds env c j (timeSleep Second (connRead env c w).2)

/-- The events of `j` such rounds. -/
def idleTrace (c : Nat) : Nat → List Event
  | 0 => []
  | j + 1 => Event.conn c Op.read :: Event.sleep Second :: idleTrace c j

/-- Number of reads among the events. -/
def readCount : List Event → Nat
  | [] => 0
  | Event.conn _ Op.read :: rest => readCount rest + 1
  | _ :: rest => readCount rest

/-- Number of writes among the events. -/
def writeCount : List Event → Nat
  | [] => 0
  | Event.conn _ (Op.write _) :: rest => writeCount rest + 1
  | _ :: rest => writeCount rest

/-- Number of sleeps of exactly one second among the events. -/
def secondSleepCount : List Event → Nat
  | [] => 0
  | Event.sleep d :: rest => if d = Second then secondSleepCount rest + 1 else secondSleepCount rest
  | _ :: rest => secondSleepCount rest

/-- Total time slept, in nanoseconds. -/
def sleepTotal : List Event → Nat
  | [] => 0
  | Event.sleep d :: rest => d + sleepTotal rest
  | _ :: rest => sleepTotal rest

/-- True when the read returned bytes and no error: the case in which the loop
of `GetSessionOutput` goes round again. -/
def isDataRead (r : ReadResult) : Bool :=
  match r.err with
  | some _ => false
  | none => decide (r.data.length > 0)

/-- The events of `k` rounds of the draining loop that got data on connection
`c`: a read, then the deadline set to 100 ms after the clock reading, the
readings being numbers `n`, `n + 1`, ... -/
def rearmTrace (env : Env) (c : Nat) : Nat → Nat → List Event
  | 0, _ => []
  | k + 1, n =>
    Event.conn c Op.read
      :: Event.conn c (Op.setReadDeadline (some (env.now n + 100 * Millisecond)))
      :: rearmTrace env c k (n + 1)

/-- The bytes of reads number `i`, `i + 1`, ..., `i + k - 1` on connection `c`,
one after the other. -/
def readBytes (env : Env) (c : Nat) : Nat → Nat → Bytes
  | 0, _ => []
  | k + 1, i => (env.read c i).data ++ readBytes env c k (i + 1)

/-! ## Describing texts -/

/-- A CSI sequence as the specification words it: ESC, `[`, zero or more bytes
from digits, `;` and `?`, then one ASCII letter. -/
def IsCSI (m : Bytes) : Prop :=
  ∃ (ps : Bytes) (l : Nat),
    m = 27 :: 91 :: (ps ++ [l]) ∧ (∀ p ∈ ps, isParamByte p = true) ∧ isLetterByte l = true

/-- The text has a substring that is a CSI sequence. -/
def ContainsCSI (s : Bytes) : Prop :=
  ∃ (pre m post : Bytes), s = pre ++ m ++ post ∧ IsCSI m

/-- Every ESC byte of the text begins a CSI sequence. -/
def EveryEscMatches (s : Bytes) : Prop :=
  ∀ (pre rest : Bytes), s = pre ++ 27 :: rest →
    ∃ (m post : Bytes), 27 :: rest = m ++ post ∧ IsCSI m

/-- True when the pattern matches at every ESC byte of the text. -/
def everyEscMatchesB : Bytes → Bool
  | [] => true
  | b :: rest => (b != 27 || (csiMatchLen (b :: rest)).isSome) && everyEscMatchesB rest

/-- The text begins with a CSI sequence. -/
def BeginsCSI (t : Bytes) : Prop :=
  ∃ (m post : Bytes), t = m ++ post ∧ IsCSI m

/-- Some ESC byte of the text begins no CSI sequence in the text and begins one
when it is followed by the sanitized form of what follows it in the text: the
removal of matches joins it to text that completes a sequence. -/
def EscJoined (s : Bytes) : Prop :=
  ∃ (pre rest : Bytes), s = pre ++ 27 :: rest ∧ ¬ BeginsCSI (27 :: rest) ∧
    BeginsCSI (27 :: CleanANSIEscapes rest)

/-- An incomplete CSI sequence: ESC alone, or ESC, `[` and zero or more bytes
from digits, `;` and `?`, without the letter. -/
def IsIncompleteCSI (d : Bytes) : Prop :=
  d = [27] ∨ ∃ ps : Bytes, d = 27 :: 91 :: ps ∧ ∀ p ∈ ps, isParamByte p = true

/-- Some CSI sequence of the text comes right after an incomplete one. -/
def HasIncompleteBeforeCSI (s : Bytes) : Prop :=
  ∃ (pre d m post : Bytes), s = pre ++ d ++ m ++ post ∧ IsIncompleteCSI d ∧ IsCSI m

/-- True when the text is zero or more parameter bytes and then a match of the
pattern. -/
def csiAfterParams : Bytes → Bool
  | [] => false
  | b :: rest => (csiMatchLen (b :: rest)).isSome || (isParamByte b && csiAfterParams rest)

/-- True when the text is a match of the pattern, or `[`, zero or more
parameter bytes and then a match. -/
def csiAfterIncomplete : Bytes → Bool
  | [] => false
  | b :: rest => (csiMatchLen (b :: rest)).isSome || (b == 91 && csiAfterParams rest)

/-- True when some ESC byte of the text is followed by a match of the pattern,
or by `[`, zero or more parameter bytes and then a match. -/
def hasIncompleteBeforeCSIB : Bytes → Bool
  | [] => false
  | b :: rest => (b == 27 && csiAfterIncomplete rest) || hasIncompleteBeforeCSIB rest

/-- True when the pattern matches at some position of the text. -/
def hasCSI : Bytes → Bool
  | [] => false
  | b :: rest => (csiMatchLen (b :: rest)).isSome || hasCSI rest

/-- Number of closes of connection `c` among the events. -/
def closeCount (c : Nat) : List Event → Nat
  | [] => 0
  | Event.conn c1 Op.close :: rest =>
    if c1 = c then closeCount c rest + 1 else closeCount c rest
  | _ :: rest => closeCount c rest

/-- What holds of the registry and the world after calls on the session
service that started in world `w0` with an empty registry: the sessions of the
registry have connections of their own, attached since `w0` and not closed
since; no connection was closed more than once since `w0`; and only
connections attached since `w0` were closed. -/
structure RegistryInv (env : Env) (w0 : World) (st : SessionService × World) : Prop where
  attachLe : w0.nExecAttach ≤ st.2.nExecAttach
  nodup : (st.1.sessions.map (fun e => e.2.Hijack)).Nodup
  live : ∀ e ∈ st.1.sessions,
    (∃ i, w0.nExecAttach ≤ i ∧ i < st.2.nExecAttach ∧ env.execAttach i = Except.ok e.2.Hijack) ∧
    closeCount e.2.Hijack st.2.trace = closeCount e.2.Hijack w0.trace
  once : ∀ c, closeCount c st.2.trace ≤ closeCount c w0.trace + 1
  closedAttached : ∀ c, closeCount c w0.trace < closeCount c st.2.trace →
    ∃ i, w0.nExecAttach ≤ i ∧ i < st.2.nExecAttach ∧ env.execAttach i = Except.ok c
  mono : ∀ c, closeCount c w0.trace ≤ closeCount c st.2.trace

/-- An environment in which every attach gives a new connection and every
exec target has an identifier of its own. -/
def freshConnEnv : Env :=
  { now := fun i => 1000 * i,
    write := fun _ _ => none,
    read := fun _ _ => { data := [], err := none },
    execCreate := fun i => Except.ok (List.replicate 16 (97 + i)),
    execAttach := fun i => Except.ok (100 + i) }

/-! ## Sample environments -/

/-- A world in which nothing has happened yet. -/
def freshWorld : World :=
  { nNow := 0, nWrites := fun _ => 0, nReads := fun _ => 0, nExecCreate := 0, nExecAttach := 0,
    trace := [] }

/-- The error `io.EOF`. -/
def errEOF : GoError := { msg := ascii "EOF", netTimeout := false }

/-- The error of a read that ran into the read deadline. -/
def errDeadline : GoError := { msg := ascii "read tcp: i/o timeout", netTimeout := true }

/-- The error of an operation on a connection that was closed. -/
def errClosed : GoError := { msg := ascii "use of closed network connection", netTimeout := false }

/-- An environment with the given outcomes of writes and reads (the same on
every connection); the runtime creates exec `0123456789abcdef` and attaches
connection 7. -/
def sampleEnv (write : Nat → Option GoError) (read : Nat → ReadResult) : Env :=
  { now := fun i => 1000 * i,
    write := fun _ i => write i,
    read := fun _ i => read i,
    execCreate := fun _ => Except.ok (ascii "0123456789abcdef"),
    execAttach := fun _ => Except.ok 7 }

/-- The session that `CreateSession` builds in `sampleEnv` for container `c1`. -/
def sampleSession : ExecSession :=
  { ContainerName := ascii "c1", ExecID := ascii "0123456789abcdef", Hijack := 7 }

/-- A stream that answers every read at once with zero bytes and no error. -/
def silentRead : Nat → ReadResult := fun _ => { data := [], err := none }

/-- A stream whose first read gives nothing, whose second read gives the bytes
of `hi` followed by a colour reset, and which has more to give afterwards. -/
def burstRead : Nat → ReadResult := fun i =>
  if i = 0 then { data := [], err := none }
  else if i = 1 then { data := ascii "hi\x1b[0m", err := none }
  else { data := ascii "more", err := none }

/-- A stream on which every read fails at once because the connection is
closed. -/
def closedRead : Nat → ReadResult := fun _ => { data := [], err := some errClosed }

/-- How the loop of `GetSessionOutput` is left at a read that is not a data
read, `output` being what was accumulated before it. -/
def drainStop (output : Bytes) (r : ReadResult) : DrainExit :=
  match r.err with
  | some err => if err.netTimeout then DrainExit.done output else DrainExit.fail err
  | none => DrainExit.done output

/-- A stream with two chunks pending, after which the read runs into the
deadline. -/
def pendingRead : Nat → ReadResult := fun i =>
  if i = 0 then { data := ascii "\x1b[1mto", err := none }
  else if i = 1 then { data := ascii "tal 0", err := none }
  else { data := [], err := some errDeadline }

/-- A stream with one chunk pending, after which the remote side has closed. -/
def endingRead : Nat → ReadResult := fun i =>
  if i = 0 then { data := ascii "bye", err := none }
  else { data := [], err := some errEOF }

/-- An environment in which the runtime fails to create the exec target. -/
def createFailsEnv : Env :=
  { now := fun i => 1000 * i,
    write := fun _ _ => none,
    read := fun _ _ => { data := [], err := none },
    execCreate := fun _ => Except.error { msg := ascii "No such container: c1", netTimeout := false },
    execAttach := fun _ => Except.ok 7 }

/-- A session created for container `web1`. -/
def web1Session : ExecSession :=
  { ContainerName := ascii "web1", ExecID := ascii "0123456789abcdef", Hijack := 7 }

/-- A request that names container `web2` for the session of `web1`. -/
def web2Request : ExecRequest :=
  { ContainerName := ascii "web2", Cmd := ascii "id", ExecSessionID := ascii "0123456789ab" }

/-- An environment in which the exec target is created and the attach fails. -/
def attachFailsEnv : Env :=
  { now := fun i => 1000 * i,
    write := fun _ _ => none,
    read := fun _ _ => { data := [], err := none },
    execCreate := fun _ => Except.ok (ascii "0123456789abcdef"),
    execAttach := fun _ => Except.error { msg := ascii "container is not running", netTimeout := false } }

/-- A second session, of container `db1`, on connection 8. -/
def db1Session : ExecSession :=
  { ContainerName := ascii "db1", ExecID := ascii "fedcba9876543210", Hijack := 8 }

/-- An environment like `sampleEnv` whose runtime creates exec
`0123456789abXYZ` and attaches connection 9: the identifier shares its first
12 bytes with `0123456789abcdef`. -/
def collidingEnv : Env :=
  { now := fun i => 1000 * i,
    write := fun _ _ => none,
    read := fun _ _ => { data := [], err := none },
    execCreate := fun _ => Except.ok (ascii "0123456789abXYZ"),
    execAttach := fun _ => Except.ok 9 }

/-- The session that `CreateSession` builds in `collidingEnv` for container `c2`. -/
def collidingSession : ExecSession :=
  { ContainerName := ascii "c2", ExecID := ascii "0123456789abXYZ", Hijack := 9 }

/-- A stream whose first read returns `io.EOF` with no bytes and whose later
reads would give `hi`. -/
def eofThenDataRead : Nat → ReadResult := fun i =>
  if i = 0 then { data := [], err := some errEOF } else { data := ascii "hi", err := none }

/-- A stream whose first read returns an i/o timeout with no bytes and whose
later reads would give `hi`. -/
def timeoutThenDataRead : Nat → ReadResult := fun i =>
  if i = 0 then { data := [], err := some errDeadline } else { data := ascii "hi", err := none }

/-- A stream whose reads return the bytes `hi` together with `io.EOF`. -/
def dataWithEOFRead : Nat → ReadResult := fun _ => { data := ascii "hi", err := some errEOF }

/-- A stream whose reads return the bytes `hi` together with an i/o timeout. -/
def dataWithTimeoutRead : Nat → ReadResult :=
  fun _ => { data := ascii "hi", err := some errDeadline }

/-- A stream whose reads return the bytes `hi` together with the error of a
closed connection. -/
def dataWithClosedRead : Nat → ReadResult := fun _ => { data := ascii "hi", err := some errClosed }

/-- A stream that answers the command with `hi` and a line end and is then
idle: the next read runs into the deadline. -/
def hiThenIdleRead : Nat → ReadResult := fun i =>
  if i = 0 then { data := ascii "hi\r\n", err := none }
  else { data := [], err := some errDeadline }

/-! ## The registry -/

theorem mapGet_mapDelete_self (m : List (Bytes × ExecSession)) (k : Bytes) :
    mapGet (mapDelete m k) k = none := by
  induction m with
  | nil => rfl
  | cons e rest ih =>
    obtain ⟨k1, v⟩ := e
    by_cases h : k1 = k
    · simpa [mapDelete, List.filter_cons, h] using ih
    · simpa [mapDelete, List.filter_cons, h, mapGet] using ih

theorem mapGet_mapDelete_ne (m : List (Bytes × ExecSession)) (k k2 : Bytes) (hk : k2 ≠ k) :
    mapGet (mapDelete m k2) k = mapGet m k := by
  induction m with
  | nil => rfl
  | cons e rest ih =>
    obtain ⟨k1, v⟩ := e
    unfold mapDelete at ih ⊢
    by_cases h : k1 = k2
    · subst h
      have h2 : mapGet ((k1, v) :: rest) k = mapGet rest k := by simp [mapGet, hk]
      rw [h2, ← ih]
      simp [List.filter_cons]
    · by_cases h1 : k1 = k
      · subst h1
        simp [List.filter_cons, h, mapGet]
      · simpa [List.filter_cons, h, mapGet, h1] using ih

theorem mapGet_mapSet_self (m : List (Bytes × ExecSession)) (k : Bytes) (v : ExecSession) :
    mapGet (mapSet m k v) k = some v := by
  simp [mapSet, mapGet]

theorem mapGet_eq_none_of_absent (m : List (Bytes × ExecSession)) (k : Bytes)
    (h : ∀ e ∈ m, e.1 ≠ k) : mapGet m k = none := by
  induction m with
  | nil => rfl
  | cons e rest ih =>
    obtain ⟨k1, v⟩ := e
    have h1 : k1 ≠ k := h (k1, v) (List.mem_cons_self _ _)
    have h2 : ∀ e ∈ rest, e.1 ≠ k := fun e he => h e (List.mem_cons_of_mem _ he)
    simpa [mapGet, h1] using ih h2

theorem CloseSession_get_other (env : Env) (ss : SessionService) (w : World) (k k2 : Bytes)
    (hk : k2 ≠ k) :
    (SessionService.CloseSession env ss k2 w).2.1.GetSession k = ss.GetSession k := by
  unfold SessionService.CloseSession SessionService.GetSession
  cases hg : mapGet ss.sessions k2 with
  | none => rfl
  | some v => exact mapGet_mapDelete_ne ss.sessions k k2 hk

theorem CloseSession_get_none (env : Env) (ss : SessionService) (w : World) (k k2 : Bytes)
    (h : ss.GetSession k = none) :
    (SessionService.CloseSession env ss k2 w).2.1.GetSession k = none := by
  by_cases hk : k2 = k
  · unfold SessionService.CloseSession
    unfold SessionService.GetSession at h
    rw [hk, h]
    exact h
  · rw [CloseSession_get_other env ss w k k2 hk]; exact h

theorem runCalls_get_of_no_close (env : Env) (k : Bytes) (calls : List RegistryCall)
    (hc : RegistryCall.close k ∉ calls) (st : SessionService × World) :
    (runCalls env calls st).1.GetSession k = st.1.GetSession k := by
  induction calls generalizing st with
  | nil => rfl
  | cons c rest ih =>
    have hrest : RegistryCall.close k ∉ rest := fun hm => hc (List.mem_cons_of_mem _ hm)
    cases c with
    | get id => exact ih hrest st
    | close id =>
      have hid : id ≠ k := by
        intro he
        apply hc
        rw [he]
        exact List.mem_cons_self _ _
      show (runCalls env rest _).1.GetSession k = st.1.GetSession k
      rw [ih hrest]
      exact CloseSession_get_other env st.1 st.2 k id hid

theorem runCalls_get_none (env : Env) (k : Bytes) (calls : List RegistryCall)
    (st : SessionService × World) (h : st.1.GetSession k = none) :
    (runCalls env calls st).1.GetSession k = none := by
  induction calls generalizing st with
  | nil => exact h
  | cons c rest ih =>
    cases c with
    | get id => exact ih st h
    | close id =>
      show (runCalls env rest _).1.GetSession k = none
      apply ih
      exact CloseSession_get_none env st.1 st.2 k id h

theorem CreateSession_ok_sessions (env : Env) (ss : SessionService) (containerName : Bytes)
    (w : World) (s : ExecSession) (ss1 : SessionService) (w1 : World)
    (h : SessionService.CreateSession env ss containerName w = (Except.ok s, ss1, w1)) :
    ss1.sessions = mapSet ss.sessions s.GetSessionID s := by
  unfold SessionService.CreateSession at h
  cases hc : env.execCreate w.nExecCreate with
  | error e => simp [clientExecCreate, hc] at h
  | ok respID =>
    cases ha : env.execAttach w.nExecAttach with
    | error e => simp [clientExecCreate, clientExecAttach, hc, ha] at h
    | ok hijack =>
      simp [clientExecCreate, clientExecAttach, hc, ha] at h
      obtain ⟨hs, hss, _⟩ := h
      rw [← hss, ← hs]
      rfl

/-- C1: after a successful `CreateSession` returning `s`, looking up
`s.GetSessionID()` yields `s`; it still does after any run of `GetSession`
calls and of `CloseSession` calls on other ids; once `CloseSession` is called
on that id (which then returns true) the lookup reports absence, and keeps
doing so under further `GetSession` and `CloseSession` calls. -/
theorem C1_lookup_between_create_and_close (env : Env) (ss : SessionService)
    (containerName : Bytes) (w : World) (s : ExecSession) (ss1 : SessionService) (w1 : World)
    (h : SessionService.CreateSession env ss containerName w = (Except.ok s, ss1, w1)) :
    ss1.GetSession s.GetSessionID = some s ∧
    ∀ calls : List RegistryCall, RegistryCall.close s.GetSessionID ∉ calls →
      (runCalls env calls (ss1, w1)).1.GetSession s.GetSessionID = some s ∧
      (SessionService.CloseSession env (runCalls env calls (ss1, w1)).1 s.GetSessionID
          (runCalls env calls (ss1, w1)).2).1 = true ∧
      ∀ later : List RegistryCall,
        (runCalls env later
          (SessionService.CloseSession env (runCalls env calls (ss1, w1)).1 s.GetSessionID
            (runCalls env calls (ss1, w1)).2).2).1.GetSession s.GetSessionID = none := by
  have h0 : ss1.GetSession s.GetSessionID = some s := by
    unfold SessionService.GetSession
    rw [CreateSession_ok_sessions env ss containerName w s ss1 w1 h]
    exact mapGet_mapSet_self _ _ _
  refine ⟨h0, ?_⟩
  intro calls hc
  have h1 : (runCalls env calls (ss1, w1)).1.GetSession s.GetSessionID = some s := by
    rw [runCalls_get_of_no_close env _ calls hc]; exact h0
  refine ⟨h1, ?_, ?_⟩
  · unfold SessionService.CloseSession
    unfold SessionService.GetSession at h1
    rw [h1]
  · intro later
    apply runCalls_get_none
    unfold SessionService.CloseSession
    unfold SessionService.GetSession at h1
    rw [h1]
    exact mapGet_mapDelete_self _ _

/-- Witness of C1 in `sampleEnv`: the created session is found under the
12-byte id `0123456789ab`. -/
theorem C1_lookup_between_create_and_close_witness :
    SessionService.CreateSession (sampleEnv (fun _ => none) silentRead) NewSessionService
        (ascii "c1") freshWorld
      = (Except.ok sampleSession,
         { sessions := [(ascii "0123456789ab", sampleSession)] },
         (SessionService.CreateSession (sampleEnv (fun _ => none) silentRead) NewSessionService
            (ascii "c1") freshWorld).2.2) ∧
    SessionService.GetSession { sessions := [(ascii "0123456789ab", sampleSession)] }
        sampleSession.GetSessionID = some sampleSession :=
  ⟨rfl, (C1_lookup_between_create_and_close (sampleEnv (fun _ => none) silentRead)
      NewSessionService (ascii "c1") freshWorld sampleSession _ _ rfl).1⟩

/-- C2: when id `X` is mapped to session `s`, `CloseSession(X)` returns true,
runs `s.Close()` once, which is a write of `exit\n` followed by a close on the
connection of `s` and nothing else, and leaves a registry without `X`. -/
theorem C2_close_present (env : Env) (ss : SessionService) (w : World) (X : Bytes)
    (s : ExecSession) (h : ss.GetSession X = some s) :
    (SessionService.CloseSession env ss X w).1 = true ∧
    (SessionService.CloseSession env ss X w).2.2 = ExecSession.Close env s w ∧
    (SessionService.CloseSession env ss X w).2.2.trace =
      w.trace ++ [Event.conn s.Hijack (Op.write (ascii "exit\n")), Event.conn s.Hijack Op.close] ∧
    (SessionService.CloseSession env ss X w).2.1.GetSession X = none ∧
    ∀ e ∈ (SessionService.CloseSession env ss X w).2.1.sessions, e.1 ≠ X := by
  unfold SessionService.GetSession at h
  unfold SessionService.CloseSession
  rw [h]
  refine ⟨rfl, rfl, ?_, mapGet_mapDelete_self _ _, ?_⟩
  · simp [ExecSession.Close, connWrite, connClose]
  · intro e he
    simpa [mapDelete] using (List.mem_filter.mp he).2

/-- Witness of C2: closing the one session of a registry. -/
theorem C2_close_present_witness :
    SessionService.GetSession { sessions := [(ascii "0123456789ab", sampleSession)] }
        (ascii "0123456789ab") = some sampleSession ∧
    (SessionService.CloseSession (sampleEnv (fun _ => none) silentRead)
        { sessions := [(ascii "0123456789ab", sampleSession)] } (ascii "0123456789ab")
        freshWorld).1 = true :=
  ⟨rfl, (C2_close_present (sampleEnv (fun _ => none) silentRead)
      { sessions := [(ascii "0123456789ab", sampleSession)] } freshWorld
      (ascii "0123456789ab") sampleSession rfl).1⟩

/-- C3: when no entry of the registry has key `X`, `CloseSession(X)` returns
false and leaves the registry and the world (so every connection) as they
were, and `GetSession(X)` reports absence; its result type has no error. -/
theorem C3_close_absent (env : Env) (ss : SessionService) (w : World) (X : Bytes)
    (h : ∀ e ∈ ss.sessions, e.1 ≠ X) :
    SessionService.CloseSession env ss X w = (false, ss, w) ∧
    ss.GetSession X = none := by
  have hg : mapGet ss.sessions X = none := mapGet_eq_none_of_absent _ _ h
  constructor
  · unfold SessionService.CloseSession
    rw [hg]
  · exact hg

/-- Witness of C3: closing an id that was never created. -/
theorem C3_close_absent_witness :
    (∀ e ∈ [(ascii "0123456789ab", sampleSession)], e.1 ≠ ascii "ffffffffffff") ∧
    SessionService.CloseSession (sampleEnv (fun _ => none) silentRead)
        { sessions := [(ascii "0123456789ab", sampleSession)] } (ascii "ffffffffffff") freshWorld
      = (false, { sessions := [(ascii "0123456789ab", sampleSession)] }, freshWorld) :=
  ⟨by decide, (C3_close_absent (sampleEnv (fun _ => none) silentRead)
      { sessions := [(ascii "0123456789ab", sampleSession)] } freshWorld (ascii "ffffffffffff")
      (by decide)).1⟩

/-! ## The polling loop of `ExecuteCommandWithTimeout` -/

theorem wrapInt_of_range (i : Int) (h1 : minInt ≤ i) (h2 : i ≤ maxInt) : wrapInt i = i := by
  unfold wrapInt
  unfold minInt at h1
  unfold maxInt at h2
  omega

theorem idleRounds_nReads (env : Env) (c : Nat) (j : Nat) (w : World) :
    (idleRounds env c j w).nReads c = w.nReads c + j := by
  induction j generalizing w with
  | zero => rfl
  | succ j ih =>
    rw [idleRounds, ih]
    simp [timeSleep, connRead]
    omega

theorem idleRounds_trace (env : Env) (c : Nat) (j : Nat) (w : World) :
    (idleRounds env c j w).trace = w.trace ++ idleTrace c j := by
  induction j generalizing w with
  | zero => simp [idleRounds, idleTrace]
  | succ j ih =>
    rw [idleRounds, ih]
    simp [timeSleep, connRead, idleTrace]

theorem pollLoop_idle (env : Env) (c : Nat) (timeout : Int) (j : Nat) :
    ∀ (fuel : Nat) (counter : Int) (output : Bytes) (w : World),
      (∀ i, i < j → readErrBreaks (env.read c (w.nReads c + i)).err = false ∧
        (env.read c (w.nReads c + i)).data = []) →
      minInt ≤ counter → counter + j ≤ timeout + 1 → counter + j ≤ maxInt →
      pollLoop env c timeout (fuel + j) counter output w
        = pollLoop env c timeout fuel (counter + j) output (idleRounds env c j w) := by
  induction j with
  | zero =>
    intro fuel counter output w _ _ _ _
    simp [idleRounds]
  | succ j ih =>
    intro fuel counter output w hr hmin hle hmax
    have h0 := hr 0 (Nat.succ_pos j)
    simp only [Nat.add_zero] at h0
    have hc : counter ≤ timeout := by push_cast at hle; omega
    have hw : wrapInt (counter + 1) = counter + 1 := by
      apply wrapInt_of_range
      · omega
      · push_cast at hmax; omega
    have hstep : pollLoop env c timeout (fuel + (j + 1)) counter output w
        = pollLoop env c timeout (fuel + j) (counter + 1) output
            (timeSleep Second (connRead env c w).2) := by
      show pollLoop env c timeout ((fuel + j) + 1) counter output w = _
      rw [pollLoop]
      simp [hc, connRead, h0.1, h0.2, hw]
    rw [hstep, ih fuel (counter + 1) output (timeSleep Second (connRead env c w).2)]
    · have e1 : counter + 1 + (j : Int) = counter + ((j + 1 : Nat) : Int) := by
        push_cast; omega
      rw [e1]
      rfl
    · intro i hi
      have h1 := hr (i + 1) (Nat.succ_lt_succ hi)
      have e2 : (timeSleep Second (connRead env c w).2).nReads c + i = w.nReads c + (i + 1) := by
        simp [timeSleep, connRead]
        omega
      rw [e2]
      exact h1
    · omega
    · push_cast at hle; omega
    · push_cast at hmax; omega

theorem pollLoop_data (env : Env) (c : Nat) (timeout : Int) (fuel : Nat) (counter : Int)
    (output : Bytes) (w : World) (hc : counter ≤ timeout)
    (he : readErrBreaks (env.read c (w.nReads c)).err = false)
    (hd : (env.read c (w.nReads c)).data ≠ []) :
    pollLoop env c timeout (fuel + 1) counter output w
      = some (output ++ (env.read c (w.nReads c)).data, (connRead env c w).2) := by
  have hl : 0 < (env.read c (w.nReads c)).data.length := List.length_pos.mpr hd
  rw [pollLoop]
  simp [hc, connRead, he, hl]

/-- C4: `ExecuteCommandWithTimeout` stops at the first read that yields bytes.
If the write succeeds, the first `k - 1` reads return zero bytes and no
end-of-stream or timeout error, and read number `k` (with `1 ≤ k ≤ timeout`)
returns bytes `data` and no error, then the call returns
`(CleanANSIEscapes data, nil)` after a trace of one write, the 2 s sleep,
`k - 1` rounds of read and 1 s sleep, and the `k`-th read; the connection has
advanced by exactly `k` reads, so what later reads return is left for later
calls. -/
theorem C4_stops_at_first_data (env : Env) (fuel : Nat) (s : ExecSession) (cmd : Bytes)
    (timeout : Int) (k : Nat) (w : World) (data : Bytes)
    (hk1 : 1 ≤ k) (hk2 : (k : Int) ≤ timeout) (ht : timeout ≤ maxInt)
    (hw : env.write s.Hijack (w.nWrites s.Hijack) = none)
    (hidle : ∀ i, i + 1 < k →
      (env.read s.Hijack (w.nReads s.Hijack + i)).data = [] ∧
      readErrBreaks (env.read s.Hijack (w.nReads s.Hijack + i)).err = false)
    (hdata : env.read s.Hijack (w.nReads s.Hijack + (k - 1)) = { data := data, err := none })
    (hne : data ≠ []) (hf : k ≤ fuel) :
    ∃ W : World,
      s.ExecuteCommandWithTimeout env fuel cmd timeout w
        = some ((CleanANSIEscapes data, none), W) ∧
      W.nReads s.Hijack = w.nReads s.Hijack + k ∧
      W.trace = w.trace
        ++ [Event.conn s.Hijack (Op.write (cmd ++ ascii "\n")), Event.sleep (2 * Second)]
        ++ idleTrace s.Hijack (k - 1) ++ [Event.conn s.Hijack Op.read] ∧
      readCount (idleTrace s.Hijack (k - 1) ++ [Event.conn s.Hijack Op.read]) = k := by
  obtain ⟨j, rfl⟩ : ∃ j, k = j + 1 := ⟨k - 1, by omega⟩
  obtain ⟨f, rfl⟩ : ∃ f, fuel = (f + 1) + j := ⟨fuel - (j + 1), by omega⟩
  simp only [Nat.add_sub_cancel] at hdata ⊢
  generalize hc : s.Hijack = c at *
  have hw2 : ∃ w2 : World, w2 = timeSleep (2 * Second) (connWrite env c (cmd ++ ascii "\n") w).2 :=
    ⟨_, rfl⟩
  obtain ⟨w2, hw2⟩ := hw2
  have hn : w2.nReads c = w.nReads c := by rw [hw2]; rfl
  have hloop : pollLoop env c timeout ((f + 1) + j) 1 [] w2
      = some (data, (connRead env c (idleRounds env c j w2)).2) := by
    rw [pollLoop_idle env c timeout j (f + 1) 1 [] w2]
    · have hr : env.read c ((idleRounds env c j w2).nReads c) = { data := data, err := none } := by
        rw [idleRounds_nReads, hn]; exact hdata
      rw [pollLoop_data]
      · rw [hr]; rfl
      · push_cast at hk2; omega
      · rw [hr]; rfl
      · rw [hr]; exact hne
    · intro i hi
      rw [hn]
      have := hidle i (by omega)
      exact ⟨this.2, this.1⟩
    · unfold minInt; omega
    · push_cast at hk2; omega
    · push_cast at hk2; omega
  refine ⟨(connRead env c (idleRounds env c j w2)).2, ?_, ?_, ?_, ?_⟩
  · unfold ExecSession.ExecuteCommandWithTimeout
    rw [hc]
    have e1 : connWrite env c (cmd ++ ascii "\n") w
        = (none, (connWrite env c (cmd ++ ascii "\n") w).2) := by
      simp [connWrite, hw]
    rw [e1]
    simp only []
    rw [← hw2, hloop]
  · simp only [connRead, Function.update_same]
    rw [idleRounds_nReads, hn]
    omega
  · simp only [connRead]
    rw [idleRounds_trace, hw2]
    simp [timeSleep, connWrite]
  · clear hloop hidle hdata
    induction j with
    | zero => rfl
    | succ j ih => simp [idleTrace, readCount] at ih ⊢; omega

/-- Witness of C4: nothing at the first read, `hi` and a colour reset at the
second, with a budget of 5. -/
theorem C4_stops_at_first_data_witness :
    burstRead 1 = { data := ascii "hi\x1b[0m", err := none } ∧
    ∃ W : World,
      sampleSession.ExecuteCommandWithTimeout (sampleEnv (fun _ => none) burstRead) 10
          (ascii "echo hi") 5 freshWorld
        = some ((CleanANSIEscapes (ascii "hi\x1b[0m"), none), W) ∧
      W.nReads 7 = 0 + 2 :=
  ⟨rfl, (C4_stops_at_first_data (sampleEnv (fun _ => none) burstRead) 10 sampleSession
      (ascii "echo hi") 5 2 freshWorld (ascii "hi\x1b[0m") (by decide) (by decide) (by decide) rfl
      (fun i hi => by
        have h0 : i = 0 := by omega
        subst h0
        exact ⟨rfl, rfl⟩)
      rfl (by decide) (by decide)).imp (fun _ h => ⟨h.1, h.2.1⟩)⟩

theorem readCount_append (a b : List Event) : readCount (a ++ b) = readCount a + readCount b := by
  induction a with
  | nil => simp [readCount]
  | cons e rest ih =>
    cases e with
    | conn c op =>
      cases op <;> simp [readCount, ih]
      omega
    | sleep d => simp [readCount, ih]
    | execCreate x y => simp [readCount, ih]
    | execAttach x => simp [readCount, ih]

theorem writeCount_append (a b : List Event) :
    writeCount (a ++ b) = writeCount a + writeCount b := by
  induction a with
  | nil => simp [writeCount]
  | cons e rest ih =>
    cases e with
    | conn c op =>
      cases op <;> simp [writeCount, ih]
      omega
    | sleep d => simp [writeCount, ih]
    | execCreate x y => simp [writeCount, ih]
    | execAttach x => simp [writeCount, ih]

theorem secondSleepCount_append (a b : List Event) :
    secondSleepCount (a ++ b) = secondSleepCount a + secondSleepCount b := by
  induction a with
  | nil => simp [secondSleepCount]
  | cons e rest ih =>
    cases e with
    | conn c op => simp [secondSleepCount, ih]
    | sleep d =>
      by_cases hd : d = Second
      · simp [secondSleepCount, ih, hd]; omega
      · simp [secondSleepCount, ih, hd]
    | execCreate x y => simp [secondSleepCount, ih]
    | execAttach x => simp [secondSleepCount, ih]

theorem sleepTotal_append (a b : List Event) :
    sleepTotal (a ++ b) = sleepTotal a + sleepTotal b := by
  induction a with
  | nil => simp [sleepTotal]
  | cons e rest ih =>
    cases e with
    | conn c op => simp [sleepTotal, ih]
    | sleep d => simp [sleepTotal, ih]; omega
    | execCreate x y => simp [sleepTotal, ih]
    | execAttach x => simp [sleepTotal, ih]

theorem idleTrace_counts (c : Nat) (j : Nat) :
    readCount (idleTrace c j) = j ∧ writeCount (idleTrace c j) = 0 ∧
    secondSleepCount (idleTrace c j) = j ∧ sleepTotal (idleTrace c j) = j * Second := by
  induction j with
  | zero => simp [idleTrace, readCount, writeCount, secondSleepCount, sleepTotal]
  | succ j ih =>
    obtain ⟨h1, h2, h3, h4⟩ := ih
    simp [idleTrace, readCount, writeCount, secondSleepCount, sleepTotal, h1, h2, h3, h4]
    ring

/-- Every return of the polling loop leaves a trace of `j` idle rounds,
followed or not by one last read. -/
theorem pollLoop_trace (env : Env) (c : Nat) (timeout : Int) (fuel : Nat) :
    ∀ (counter : Int) (output : Bytes) (w : World) (out : Bytes) (W : World),
      pollLoop env c timeout fuel counter output w = some (out, W) →
      ∃ (j : Nat) (b : Bool),
        W.trace = w.trace ++ idleTrace c j ++ (if b then [Event.conn c Op.read] else []) := by
  induction fuel with
  | zero =>
    intro counter output w out W h
    simp [pollLoop] at h
  | succ fuel ih =>
    intro counter output w out W h
    rw [pollLoop] at h
    by_cases hc : counter ≤ timeout
    · simp only [hc, if_true] at h
      by_cases hb : readErrBreaks (connRead env c w).1.err = true
      · simp only [hb, if_true] at h
        refine ⟨0, true, ?_⟩
        have hW : (connRead env c w).2 = W := (Prod.mk.inj (Option.some.inj h)).2
        rw [← hW]
        simp [connRead, idleTrace]
      · simp only [hb] at h
        by_cases hd : (connRead env c w).1.data.length > 0
        · simp only [hd, if_true] at h
          refine ⟨0, true, ?_⟩
          have hW : (connRead env c w).2 = W := (Prod.mk.inj (Option.some.inj h)).2
          rw [← hW]
          simp [connRead, idleTrace]
        · simp only [hd] at h
          obtain ⟨j, b, hj⟩ := ih _ _ _ _ _ h
          refine ⟨j + 1, b, ?_⟩
          rw [hj]
          simp [timeSleep, connRead, idleTrace]
    · simp only [hc] at h
      refine ⟨0, false, ?_⟩
      have hW : w = W := (Prod.mk.inj (Option.some.inj h)).2
      rw [← hW]
      simp [idleTrace]

/-- C5: the first stream operation of `ExecuteCommandWithTimeout` is a write of
the command followed by one newline, and the call writes nothing else; if that
write fails with `err` the call returns `("", err)` with the write as its only
effect (no read, no retry), and the `ExecuteCommand` handler then answers 500
with the registry as it was, so the session is still found under its id. -/
theorem C5_write_failure_surfaced (env : Env) (fuel : Nat) (s : ExecSession) (cmd : Bytes)
    (timeout : Int) (w : World) :
    (∀ res W, s.ExecuteCommandWithTimeout env fuel cmd timeout w = some (res, W) →
      ∃ rest, W.trace = w.trace ++ Event.conn s.Hijack (Op.write (cmd ++ [10])) :: rest ∧
        writeCount rest = 0) ∧
    (∀ err, env.write s.Hijack (w.nWrites s.Hijack) = some err →
      ∃ W, s.ExecuteCommandWithTimeout env fuel cmd timeout w = some (([], some err), W) ∧
        W.trace = w.trace ++ [Event.conn s.Hijack (Op.write (cmd ++ [10]))] ∧
        W.nReads = w.nReads ∧
        ∀ (ss : SessionService) (req : ExecRequest),
          ss.GetSession req.ExecSessionID = some s → s.ContainerName = req.ContainerName →
          req.Cmd = cmd → timeout = 5 →
          SessionHandler.ExecuteCommand env fuel ss (Except.ok req) w
            = some ({ code := 500, body := [("error", err.msg)] }, ss, W)) := by
  have hnl : ascii "\n" = [10] := rfl
  constructor
  · intro res W h
    unfold ExecSession.ExecuteCommandWithTimeout at h
    rw [hnl] at h
    cases hw : env.write s.Hijack (w.nWrites s.Hijack) with
    | some err =>
      simp only [connWrite, hw] at h
      refine ⟨[], ?_, rfl⟩
      have hW := (Prod.mk.inj (Option.some.inj h)).2
      rw [← hW]
    | none =>
      simp only [connWrite, hw] at h
      cases hp : pollLoop env s.Hijack timeout fuel 1 []
          (timeSleep (2 * Second)
            { w with nWrites := Function.update w.nWrites s.Hijack (w.nWrites s.Hijack + 1),
                     trace := w.trace ++ [Event.conn s.Hijack (Op.write (cmd ++ [10]))] }) with
      | none => simp [hp] at h
      | some r =>
        obtain ⟨out, W2⟩ := r
        simp only [hp] at h
        have hW := (Prod.mk.inj (Option.some.inj h)).2
        obtain ⟨j, b, hj⟩ := pollLoop_trace env s.Hijack timeout fuel _ _ _ _ _ hp
        refine ⟨Event.sleep (2 * Second) :: (idleTrace s.Hijack j
          ++ (if b then [Event.conn s.Hijack Op.read] else [])), ?_, ?_⟩
        · rw [← hW, hj]
          simp [timeSleep]
        · have hi := (idleTrace_counts s.Hijack j).2.1
          cases b <;> simp [writeCount, writeCount_append, hi]
  · intro err hw
    have hrun : s.ExecuteCommandWithTimeout env fuel cmd timeout w
        = some (([], some err), (connWrite env s.Hijack (cmd ++ [10]) w).2) := by
      unfold ExecSession.ExecuteCommandWithTimeout
      rw [hnl]
      simp [connWrite, hw]
    refine ⟨(connWrite env s.Hijack (cmd ++ [10]) w).2, hrun, rfl, rfl, ?_⟩
    intro ss req hg hcn hcmd ht
    subst hcmd
    subst ht
    unfold SessionHandler.ExecuteCommand
    simp only [hg]
    rw [if_neg (not_not.mpr hcn), hrun]

/-- Witness of C5: the write fails on a closed connection. -/
theorem C5_write_failure_surfaced_witness :
    (sampleEnv (fun _ => some errClosed) silentRead).write 7 (freshWorld.nWrites 7)
      = some errClosed ∧
    ∃ W, sampleSession.ExecuteCommandWithTimeout (sampleEnv (fun _ => some errClosed) silentRead)
          10 (ascii "ls") 5 freshWorld = some (([], some errClosed), W) ∧
      W.trace = freshWorld.trace ++ [Event.conn 7 (Op.write (ascii "ls" ++ [10]))] :=
  ⟨rfl, ((C5_write_failure_surfaced (sampleEnv (fun _ => some errClosed) silentRead) 10
      sampleSession (ascii "ls") 5 freshWorld).2 errClosed rfl).imp
        (fun _ h => ⟨h.1, h.2.1⟩)⟩

/-- C6 at a failing input: the write succeeds and every read fails with
`use of closed network connection`, which is neither end-of-stream nor a
timeout; the loop polls five times and the call returns `("", nil)`: the
read error is not returned. -/
theorem C6_read_failure_not_surfaced :
    readErrBreaks (some errClosed) = false ∧
    (sampleSession.ExecuteCommandWithTimeout (sampleEnv (fun _ => none) closedRead) 10
        (ascii "ls") 5 freshWorld).map Prod.fst = some ([], none) ∧
    (sampleSession.ExecuteCommandWithTimeout (sampleEnv (fun _ => none) closedRead) 10
        (ascii "ls") 5 freshWorld).map (fun r => readCount r.2.trace) = some 5 := by
  refine ⟨by decide, by rfl, by rfl⟩

/-- With a budget below the largest `int` the polling loop returns after at
most `n` iterations, `n` bounding the distance of `counter` to the budget. -/
theorem pollLoop_terminates (env : Env) (c : Nat) (timeout : Int) (ht : timeout < maxInt)
    (n : Nat) :
    ∀ (fuel : Nat) (counter : Int) (output : Bytes) (w : World),
      minInt ≤ counter → timeout + 1 ≤ counter + n → n < fuel →
      ∃ (out : Bytes) (W : World) (j : Nat) (b : Bool),
        pollLoop env c timeout fuel counter output w = some (out, W) ∧
        W.trace = w.trace ++ idleTrace c j ++ (if b then [Event.conn c Op.read] else []) ∧
        j + (if b then 1 else 0) ≤ n ∧
        (b = false → out = output) := by
  induction n with
  | zero =>
    intro fuel counter output w _ hn hf
    obtain ⟨f, rfl⟩ : ∃ f, fuel = f + 1 := ⟨fuel - 1, by omega⟩
    have hc : ¬ counter ≤ timeout := by push_cast at hn; omega
    refine ⟨output, w, 0, false, ?_, ?_, ?_, fun _ => rfl⟩
    · rw [pollLoop]; simp [hc]
    · simp [idleTrace]
    · simp
  | succ n ih =>
    intro fuel counter output w hmin hn hf
    obtain ⟨f, rfl⟩ : ∃ f, fuel = f + 1 := ⟨fuel - 1, by omega⟩
    by_cases hc : counter ≤ timeout
    · by_cases hb : readErrBreaks (connRead env c w).1.err = true
      · refine ⟨output, (connRead env c w).2, 0, true, ?_, ?_, ?_, ?_⟩
        · rw [pollLoop]; simp [hc, hb]
        · simp [idleTrace, connRead]
        · simp
        · intro h; cases h
      · by_cases hd : (connRead env c w).1.data.length > 0
        · refine ⟨output ++ (connRead env c w).1.data, (connRead env c w).2, 0, true, ?_, ?_, ?_, ?_⟩
          · rw [pollLoop]; simp only [hc, if_true, hb, hd]; rfl
          · simp [idleTrace, connRead]
          · simp
          · intro h; cases h
        · have hw : wrapInt (counter + 1) = counter + 1 := by
            apply wrapInt_of_range
            · omega
            · omega
          obtain ⟨out, W, j, b, h1, h2, h3, h4⟩ :=
            ih f (counter + 1) output (timeSleep Second (connRead env c w).2)
              (by omega) (by push_cast at hn; omega) (by omega)
          refine ⟨out, W, j + 1, b, ?_, ?_, ?_, h4⟩
          · rw [pollLoop]; simp only [hc, if_true, hb, hd]
            rw [← h1, hw]
            rfl
          · rw [h2]
            simp [timeSleep, connRead, idleTrace]
          · omega
    · refine ⟨output, w, 0, false, ?_, ?_, ?_, fun _ => rfl⟩
      · rw [pollLoop]; simp [hc]
      · simp [idleTrace]
      · simp

theorem wrapInt_le_maxInt (i : Int) : wrapInt i ≤ maxInt := by
  unfold wrapInt maxInt
  omega

/-- With the largest `int` as budget on a closed connection, every read of
which fails at once with an error that does not end the loop, the polling loop
does not return, whatever the fuel. -/
theorem pollLoop_closed_maxInt (c : Nat) (fuel : Nat) :
    ∀ (counter : Int) (output : Bytes) (w : World), counter ≤ maxInt →
      pollLoop (sampleEnv (fun _ => none) closedRead) c maxInt fuel counter output w = none := by
  induction fuel with
  | zero => intro counter output w _; rfl
  | succ fuel ih =>
    intro counter output w hc
    rw [pollLoop]
    simp only [hc, if_true]
    have hr : (connRead (sampleEnv (fun _ => none) closedRead) c w).1
        = { data := [], err := some errClosed } := rfl
    have hb : readErrBreaks (some errClosed) = false := by decide
    simp only [hr, hb, List.length_nil, gt_iff_lt, lt_self_iff_false, if_false,
      Bool.false_eq_true]
    exact ih _ _ _ (wrapInt_le_maxInt _)

/-- C7, amended: for every budget `timeout` below the largest `int` and every
behaviour of the stream in which each read that the call performs returns
(with bytes, with zero bytes or with an error: the behaviours that an `Env`
describes), `ExecuteCommandWithTimeout` returns (any fuel above
`max(timeout, 0)` is enough), having performed at most `max(timeout, 0)` reads
and at most `max(timeout, 0)` sleeps of one second, and having slept at most
`2 + max(timeout, 0)` seconds in all; with `timeout <= 0` it performs no read
and, when the write succeeded, returns `("", nil)`. A read that does not
return is outside the statement. -/
theorem C7_bounded_polling (env : Env) (fuel : Nat) (s : ExecSession) (cmd : Bytes)
    (timeout : Int) (w : World) (ht : timeout < maxInt) (hf : timeout.toNat < fuel) :
    ∃ (res : Bytes × Option GoError) (W : World) (evs : List Event),
      s.ExecuteCommandWithTimeout env fuel cmd timeout w = some (res, W) ∧
      W.trace = w.trace ++ evs ∧
      readCount evs ≤ timeout.toNat ∧
      secondSleepCount evs ≤ timeout.toNat ∧
      sleepTotal evs ≤ (2 + timeout.toNat) * Second ∧
      (timeout ≤ 0 → readCount evs = 0 ∧
        (env.write s.Hijack (w.nWrites s.Hijack) = none → res = ([], none))) := by
  have h2 : (2 * Second = Second) = False := by simp [Second, Millisecond]
  cases hw : env.write s.Hijack (w.nWrites s.Hijack) with
  | some err =>
    refine ⟨([], some err), (connWrite env s.Hijack (cmd ++ ascii "\n") w).2,
      [Event.conn s.Hijack (Op.write (cmd ++ ascii "\n"))], ?_, rfl, ?_, ?_, ?_, ?_⟩
    · unfold ExecSession.ExecuteCommandWithTimeout
      simp [connWrite, hw]
    · simp [readCount]
    · simp [secondSleepCount]
    · simp [sleepTotal]
    · intro _
      exact ⟨rfl, fun h => by cases h⟩
  | none =>
    obtain ⟨out, W, j, b, h1, h3, h4, h5⟩ :=
      pollLoop_terminates env s.Hijack timeout ht timeout.toNat fuel 1 []
        (timeSleep (2 * Second) (connWrite env s.Hijack (cmd ++ ascii "\n") w).2)
        (by unfold minInt; omega) (by omega) hf
    obtain ⟨c1, c2, c3, c4⟩ := idleTrace_counts s.Hijack j
    refine ⟨(CleanANSIEscapes out, none), W,
      [Event.conn s.Hijack (Op.write (cmd ++ ascii "\n")), Event.sleep (2 * Second)]
        ++ idleTrace s.Hijack j ++ (if b then [Event.conn s.Hijack Op.read] else []),
      ?_, ?_, ?_, ?_, ?_, ?_⟩
    · unfold ExecSession.ExecuteCommandWithTimeout
      have e1 : connWrite env s.Hijack (cmd ++ ascii "\n") w
          = (none, (connWrite env s.Hijack (cmd ++ ascii "\n") w).2) := by
        simp [connWrite, hw]
      rw [e1]
      simp only []
      rw [h1]
    · rw [h3]
      simp [timeSleep, connWrite]
    · cases b <;> simp [readCount_append, readCount, c1] at h4 ⊢ <;> omega
    · cases b <;>
        simp [secondSleepCount_append, secondSleepCount, c3, h2] at h4 ⊢ <;> omega
    · have hj : j ≤ timeout.toNat := by omega
      have hm : j * Second ≤ timeout.toNat * Second := Nat.mul_le_mul_right _ hj
      cases b <;> simp [sleepTotal_append, sleepTotal, c4] <;> rw [Nat.add_mul] <;> omega
    · intro h0
      have ht0 : timeout.toNat = 0 := by omega
      have hj : j = 0 := by omega
      have hb : b = false := by
        cases b
        · rfl
        · simp at h4; omega
      subst hj
      subst hb
      refine ⟨by simp [readCount, idleTrace], fun _ => ?_⟩
      rw [h5 rfl]
      rfl

/-- Witness of C7: a budget of 5 on a closed connection, where the write went
through and every read fails at once with `use of closed network connection`:
the call returns after five reads. -/
theorem C7_bounded_polling_witness :
    (5 : Int) < maxInt ∧
    ∃ (res : Bytes × Option GoError) (W : World) (evs : List Event),
      sampleSession.ExecuteCommandWithTimeout (sampleEnv (fun _ => none) closedRead) 6
          (ascii "ls") 5 freshWorld = some (res, W) ∧
      W.trace = freshWorld.trace ++ evs ∧ readCount evs ≤ 5 :=
  ⟨by decide, by
    obtain ⟨res, W, evs, h1, h2, h3, _⟩ :=
      C7_bounded_polling (sampleEnv (fun _ => none) closedRead) 6 sampleSession (ascii "ls") 5
        freshWorld (by decide) (by decide)
    exact ⟨res, W, evs, h1, h2, h3⟩⟩

/-- C7 fails as stated at two inputs, both on a closed connection, every read
and write of which returns at once. With the largest `int` as budget, the
write having gone through, every read fails with an error that does not end
the loop, the counter wraps around and the call never returns, whatever the
fuel. With budget 0 and a failing write the call returns the write error, not
`("", nil)`. -/
theorem C7_counterexample :
    (∀ fuel : Nat,
      sampleSession.ExecuteCommandWithTimeout (sampleEnv (fun _ => none) closedRead) fuel
        (ascii "ls") 9223372036854775807 freshWorld = none) ∧
    (sampleSession.ExecuteCommandWithTimeout (sampleEnv (fun _ => some errClosed) closedRead) 1
        (ascii "ls") 0 freshWorld).map Prod.fst = some ([], some errClosed) := by
  constructor
  · intro fuel
    have hm : (9223372036854775807 : Int) = maxInt := by unfold maxInt; norm_num
    rw [hm]
    unfold ExecSession.ExecuteCommandWithTimeout
    have e1 : connWrite (sampleEnv (fun _ => none) closedRead) sampleSession.Hijack
          (ascii "ls" ++ ascii "\n") freshWorld
        = (none, (connWrite (sampleEnv (fun _ => none) closedRead) sampleSession.Hijack
          (ascii "ls" ++ ascii "\n") freshWorld).2) := rfl
    rw [e1]
    simp only []
    rw [pollLoop_closed_maxInt _ fuel 1 [] _ (by unfold maxInt; norm_num)]
  · rfl

/-! ## The draining loop of `GetSessionOutput` -/

theorem isDataRead_iff (r : ReadResult) :
    isDataRead r = true ↔ r.err = none ∧ 0 < r.data.length := by
  unfold isDataRead
  cases r.err <;> simp

/-- The draining loop after `k` data reads followed by a read that is not one. -/
theorem drainLoop_run (env : Env) (c : Nat) (k : Nat) :
    ∀ (fuel : Nat) (output : Bytes) (w : World),
      (∀ i, i < k → isDataRead (env.read c (w.nReads c + i)) = true) →
      isDataRead (env.read c (w.nReads c + k)) = false → k < fuel →
      ∃ W : World,
        drainLoop env c fuel output w
          = some (drainStop (output ++ readBytes env c k (w.nReads c))
              (env.read c (w.nReads c + k)), W) ∧
        W.trace = w.trace ++ rearmTrace env c k w.nNow ++ [Event.conn c Op.read] ∧
        W.nReads c = w.nReads c + k + 1 ∧ W.nNow = w.nNow + k ∧ W.nWrites = w.nWrites := by
  induction k with
  | zero =>
    intro fuel output w _ hstop hf
    obtain ⟨f, rfl⟩ : ∃ f, fuel = f + 1 := ⟨fuel - 1, by omega⟩
    simp only [Nat.add_zero] at hstop
    refine ⟨(connRead env c w).2, ?_, ?_, ?_, ?_, rfl⟩
    · rw [drainLoop]
      simp only [connRead, readBytes, List.append_nil, Nat.add_zero, drainStop]
      cases he : (env.read c (w.nReads c)).err with
      | some err =>
        by_cases hn : err.netTimeout = true <;> simp [hn]
      | none =>
        have hd : ¬ (env.read c (w.nReads c)).data.length > 0 := by
          intro hpos
          have := (isDataRead_iff _).mpr ⟨he, hpos⟩
          rw [this] at hstop
          cases hstop
        simp only [hd, if_false]
    · simp [connRead, rearmTrace]
    · simp [connRead]
    · rfl
  | succ k ih =>
    intro fuel output w hdata hstop hf
    obtain ⟨f, rfl⟩ : ∃ f, fuel = f + 1 := ⟨fuel - 1, by omega⟩
    have h0 := (isDataRead_iff _).mp (hdata 0 (Nat.succ_pos k))
    simp only [Nat.add_zero] at h0
    obtain ⟨W, h1, h2, h3, h4, h5⟩ :=
      ih f (output ++ (env.read c (w.nReads c)).data)
        (connSetReadDeadline c (some (env.now w.nNow + 100 * Millisecond))
          (timeNow env (connRead env c w).2).2)
        (by
          intro i hi
          have := hdata (i + 1) (Nat.succ_lt_succ hi)
          simp only [connSetReadDeadline, timeNow, connRead, Function.update_same]
          rw [show w.nReads c + 1 + i = w.nReads c + (i + 1) by omega]
          exact this)
        (by
          simp only [connSetReadDeadline, timeNow, connRead, Function.update_same]
          rw [show w.nReads c + 1 + k = w.nReads c + (k + 1) by omega]
          exact hstop)
        (by omega)
    simp only [connSetReadDeadline, timeNow, connRead, Function.update_same] at h1 h2 h3 h4 h5
    refine ⟨W, ?_, ?_, ?_, ?_, ?_⟩
    · rw [drainLoop]
      simp only [connRead, h0.1, h0.2, gt_iff_lt, if_true, timeNow, connSetReadDeadline]
      rw [h1]
      simp only [readBytes, List.append_assoc]
      rw [show w.nReads c + 1 + k = w.nReads c + (k + 1) by omega]
    · rw [h2]
      simp [rearmTrace]
    · rw [h3]; omega
    · rw [h4]; omega
    · rw [h5]

theorem rearmTrace_counts (env : Env) (c : Nat) (k : Nat) :
    ∀ n, readCount (rearmTrace env c k n) = k ∧ writeCount (rearmTrace env c k n) = 0 := by
  induction k with
  | zero => intro n; simp [rearmTrace, readCount, writeCount]
  | succ k ih =>
    intro n
    simp [rearmTrace, readCount, writeCount, ih (n + 1)]

/-- `GetSessionOutput` after `k` data reads followed by a read that is not one:
what it returns and the whole trace of the call. -/
theorem GetSessionOutput_run (env : Env) (fuel : Nat) (s : ExecSession) (w : World) (k : Nat)
    (hdata : ∀ i, i < k → isDataRead (env.read s.Hijack (w.nReads s.Hijack + i)) = true)
    (hstop : isDataRead (env.read s.Hijack (w.nReads s.Hijack + k)) = false) (hf : k < fuel) :
    ∃ W : World,
      s.GetSessionOutput env fuel w
        = some ((match drainStop (readBytes env s.Hijack k (w.nReads s.Hijack))
                    (env.read s.Hijack (w.nReads s.Hijack + k)) with
                 | DrainExit.fail err => ([], some err)
                 | DrainExit.done output => (CleanANSIEscapes output, none)), W) ∧
      W.trace = w.trace
        ++ Event.conn s.Hijack (Op.setReadDeadline (some (env.now w.nNow + 100 * Millisecond)))
          :: (rearmTrace env s.Hijack k (w.nNow + 1)
            ++ [Event.conn s.Hijack Op.read, Event.conn s.Hijack (Op.setReadDeadline none)]) ∧
      W.nReads s.Hijack = w.nReads s.Hijack + k + 1 ∧ W.nWrites = w.nWrites := by
  obtain ⟨W, h1, h2, h3, _, h5⟩ :=
    drainLoop_run env s.Hijack k fuel []
      (connSetReadDeadline s.Hijack (some (env.now w.nNow + 100 * Millisecond)) (timeNow env w).2)
      hdata hstop hf
  simp only [connSetReadDeadline, timeNow, List.nil_append] at h1 h2 h3 h5
  refine ⟨connSetReadDeadline s.Hijack none W, ?_, ?_, ?_, ?_⟩
  · unfold ExecSession.GetSessionOutput
    simp only [timeNow, connSetReadDeadline]
    rw [h1]
    cases drainStop (readBytes env s.Hijack k (w.nReads s.Hijack))
      (env.read s.Hijack (w.nReads s.Hijack + k)) <;> rfl
  · simp [connSetReadDeadline, h2]
  · simpa [connSetReadDeadline] using h3
  · simpa [connSetReadDeadline] using h5

theorem readBytes_of_chunks (env : Env) (c : Nat) (chunks : List Bytes) :
    ∀ base : Nat,
      (∀ i ch, chunks[i]? = some ch → env.read c (base + i) = { data := ch, err := none }) →
      readBytes env c chunks.length base = chunks.flatten := by
  induction chunks with
  | nil => intro base _; rfl
  | cons ch rest ih =>
    intro base h
    have h0 := h 0 ch (by simp)
    simp only [Nat.add_zero] at h0
    simp only [List.length_cons, readBytes, h0, List.flatten_cons]
    rw [ih (base + 1)]
    intro i ch2 hi
    have := h (i + 1) ch2 (by simpa using hi)
    rw [show base + 1 + i = base + (i + 1) by omega]
    exact this

/-- C8: when the next reads give the non-empty chunks `c1 .. ck` without error
and the read after them either runs into the deadline or gives zero bytes
without error, `GetSessionOutput` returns
`(CleanANSIEscapes (c1 ++ ... ++ ck), nil)` after `k + 1` reads, having
written nothing; with no chunk pending that is the empty string after one
read. -/
theorem C8_drain_returns_sanitized_chunks (env : Env) (fuel : Nat) (s : ExecSession)
    (w : World) (chunks : List Bytes)
    (hchunks : ∀ i ch, chunks[i]? = some ch →
      env.read s.Hijack (w.nReads s.Hijack + i) = { data := ch, err := none } ∧ ch ≠ [])
    (hstop :
      ((env.read s.Hijack (w.nReads s.Hijack + chunks.length)).err = none ∧
        (env.read s.Hijack (w.nReads s.Hijack + chunks.length)).data = []) ∨
      ∃ e, (env.read s.Hijack (w.nReads s.Hijack + chunks.length)).err = some e ∧
        e.netTimeout = true)
    (hf : chunks.length < fuel) :
    ∃ (W : World) (evs : List Event),
      s.GetSessionOutput env fuel w = some ((CleanANSIEscapes chunks.flatten, none), W) ∧
      W.trace = w.trace ++ evs ∧ writeCount evs = 0 ∧ readCount evs = chunks.length + 1 ∧
      W.nWrites = w.nWrites ∧
      (chunks = [] → s.GetSessionOutput env fuel w = some (([], none), W) ∧ readCount evs = 1) := by
  have hdata : ∀ i, i < chunks.length →
      isDataRead (env.read s.Hijack (w.nReads s.Hijack + i)) = true := by
    intro i hi
    obtain ⟨hr, hne⟩ := hchunks i chunks[i] (List.getElem?_eq_getElem hi)
    rw [hr]
    exact (isDataRead_iff _).mpr ⟨rfl, List.length_pos.mpr hne⟩
  have hnot : isDataRead (env.read s.Hijack (w.nReads s.Hijack + chunks.length)) = false := by
    rcases hstop with ⟨h1, h2⟩ | ⟨e, h1, _⟩
    · simp [isDataRead, h1, h2]
    · simp [isDataRead, h1]
  have hbytes := readBytes_of_chunks env s.Hijack chunks (w.nReads s.Hijack)
    (fun i ch hi => (hchunks i ch hi).1)
  obtain ⟨W, h1, h2, _, h4⟩ := GetSessionOutput_run env fuel s w chunks.length hdata hnot hf
  have hstopExit : drainStop (readBytes env s.Hijack chunks.length (w.nReads s.Hijack))
      (env.read s.Hijack (w.nReads s.Hijack + chunks.length))
        = DrainExit.done chunks.flatten := by
    rw [hbytes]
    rcases hstop with ⟨h1, _⟩ | ⟨e, h1, h3⟩
    · simp [drainStop, h1]
    · simp [drainStop, h1, h3]
  rw [hstopExit] at h1
  obtain ⟨c1, c2⟩ := rearmTrace_counts env s.Hijack chunks.length (w.nNow + 1)
  have hreads : readCount (Event.conn s.Hijack (Op.setReadDeadline
        (some (env.now w.nNow + 100 * Millisecond)))
      :: (rearmTrace env s.Hijack chunks.length (w.nNow + 1)
        ++ [Event.conn s.Hijack Op.read, Event.conn s.Hijack (Op.setReadDeadline none)]))
      = chunks.length + 1 := by
    simp [readCount, readCount_append, c1]
  refine ⟨W, _, h1, h2, ?_, hreads, h4, ?_⟩
  · simp [writeCount, writeCount_append, c2]
  · intro hnil
    subst hnil
    exact ⟨h1, hreads⟩

/-- Witness of C8: two chunks pending, then the deadline. -/
theorem C8_drain_returns_sanitized_chunks_witness :
    pendingRead 2 = { data := [], err := some errDeadline } ∧
    ∃ (W : World) (evs : List Event),
      sampleSession.GetSessionOutput (sampleEnv (fun _ => none) pendingRead) 3 freshWorld
        = some ((CleanANSIEscapes [ascii "\x1b[1mto", ascii "tal 0"].flatten, none), W) ∧
      W.trace = freshWorld.trace ++ evs ∧ writeCount evs = 0 :=
  ⟨rfl, by
    obtain ⟨W, evs, h1, h2, h3, _⟩ :=
      C8_drain_returns_sanitized_chunks (sampleEnv (fun _ => none) pendingRead) 3 sampleSession
        freshWorld [ascii "\x1b[1mto", ascii "tal 0"]
        (fun i ch hi => by
          match i, hi with
          | 0, hi =>
            cases hi
            exact ⟨rfl, by decide⟩
          | 1, hi =>
            cases hi
            exact ⟨rfl, by decide⟩
          | n + 2, hi => simp at hi)
        (Or.inr ⟨errDeadline, rfl, rfl⟩) (by decide)
    exact ⟨W, evs, h1, h2, h3⟩⟩

/-- C9: when `k` data reads are followed by a read that fails with an error
`e` that is not a deadline expiry (`io.EOF` included), `GetSessionOutput`
stops at that read, the `k + 1`-th, and returns `("", e)`: the bytes gathered
by the `k` reads are not returned. -/
theorem C9_drain_aborts_on_error (env : Env) (fuel : Nat) (s : ExecSession) (w : World)
    (k : Nat) (e : GoError)
    (hdata : ∀ i, i < k → isDataRead (env.read s.Hijack (w.nReads s.Hijack + i)) = true)
    (herr : (env.read s.Hijack (w.nReads s.Hijack + k)).err = some e)
    (hnt : e.netTimeout = false) (hf : k < fuel) :
    ∃ W : World,
      s.GetSessionOutput env fuel w = some (([], some e), W) ∧
      W.nReads s.Hijack = w.nReads s.Hijack + (k + 1) := by
  have hnot : isDataRead (env.read s.Hijack (w.nReads s.Hijack + k)) = false := by
    simp [isDataRead, herr]
  obtain ⟨W, h1, _, h3, _⟩ := GetSessionOutput_run env fuel s w k hdata hnot hf
  have hx : drainStop (readBytes env s.Hijack k (w.nReads s.Hijack))
      (env.read s.Hijack (w.nReads s.Hijack + k)) = DrainExit.fail e := by
    simp [drainStop, herr, hnt]
  rw [hx] at h1
  exact ⟨W, h1, h3⟩

/-- Witness of C9: one chunk is read, then the read returns `io.EOF`. -/
theorem C9_drain_aborts_on_error_witness :
    (endingRead 1).err = some errEOF ∧ errEOF.netTimeout = false ∧
    ∃ W : World,
      sampleSession.GetSessionOutput (sampleEnv (fun _ => none) endingRead) 2 freshWorld
        = some (([], some errEOF), W) ∧
      W.nReads 7 = 0 + (1 + 1) :=
  ⟨rfl, rfl, C9_drain_aborts_on_error (sampleEnv (fun _ => none) endingRead) 2 sampleSession
    freshWorld 1 errEOF
    (fun i hi => by
      have h0 : i = 0 := by omega
      subst h0
      rfl)
    rfl rfl (by decide)⟩

/-- C10: on every return of `GetSessionOutput`, that is after some `k` data
reads and a read that ends the loop by `break` or by `return "", err`, the
trace of the call is: the deadline set to 100 ms after the first clock
reading; for each of the `k` data reads, the read and then the deadline set to
100 ms after the next clock reading; the last read; and the deadline set to the
zero time, which is the last event of the call. -/
theorem C10_deadline_armed_then_cleared (env : Env) (fuel : Nat) (s : ExecSession) (w : World)
    (k : Nat)
    (hdata : ∀ i, i < k → isDataRead (env.read s.Hijack (w.nReads s.Hijack + i)) = true)
    (hstop : isDataRead (env.read s.Hijack (w.nReads s.Hijack + k)) = false) (hf : k < fuel) :
    ∃ (res : Bytes × Option GoError) (W : World),
      s.GetSessionOutput env fuel w = some (res, W) ∧
      W.trace = w.trace
        ++ Event.conn s.Hijack (Op.setReadDeadline (some (env.now w.nNow + 100 * Millisecond)))
          :: (rearmTrace env s.Hijack k (w.nNow + 1)
            ++ [Event.conn s.Hijack Op.read, Event.conn s.Hijack (Op.setReadDeadline none)]) ∧
      W.trace.getLast? = some (Event.conn s.Hijack (Op.setReadDeadline none)) := by
  obtain ⟨W, h1, h2, _, _⟩ := GetSessionOutput_run env fuel s w k hdata hstop hf
  refine ⟨_, W, h1, h2, ?_⟩
  have e : w.trace
      ++ Event.conn s.Hijack (Op.setReadDeadline (some (env.now w.nNow + 100 * Millisecond)))
        :: (rearmTrace env s.Hijack k (w.nNow + 1)
          ++ [Event.conn s.Hijack Op.read, Event.conn s.Hijack (Op.setReadDeadline none)])
      = (w.trace
          ++ Event.conn s.Hijack (Op.setReadDeadline (some (env.now w.nNow + 100 * Millisecond)))
            :: (rearmTrace env s.Hijack k (w.nNow + 1) ++ [Event.conn s.Hijack Op.read]))
        ++ [Event.conn s.Hijack (Op.setReadDeadline none)] := by
    simp
  rw [h2, e, List.getLast?_concat]

/-- Witness of C10 on the error path: one chunk is read, then `io.EOF`. -/
theorem C10_deadline_armed_then_cleared_witness :
    isDataRead (endingRead 1) = false ∧
    ∃ (res : Bytes × Option GoError) (W : World),
      sampleSession.GetSessionOutput (sampleEnv (fun _ => none) endingRead) 2 freshWorld
        = some (res, W) ∧
      W.trace.getLast? = some (Event.conn 7 (Op.setReadDeadline none)) :=
  ⟨rfl, by
    obtain ⟨res, W, h1, _, h3⟩ :=
      C10_deadline_armed_then_cleared (sampleEnv (fun _ => none) endingRead) 2 sampleSession
        freshWorld 1
        (fun i hi => by
          have h0 : i = 0 := by omega
          subst h0
          rfl)
        rfl (by decide)
    exact ⟨res, W, h1, h3⟩⟩

/-! ## The handlers: container mismatch and unknown session -/

/-- C11: when the id of the request is in the registry but the request names
another container than the session's, each of the handlers `ExecuteCommand`,
`GetMoreOutput` and `CloseSession` answers 400 `invalid container name` and
returns the registry and the world as they were: no write, read, deadline
change or close happens on any connection. -/
theorem C11_mismatch_rejected (env : Env) (fuel : Nat) (ss : SessionService)
    (req : ExecRequest) (s : ExecSession) (w : World)
    (hg : ss.GetSession req.ExecSessionID = some s)
    (hne : s.ContainerName ≠ req.ContainerName) :
    SessionHandler.ExecuteCommand env fuel ss (Except.ok req) w
      = some ({ code := 400, body := [("error", ascii "invalid container name")] }, ss, w) ∧
    SessionHandler.GetMoreOutput env fuel ss (Except.ok req) w
      = some ({ code := 400, body := [("error", ascii "invalid container name")] }, ss, w) ∧
    SessionHandler.CloseSession env ss (Except.ok req) w
      = ({ code := 400, body := [("error", ascii "invalid container name")] }, ss, w) := by
  refine ⟨?_, ?_, ?_⟩
  · unfold SessionHandler.ExecuteCommand
    simp only [hg]
    rw [if_pos hne]
  · unfold SessionHandler.GetMoreOutput
    simp only [hg]
    rw [if_pos hne]
  · unfold SessionHandler.CloseSession
    simp only [hg]
    rw [if_pos hne]

/-- Witness of C11: a session created for `web1`, a request naming `web2`. -/
theorem C11_mismatch_rejected_witness :
    web1Session.ContainerName ≠ web2Request.ContainerName ∧
    SessionHandler.CloseSession (sampleEnv (fun _ => none) silentRead)
        { sessions := [(ascii "0123456789ab", web1Session)] } (Except.ok web2Request) freshWorld
      = ({ code := 400, body := [("error", ascii "invalid container name")] },
         { sessions := [(ascii "0123456789ab", web1Session)] }, freshWorld) :=
  ⟨by decide, (C11_mismatch_rejected (sampleEnv (fun _ => none) silentRead) 10
      { sessions := [(ascii "0123456789ab", web1Session)] } web2Request web1Session freshWorld
      rfl (by decide)).2.2⟩

theorem ExecuteCommand_404 (env : Env) (fuel : Nat) (ss : SessionService)
    (bound : Except GoError ExecRequest) (w : World) (resp : Response) (ss1 : SessionService)
    (w1 : World)
    (h : SessionHandler.ExecuteCommand env fuel ss bound w = some (resp, ss1, w1))
    (hc : resp.code = 404) :
    ∃ req, bound = Except.ok req ∧ ss.GetSession req.ExecSessionID = none := by
  unfold SessionHandler.ExecuteCommand at h
  cases bound with
  | error err =>
    simp only [Option.some.injEq, Prod.mk.injEq] at h
    rw [← h.1] at hc
    cases hc
  | ok req =>
    refine ⟨req, rfl, ?_⟩
    cases hg : ss.GetSession req.ExecSessionID with
    | none => rfl
    | some session =>
      simp only [hg] at h
      by_cases hn : session.ContainerName ≠ req.ContainerName
      · rw [if_pos hn] at h
        simp only [Option.some.injEq, Prod.mk.injEq] at h
        rw [← h.1] at hc
        cases hc
      · rw [if_neg hn] at h
        cases hr : session.ExecuteCommandWithTimeout env fuel req.Cmd 5 w with
        | none => simp [hr] at h
        | some r =>
          obtain ⟨⟨out, e⟩, w2⟩ := r
          cases e with
          | none =>
            simp only [hr, Option.some.injEq, Prod.mk.injEq] at h
            rw [← h.1] at hc
            cases hc
          | some err =>
            simp only [hr, Option.some.injEq, Prod.mk.injEq] at h
            rw [← h.1] at hc
            cases hc

theorem GetMoreOutput_404 (env : Env) (fuel : Nat) (ss : SessionService)
    (bound : Except GoError ExecRequest) (w : World) (resp : Response) (ss1 : SessionService)
    (w1 : World)
    (h : SessionHandler.GetMoreOutput env fuel ss bound w = some (resp, ss1, w1))
    (hc : resp.code = 404) :
    ∃ req, bound = Except.ok req ∧ ss.GetSession req.ExecSessionID = none := by
  unfold SessionHandler.GetMoreOutput at h
  cases bound with
  | error err =>
    simp only [Option.some.injEq, Prod.mk.injEq] at h
    rw [← h.1] at hc
    cases hc
  | ok req =>
    refine ⟨req, rfl, ?_⟩
    cases hg : ss.GetSession req.ExecSessionID with
    | none => rfl
    | some session =>
      simp only [hg] at h
      by_cases hn : session.ContainerName ≠ req.ContainerName
      · rw [if_pos hn] at h
        simp only [Option.some.injEq, Prod.mk.injEq] at h
        rw [← h.1] at hc
        cases hc
      · rw [if_neg hn] at h
        cases hr : session.GetSessionOutput env fuel w with
        | none => simp [hr] at h
        | some r =>
          obtain ⟨⟨out, e⟩, w2⟩ := r
          cases e with
          | none =>
            simp only [hr, Option.some.injEq, Prod.mk.injEq] at h
            rw [← h.1] at hc
            cases hc
          | some err =>
            simp only [hr, Option.some.injEq, Prod.mk.injEq] at h
            rw [← h.1] at hc
            cases hc

theorem CloseSession_handler_404 (env : Env) (ss : SessionService)
    (bound : Except GoError ExecRequest) (w : World)
    (hc : (SessionHandler.CloseSession env ss bound w).1.code = 404) :
    ∃ req, bound = Except.ok req ∧ ss.GetSession req.ExecSessionID = none := by
  unfold SessionHandler.CloseSession at hc
  cases bound with
  | error err => cases hc
  | ok req =>
    refine ⟨req, rfl, ?_⟩
    cases hg : ss.GetSession req.ExecSessionID with
    | none => rfl
    | some session =>
      simp only [hg] at hc
      by_cases hn : session.ContainerName ≠ req.ContainerName
      · rw [if_pos hn] at hc
        cases hc
      · rw [if_neg hn] at hc
        cases hb : (ss.CloseSession env req.ExecSessionID w) with
        | mk b r =>
          obtain ⟨ss2, w2⟩ := r
          cases b <;> simp [hb] at hc

/-- C12: when no entry of the registry has the id of the request, each of the
handlers `ExecuteCommand`, `GetMoreOutput` and `CloseSession` answers 404
`session not found`, whatever container the request names, and returns the
registry and the world as they were. No other outcome of these handlers has
status 404: a response with that status means that the id was absent, so the
container mismatch (400) and the write or read failure (500) are told apart
from it by the status; the message also differs from the fixed messages
`invalid container name` and `failed to close session`. -/
theorem C12_not_found_distinguished (env : Env) (fuel : Nat) (ss : SessionService)
    (bound : Except GoError ExecRequest) (w : World) :
    (∀ req, bound = Except.ok req → (∀ e ∈ ss.sessions, e.1 ≠ req.ExecSessionID) →
      SessionHandler.ExecuteCommand env fuel ss bound w
        = some ({ code := 404, body := [("error", ascii "session not found")] }, ss, w) ∧
      SessionHandler.GetMoreOutput env fuel ss bound w
        = some ({ code := 404, body := [("error", ascii "session not found")] }, ss, w) ∧
      SessionHandler.CloseSession env ss bound w
        = ({ code := 404, body := [("error", ascii "session not found")] }, ss, w)) ∧
    (∀ resp ss1 w1, SessionHandler.ExecuteCommand env fuel ss bound w = some (resp, ss1, w1) →
      resp.code = 404 → ∃ req, bound = Except.ok req ∧ ss.GetSession req.ExecSessionID = none) ∧
    (∀ resp ss1 w1, SessionHandler.GetMoreOutput env fuel ss bound w = some (resp, ss1, w1) →
      resp.code = 404 → ∃ req, bound = Except.ok req ∧ ss.GetSession req.ExecSessionID = none) ∧
    ((SessionHandler.CloseSession env ss bound w).1.code = 404 →
      ∃ req, bound = Except.ok req ∧ ss.GetSession req.ExecSessionID = none) ∧
    ascii "session not found" ≠ ascii "invalid container name" ∧
    ascii "session not found" ≠ ascii "failed to close session" := by
  refine ⟨?_, ?_, ?_, ?_, by decide, by decide⟩
  · intro req hb habs
    have hg : ss.GetSession req.ExecSessionID = none := mapGet_eq_none_of_absent _ _ habs
    subst hb
    refine ⟨?_, ?_, ?_⟩
    · unfold SessionHandler.ExecuteCommand
      simp only [hg]
    · unfold SessionHandler.GetMoreOutput
      simp only [hg]
    · unfold SessionHandler.CloseSession
      simp only [hg]
  · intro resp ss1 w1 h hc
    exact ExecuteCommand_404 env fuel ss bound w resp ss1 w1 h hc
  · intro resp ss1 w1 h hc
    exact GetMoreOutput_404 env fuel ss bound w resp ss1 w1 h hc
  · exact CloseSession_handler_404 env ss bound w

/-- Witness of C12: the registry holds one session and the request carries an
unknown id. -/
theorem C12_not_found_distinguished_witness :
    (∀ e ∈ [(ascii "0123456789ab", web1Session)], e.1 ≠ ascii "ffffffffffff") ∧
    SessionHandler.GetMoreOutput (sampleEnv (fun _ => none) silentRead) 10
        { sessions := [(ascii "0123456789ab", web1Session)] }
        (Except.ok { ContainerName := ascii "web1", Cmd := [], ExecSessionID := ascii "ffffffffffff" })
        freshWorld
      = some ({ code := 404, body := [("error", ascii "session not found")] },
          { sessions := [(ascii "0123456789ab", web1Session)] }, freshWorld) :=
  ⟨by decide, ((C12_not_found_distinguished (sampleEnv (fun _ => none) silentRead) 10
      { sessions := [(ascii "0123456789ab", web1Session)] }
      (Except.ok { ContainerName := ascii "web1", Cmd := [], ExecSessionID := ascii "ffffffffffff" })
      freshWorld).1 _ rfl (by decide)).2.1⟩

/-! ## The sanitizer -/

theorem isParamByte_of_isLetterByte (b : Nat) (h : isLetterByte b = true) :
    isParamByte b = false := by
  simp only [isLetterByte, Bool.or_eq_true, Bool.and_eq_true, decide_eq_true_eq] at h
  simp only [isParamByte, Bool.or_eq_false_iff, Bool.and_eq_false_imp, decide_eq_true_eq,
    decide_eq_false_iff_not, beq_eq_false_iff_ne, ne_eq]
  omega

theorem csiTailLen_params (ps : Bytes) (l : Nat) (rest : Bytes)
    (hps : ∀ p ∈ ps, isParamByte p = true) (hl : isLetterByte l = true) :
    csiTailLen (ps ++ l :: rest) = some (ps.length + 1) := by
  induction ps with
  | nil =>
    simp [csiTailLen, isParamByte_of_isLetterByte l hl, hl]
  | cons p ps ih =>
    have hp : isParamByte p = true := hps p (List.mem_cons_self _ _)
    have ih2 := ih (fun q hq => hps q (List.mem_cons_of_mem _ hq))
    simp [csiTailLen, hp, ih2]

theorem csiTailLen_some (s : Bytes) :
    ∀ k, csiTailLen s = some k →
      ∃ (ps : Bytes) (l : Nat) (rest : Bytes),
        s = ps ++ l :: rest ∧ (∀ p ∈ ps, isParamByte p = true) ∧ isLetterByte l = true ∧
        k = ps.length + 1 := by
  induction s with
  | nil => intro k h; simp [csiTailLen] at h
  | cons b rest ih =>
    intro k h
    rw [csiTailLen] at h
    by_cases hp : isParamByte b = true
    · simp only [hp, if_true] at h
      cases hr : csiTailLen rest with
      | none => simp [hr] at h
      | some k2 =>
        obtain ⟨ps, l, post, h1, h2, h3, h4⟩ := ih k2 hr
        simp only [hr, Option.map_some', Option.some.injEq] at h
        refine ⟨b :: ps, l, post, by rw [h1]; rfl, ?_, h3, by simp; omega⟩
        intro q hq
        rcases List.mem_cons.mp hq with hq | hq
        · rw [hq]; exact hp
        · exact h2 q hq
    · have hp2 : isParamByte b = false := by simpa using hp
      simp only [hp2, Bool.false_eq_true, if_false] at h
      by_cases hl : isLetterByte b = true
      · simp only [hl, if_true, Option.some.injEq] at h
        exact ⟨[], b, rest, rfl, by simp, hl, h.symm⟩
      · simp [hl] at h

theorem csiMatchLen_csi (ps : Bytes) (l : Nat) (rest : Bytes)
    (hps : ∀ p ∈ ps, isParamByte p = true) (hl : isLetterByte l = true) :
    csiMatchLen (27 :: 91 :: (ps ++ l :: rest)) = some (ps.length + 3) := by
  simp [csiMatchLen, csiTailLen_params ps l rest hps hl]

theorem csiMatchLen_some (s : Bytes) (n : Nat) (h : csiMatchLen s = some n) :
    ∃ (ps : Bytes) (l : Nat) (rest : Bytes),
      s = 27 :: 91 :: (ps ++ l :: rest) ∧ (∀ p ∈ ps, isParamByte p = true) ∧
      isLetterByte l = true ∧ n = ps.length + 3 := by
  match s, h with
  | [], h => simp [csiMatchLen] at h
  | [_], h => simp [csiMatchLen] at h
  | b0 :: b1 :: rest, h =>
    rw [csiMatchLen] at h
    by_cases hb : b0 = 27 ∧ b1 = 91
    · simp only [hb, and_self, if_true] at h
      cases hr : csiTailLen rest with
      | none => simp [hr] at h
      | some k =>
        obtain ⟨ps, l, post, h1, h2, h3, h4⟩ := csiTailLen_some rest k hr
        simp only [hr, Option.map_some', Option.some.injEq] at h
        refine ⟨ps, l, post, by rw [hb.1, hb.2, h1], h2, h3, by omega⟩
    · simp [hb] at h

theorem csiMatchLen_of_ne_esc (b : Nat) (rest : Bytes) (hb : b ≠ 27) :
    csiMatchLen (b :: rest) = none := by
  cases rest with
  | nil => rfl
  | cons b1 rest => simp [csiMatchLen, hb]

theorem cleanFrom_skip (s : Bytes) : ∀ k, cleanFrom k s = cleanFrom 0 (s.drop k) := by
  induction s with
  | nil => intro k; cases k <;> rfl
  | cons b rest ih =>
    intro k
    cases k with
    | zero => rfl
    | succ k => rw [cleanFrom, ih k]; rfl

theorem CleanANSIEscapes_nil : CleanANSIEscapes [] = [] := rfl

theorem CleanANSIEscapes_cons_none (b : Nat) (rest : Bytes)
    (h : csiMatchLen (b :: rest) = none) :
    CleanANSIEscapes (b :: rest) = b :: CleanANSIEscapes rest := by
  simp [CleanANSIEscapes, cleanFrom, h]

theorem CleanANSIEscapes_cons_some (b : Nat) (rest : Bytes) (n : Nat)
    (h : csiMatchLen (b :: rest) = some n) :
    CleanANSIEscapes (b :: rest) = CleanANSIEscapes (rest.drop (n - 1)) := by
  simp only [CleanANSIEscapes, cleanFrom, h]
  exact cleanFrom_skip rest (n - 1)

theorem CleanANSIEscapes_csi (ps : Bytes) (l : Nat) (rest : Bytes)
    (hps : ∀ p ∈ ps, isParamByte p = true) (hl : isLetterByte l = true) :
    CleanANSIEscapes (27 :: 91 :: (ps ++ l :: rest)) = CleanANSIEscapes rest := by
  rw [CleanANSIEscapes_cons_some 27 _ _ (csiMatchLen_csi ps l rest hps hl)]
  have hd : (91 :: (ps ++ l :: rest)).drop (ps.length + 3 - 1) = rest := by
    have e : ps.length + 3 - 1 = (ps.length + 1) + 1 := by omega
    rw [e, List.drop_succ_cons]
    have e2 : ps ++ l :: rest = (ps ++ [l]) ++ rest := by simp
    rw [e2]
    have e3 : ps.length + 1 = (ps ++ [l]).length := by simp
    rw [e3, List.drop_left]
  rw [hd]

theorem CleanANSIEscapes_append_of_no_esc (t u : Bytes) (ht : 27 ∉ t) :
    CleanANSIEscapes (t ++ u) = t ++ CleanANSIEscapes u := by
  induction t with
  | nil => rfl
  | cons b t ih =>
    have hb : b ≠ 27 := fun h => ht (by rw [h]; exact List.mem_cons_self _ _)
    have ht2 : 27 ∉ t := fun h => ht (List.mem_cons_of_mem _ h)
    rw [List.cons_append, CleanANSIEscapes_cons_none b (t ++ u) (csiMatchLen_of_ne_esc b _ hb),
      ih ht2]
    rfl

/-- C14: for every text `t` without an ESC byte and every two CSI sequences
(ESC, `[`, parameter bytes `pa` resp. `pb`, then a letter `la` resp. `lb`),
sanitizing the first sequence, then `t`, then the second gives `t`; in
particular the sanitized form of ESC `[31m` `HELLO` ESC `[0m` is `HELLO`. -/
theorem C14_strips_enclosing_sequences (t pa pb : Bytes) (la lb : Nat)
    (ht : 27 ∉ t)
    (hpa : ∀ p ∈ pa, isParamByte p = true) (hla : isLetterByte la = true)
    (hpb : ∀ p ∈ pb, isParamByte p = true) (hlb : isLetterByte lb = true) :
    CleanANSIEscapes ((27 :: 91 :: (pa ++ [la])) ++ t ++ (27 :: 91 :: (pb ++ [lb]))) = t ∧
    CleanANSIEscapes (ascii "\x1b[31mHELLO\x1b[0m") = ascii "HELLO" := by
  constructor
  · have e1 : (27 :: 91 :: (pa ++ [la])) ++ t ++ (27 :: 91 :: (pb ++ [lb]))
        = 27 :: 91 :: (pa ++ la :: (t ++ (27 :: 91 :: (pb ++ lb :: [])))) := by simp
    rw [e1, CleanANSIEscapes_csi pa la _ hpa hla, CleanANSIEscapes_append_of_no_esc t _ ht,
      CleanANSIEscapes_csi pb lb [] hpb hlb]
    simp [CleanANSIEscapes_nil]
  · decide

/-- Witness of C14: the sequences ESC `[31m` and ESC `[0m` around `HELLO`. -/
theorem C14_strips_enclosing_sequences_witness :
    27 ∉ ascii "HELLO" ∧
    CleanANSIEscapes ((27 :: 91 :: (ascii "31" ++ [109])) ++ ascii "HELLO"
      ++ (27 :: 91 :: (ascii "0" ++ [109]))) = ascii "HELLO" :=
  ⟨by decide, (C14_strips_enclosing_sequences (ascii "HELLO") (ascii "31") (ascii "0") 109 109
      (by decide) (by decide) (by decide) (by decide) (by decide)).1⟩

theorem csiMatchLen_of_IsCSI (m post : Bytes) (hm : IsCSI m) :
    csiMatchLen (m ++ post) = some m.length := by
  obtain ⟨ps, l, rfl, hps, hl⟩ := hm
  have e : 27 :: 91 :: (ps ++ [l]) ++ post = 27 :: 91 :: (ps ++ l :: post) := by simp
  rw [e, csiMatchLen_csi ps l post hps hl]
  simp

theorem cleanFrom_sublist (s : Bytes) : ∀ k, (cleanFrom k s).Sublist s := by
  induction s with
  | nil => intro k; cases k <;> exact List.Sublist.slnil
  | cons b rest ih =>
    intro k
    cases k with
    | succ k => exact List.Sublist.cons b (ih k)
    | zero =>
      rw [cleanFrom]
      cases csiMatchLen (b :: rest) with
      | none => exact List.Sublist.cons₂ b (ih 0)
      | some n => exact List.Sublist.cons b (ih (n - 1))

theorem CleanANSIEscapes_of_hasCSI_false (s : Bytes) (h : hasCSI s = false) :
    CleanANSIEscapes s = s := by
  induction s with
  | nil => rfl
  | cons b rest ih =>
    simp only [hasCSI, Bool.or_eq_false_iff] at h
    have hn : csiMatchLen (b :: rest) = none := by
      cases hm : csiMatchLen (b :: rest) with
      | none => rfl
      | some n => rw [hm] at h; simp at h
    rw [CleanANSIEscapes_cons_none b rest hn, ih h.2]

theorem CleanANSIEscapes_shorter_of_hasCSI (s : Bytes) (h : hasCSI s = true) :
    (CleanANSIEscapes s).length < s.length := by
  induction s with
  | nil => simp [hasCSI] at h
  | cons b rest ih =>
    cases hm : csiMatchLen (b :: rest) with
    | some n =>
      have hsub : (cleanFrom (n - 1) rest).Sublist rest := cleanFrom_sublist rest (n - 1)
      have hlen := hsub.length_le
      simp only [CleanANSIEscapes, cleanFrom, hm, List.length_cons]
      omega
    | none =>
      simp only [hasCSI, hm, Option.isSome_none, Bool.false_or] at h
      rw [CleanANSIEscapes_cons_none b rest hm]
      simp only [List.length_cons]
      have := ih h
      omega

theorem hasCSI_iff_ContainsCSI (s : Bytes) : hasCSI s = true ↔ ContainsCSI s := by
  constructor
  · intro h
    induction s with
    | nil => simp [hasCSI] at h
    | cons b rest ih =>
      cases hm : csiMatchLen (b :: rest) with
      | some n =>
        obtain ⟨ps, l, post, h1, h2, h3, _⟩ := csiMatchLen_some _ n hm
        refine ⟨[], 27 :: 91 :: (ps ++ [l]), post, ?_, ps, l, rfl, h2, h3⟩
        rw [h1]
        simp
      | none =>
        simp only [hasCSI, hm, Option.isSome_none, Bool.false_or] at h
        obtain ⟨pre, m, post, h1, h2⟩ := ih h
        exact ⟨b :: pre, m, post, by rw [h1]; simp, h2⟩
  · rintro ⟨pre, m, post, rfl, hm⟩
    induction pre with
    | nil =>
      obtain ⟨ps, l, rfl, hps, hl⟩ := hm
      have hmatch := csiMatchLen_csi ps l post hps hl
      have e : [] ++ 27 :: 91 :: (ps ++ [l]) ++ post = 27 :: 91 :: (ps ++ l :: post) := by simp
      rw [e, hasCSI, hmatch]
      rfl
    | cons x pre ih =>
      simp only [List.cons_append, hasCSI, Bool.or_eq_true]
      right
      simpa using ih

theorem hasCSI_false_of_no_esc (s : Bytes) (h : 27 ∉ s) : hasCSI s = false := by
  induction s with
  | nil => rfl
  | cons b rest ih =>
    have hb : b ≠ 27 := fun e => h (by rw [e]; exact List.mem_cons_self _ _)
    have hr : 27 ∉ rest := fun e => h (List.mem_cons_of_mem _ e)
    simp [hasCSI, csiMatchLen_of_ne_esc b rest hb, ih hr]

theorem EveryEscMatches_of_append (a s : Bytes) (h : EveryEscMatches (a ++ s)) :
    EveryEscMatches s := by
  intro pre rest hs
  exact h (a ++ pre) rest (by rw [hs]; simp)

theorem CleanANSIEscapes_no_esc_of_EveryEscMatches :
    ∀ (n : Nat) (s : Bytes), s.length ≤ n → EveryEscMatches s → 27 ∉ CleanANSIEscapes s := by
  intro n
  induction n with
  | zero =>
    intro s hl _
    have : s = [] := List.length_eq_zero.mp (by omega)
    rw [this]
    simp [CleanANSIEscapes_nil]
  | succ n ih =>
    intro s hl hs
    cases s with
    | nil => simp [CleanANSIEscapes_nil]
    | cons b rest =>
      simp only [List.length_cons] at hl
      cases hm : csiMatchLen (b :: rest) with
      | none =>
        have hb : b ≠ 27 := by
          intro e
          obtain ⟨m, post, h1, h2⟩ := hs [] rest (by rw [e]; rfl)
          have := csiMatchLen_of_IsCSI m post h2
          rw [← h1, ← e, hm] at this
          cases this
        rw [CleanANSIEscapes_cons_none b rest hm]
        have hrest := ih rest (by omega) (EveryEscMatches_of_append [b] rest hs)
        intro hmem
        rcases List.mem_cons.mp hmem with h1 | h1
        · exact hb h1.symm
        · exact hrest h1
      | some k =>
        rw [CleanANSIEscapes_cons_some b rest k hm]
        apply ih
        · have := List.length_drop (k - 1) rest
          omega
        · apply EveryEscMatches_of_append (b :: rest.take (k - 1))
          have e : b :: rest.take (k - 1) ++ rest.drop (k - 1) = b :: rest := by
            simp [List.take_append_drop]
          rw [e]
          exact hs

theorem EveryEscMatches_of_everyEscMatchesB (s : Bytes) (h : everyEscMatchesB s = true) :
    EveryEscMatches s := by
  induction s with
  | nil =>
    intro pre rest hs
    cases pre <;> cases hs
  | cons b tl ih =>
    simp only [everyEscMatchesB, Bool.and_eq_true, Bool.or_eq_true, bne_iff_ne, ne_eq] at h
    intro pre rest hs
    cases pre with
    | nil =>
      simp only [List.nil_append, List.cons.injEq] at hs
      obtain ⟨hb, hr⟩ := hs
      subst hb
      subst hr
      rcases h.1 with h1 | h1
      · exact absurd rfl h1
      · cases hm : csiMatchLen (27 :: tl) with
        | none => rw [hm] at h1; cases h1
        | some n =>
          obtain ⟨ps, l, post, e1, e2, e3, _⟩ := csiMatchLen_some _ n hm
          exact ⟨27 :: 91 :: (ps ++ [l]), post, by rw [e1]; simp, ps, l, rfl, e2, e3⟩
    | cons x pre =>
      simp only [List.cons_append, List.cons.injEq] at hs
      exact ih h.2 pre rest hs.2

/-- C13 fails as stated: the text ESC `[` ESC `[0m` `m` is sanitized to
ESC `[m` (the only match is the inner sequence), and sanitizing that again
gives the empty text. -/
theorem C13_counterexample :
    CleanANSIEscapes (ascii "\x1b[\x1b[0mm") = [27, 91, 109] ∧
    CleanANSIEscapes (CleanANSIEscapes (ascii "\x1b[\x1b[0mm")) = [] ∧
    CleanANSIEscapes (CleanANSIEscapes (ascii "\x1b[\x1b[0mm"))
      ≠ CleanANSIEscapes (ascii "\x1b[\x1b[0mm") := by
  refine ⟨by decide, by decide, by decide⟩

/-- C13, amended: sanitizing twice gives the same as sanitizing once exactly
when the sanitized text contains no CSI sequence; this is the case for every
text in which each ESC byte begins a CSI sequence. -/
theorem C13_idempotent_when_escapes_complete (s : Bytes) :
    (CleanANSIEscapes (CleanANSIEscapes s) = CleanANSIEscapes s
      ↔ ¬ ContainsCSI (CleanANSIEscapes s)) ∧
    (EveryEscMatches s → CleanANSIEscapes (CleanANSIEscapes s) = CleanANSIEscapes s) := by
  constructor
  · constructor
    · intro heq hc
      have hlt := CleanANSIEscapes_shorter_of_hasCSI _ ((hasCSI_iff_ContainsCSI _).mpr hc)
      rw [heq] at hlt
      exact Nat.lt_irrefl _ hlt
    · intro hc
      apply CleanANSIEscapes_of_hasCSI_false
      cases hh : hasCSI (CleanANSIEscapes s) with
      | false => rfl
      | true => exact absurd ((hasCSI_iff_ContainsCSI _).mp hh) hc
  · intro hs
    apply CleanANSIEscapes_of_hasCSI_false
    apply hasCSI_false_of_no_esc
    exact CleanANSIEscapes_no_esc_of_EveryEscMatches s.length s (Nat.le_refl _) hs

/-- Witness of C13: a coloured word, both of whose ESC bytes begin a sequence. -/
theorem C13_idempotent_when_escapes_complete_witness :
    EveryEscMatches (ascii "\x1b[31mHELLO\x1b[0m") ∧
    CleanANSIEscapes (CleanANSIEscapes (ascii "\x1b[31mHELLO\x1b[0m"))
      = CleanANSIEscapes (ascii "\x1b[31mHELLO\x1b[0m") :=
  ⟨EveryEscMatches_of_everyEscMatchesB _ (by decide),
   (C13_idempotent_when_escapes_complete (ascii "\x1b[31mHELLO\x1b[0m")).2
     (EveryEscMatches_of_everyEscMatchesB _ (by decide))⟩

theorem BeginsCSI_iff (t : Bytes) : BeginsCSI t ↔ (csiMatchLen t).isSome = true := by
  constructor
  · rintro ⟨m, post, rfl, hm⟩
    rw [csiMatchLen_of_IsCSI m post hm]
    rfl
  · intro h
    cases hm : csiMatchLen t with
    | none => rw [hm] at h; cases h
    | some n =>
      obtain ⟨ps, l, post, e1, e2, e3, _⟩ := csiMatchLen_some _ n hm
      exact ⟨27 :: 91 :: (ps ++ [l]), post, by rw [e1]; simp, ps, l, rfl, e2, e3⟩

theorem csiTailLen_before_esc (rest : Bytes) :
    ∀ (y : Bytes) (k : Nat), csiTailLen (y ++ 27 :: rest) = some k → csiTailLen y = some k := by
  intro y
  induction y with
  | nil =>
    intro k h
    simp [csiTailLen, isParamByte, isLetterByte] at h
  | cons c y ih =>
    intro k h
    rw [List.cons_append, csiTailLen] at h
    rw [csiTailLen]
    by_cases hp : isParamByte c = true
    · simp only [hp, if_true] at h ⊢
      cases hr : csiTailLen (y ++ 27 :: rest) with
      | none => simp [hr] at h
      | some k2 =>
        rw [ih k2 hr]
        rw [hr] at h
        exact h
    · have hp2 : isParamByte c = false := by simpa using hp
      simp only [hp2, Bool.false_eq_true, if_false] at h ⊢
      exact h

theorem csiMatchLen_before_esc (rest : Bytes) (b : Nat) (x : Bytes) (n : Nat)
    (h : csiMatchLen (b :: x ++ 27 :: rest) = some n) : csiMatchLen (b :: x) = some n := by
  cases x with
  | nil => simp [csiMatchLen] at h
  | cons b1 y =>
    simp only [List.cons_append] at h
    rw [csiMatchLen] at h
    rw [csiMatchLen]
    by_cases hb : b = 27 ∧ b1 = 91
    · simp only [hb, and_self, if_true] at h ⊢
      cases hr : csiTailLen (y ++ 27 :: rest) with
      | none => simp [hr] at h
      | some k =>
        rw [csiTailLen_before_esc rest y k hr]
        rw [hr] at h
        exact h
    · simp [hb] at h

theorem csiMatchLen_le_length (x : Bytes) (n : Nat) (h : csiMatchLen x = some n) :
    n ≤ x.length := by
  obtain ⟨ps, l, post, e1, _, _, e4⟩ := csiMatchLen_some x n h
  rw [e1, e4]
  simp

theorem csiMatchLen_append (x y : Bytes) (n : Nat) (h : csiMatchLen x = some n) :
    csiMatchLen (x ++ y) = some n := by
  obtain ⟨ps, l, post, e1, e2, e3, e4⟩ := csiMatchLen_some x n h
  have e : x ++ y = 27 :: 91 :: (ps ++ l :: (post ++ y)) := by rw [e1]; simp
  rw [e, e4]
  exact csiMatchLen_csi ps l _ e2 e3

/-- The scan of a text up to one of its ESC bytes does not depend on what
comes from that byte on: no match reaches across an ESC byte. -/
theorem cleanFrom_append_esc (rest : Bytes) :
    ∀ (x : Bytes) (k : Nat),
      cleanFrom k (x ++ 27 :: rest) = cleanFrom k x ++ cleanFrom (k - x.length) (27 :: rest) := by
  intro x
  induction x with
  | nil => intro k; cases k <;> rfl
  | cons b x ih =>
    intro k
    cases k with
    | succ k =>
      rw [List.cons_append, cleanFrom, cleanFrom, ih k]
      simp
    | zero =>
      rw [List.cons_append, cleanFrom, cleanFrom]
      cases hm : csiMatchLen (b :: (x ++ 27 :: rest)) with
      | some n =>
        have hm2 := csiMatchLen_before_esc rest b x n hm
        have hle := csiMatchLen_le_length _ n hm2
        simp only [List.length_cons] at hle
        rw [hm2]
        simp only []
        rw [ih (n - 1)]
        have e1 : n - 1 - x.length = 0 := by omega
        have e2 : 0 - (b :: x).length = 0 := by simp
        rw [e1, e2]
      | none =>
        have hm2 : csiMatchLen (b :: x) = none := by
          cases hx : csiMatchLen (b :: x) with
          | none => rfl
          | some n =>
            have := csiMatchLen_append (b :: x) (27 :: rest) n hx
            rw [List.cons_append, hm] at this
            cases this
        rw [hm2]
        simp only []
        rw [ih 0]
        simp

theorem CleanANSIEscapes_append_esc (pre rest : Bytes) :
    CleanANSIEscapes (pre ++ 27 :: rest)
      = CleanANSIEscapes pre ++ CleanANSIEscapes (27 :: rest) := by
  unfold CleanANSIEscapes
  rw [cleanFrom_append_esc rest pre 0]
  simp

/-- A CSI sequence of the sanitized text begins at an ESC byte of the text
that begins no match in the text. -/
theorem exists_joined_of_hasCSI :
    ∀ (n : Nat) (s : Bytes), s.length ≤ n → hasCSI (CleanANSIEscapes s) = true →
      ∃ (pre rest : Bytes), s = pre ++ 27 :: rest ∧ csiMatchLen (27 :: rest) = none ∧
        (csiMatchLen (27 :: CleanANSIEscapes rest)).isSome = true := by
  intro n
  induction n with
  | zero =>
    intro s hl h
    have : s = [] := List.length_eq_zero.mp (by omega)
    rw [this] at h
    simp [CleanANSIEscapes_nil, hasCSI] at h
  | succ n ih =>
    intro s hl h
    cases s with
    | nil => simp [CleanANSIEscapes_nil, hasCSI] at h
    | cons b t =>
      simp only [List.length_cons] at hl
      cases hm : csiMatchLen (b :: t) with
      | some k =>
        rw [CleanANSIEscapes_cons_some b t k hm] at h
        have hlen := List.length_drop (k - 1) t
        obtain ⟨pre, rest, e1, e2, e3⟩ := ih (t.drop (k - 1)) (by omega) h
        refine ⟨b :: t.take (k - 1) ++ pre, rest, ?_, e2, e3⟩
        have e : b :: t = b :: (t.take (k - 1) ++ t.drop (k - 1)) := by
          rw [List.take_append_drop]
        rw [e, e1]
        simp
      | none =>
        rw [CleanANSIEscapes_cons_none b t hm, hasCSI, Bool.or_eq_true] at h
        rcases h with h | h
        · have hb : b = 27 := by
            by_contra hne
            rw [csiMatchLen_of_ne_esc b _ hne] at h
            cases h
          subst hb
          exact ⟨[], t, rfl, hm, h⟩
        · obtain ⟨pre, rest, e1, e2, e3⟩ := ih t (by omega) h
          exact ⟨b :: pre, rest, by rw [e1]; rfl, e2, e3⟩

theorem ContainsCSI_CleanANSIEscapes_iff (s : Bytes) :
    ContainsCSI (CleanANSIEscapes s) ↔ EscJoined s := by
  constructor
  · intro hc
    obtain ⟨pre, rest, e1, e2, e3⟩ :=
      exists_joined_of_hasCSI s.length s (Nat.le_refl _) ((hasCSI_iff_ContainsCSI _).mpr hc)
    refine ⟨pre, rest, e1, ?_, (BeginsCSI_iff _).mpr e3⟩
    intro hb
    have := (BeginsCSI_iff _).mp hb
    rw [e2] at this
    cases this
  · rintro ⟨pre, rest, rfl, h1, h2⟩
    have hn : csiMatchLen (27 :: rest) = none := by
      cases hm : csiMatchLen (27 :: rest) with
      | none => rfl
      | some k =>
        exact absurd ((BeginsCSI_iff _).mpr (by rw [hm]; rfl)) h1
    obtain ⟨m, post, e, hm⟩ := h2
    refine ⟨CleanANSIEscapes pre, m, post, ?_, hm⟩
    rw [CleanANSIEscapes_append_esc, CleanANSIEscapes_cons_none 27 rest hn, e]
    simp

/-- Parameter bytes, then a match in the sanitized text but none in the text:
the text has a CSI sequence right after the parameter bytes. -/
theorem csiTailLen_joined :
    ∀ (t : Bytes), csiTailLen t = none → (csiTailLen (CleanANSIEscapes t)).isSome = true →
      ∃ (ps m post : Bytes), t = ps ++ m ++ post ∧ (∀ p ∈ ps, isParamByte p = true) ∧ IsCSI m := by
  intro t
  induction t with
  | nil => intro _ h; simp [CleanANSIEscapes_nil, csiTailLen] at h
  | cons y t ih =>
    intro h1 h2
    cases hm : csiMatchLen (y :: t) with
    | some k =>
      obtain ⟨m, post, e, hmm⟩ := (BeginsCSI_iff (y :: t)).mpr (by rw [hm]; rfl)
      exact ⟨[], m, post, by rw [e]; simp, by simp, hmm⟩
    | none =>
      rw [CleanANSIEscapes_cons_none y t hm] at h2
      rw [csiTailLen] at h1 h2
      by_cases hp : isParamByte y = true
      · simp only [hp, if_true] at h1 h2
        have h1b : csiTailLen t = none := by
          cases hr : csiTailLen t with
          | none => rfl
          | some k => rw [hr] at h1; cases h1
        have h2b : (csiTailLen (CleanANSIEscapes t)).isSome = true := by
          cases hr : csiTailLen (CleanANSIEscapes t) with
          | none => rw [hr] at h2; cases h2
          | some k => rfl
        obtain ⟨ps, m, post, e, hps, hmm⟩ := ih h1b h2b
        refine ⟨y :: ps, m, post, by rw [e]; simp, ?_, hmm⟩
        intro q hq
        rcases List.mem_cons.mp hq with hq | hq
        · rw [hq]; exact hp
        · exact hps q hq
      · have hp2 : isParamByte y = false := by simpa using hp
        simp only [hp2, Bool.false_eq_true, if_false] at h1 h2
        by_cases hl : isLetterByte y = true
        · simp [hl] at h1
        · simp [hl] at h2

theorem HasIncompleteBeforeCSI_of_EscJoined (s : Bytes) (h : EscJoined s) :
    HasIncompleteBeforeCSI s := by
  obtain ⟨pre, rest, rfl, h1, h2⟩ := h
  have hn : csiMatchLen (27 :: rest) = none := by
    cases hm : csiMatchLen (27 :: rest) with
    | none => rfl
    | some k => exact absurd ((BeginsCSI_iff _).mpr (by rw [hm]; rfl)) h1
  have hs := (BeginsCSI_iff _).mp h2
  cases rest with
  | nil => simp [CleanANSIEscapes_nil, csiMatchLen] at hs
  | cons x rest1 =>
    cases hx : csiMatchLen (x :: rest1) with
    | some k =>
      obtain ⟨m, post, e, hmm⟩ := (BeginsCSI_iff (x :: rest1)).mpr (by rw [hx]; rfl)
      exact ⟨pre, [27], m, post, by rw [e]; simp, Or.inl rfl, hmm⟩
    | none =>
      rw [CleanANSIEscapes_cons_none x rest1 hx, csiMatchLen] at hs
      rw [csiMatchLen] at hn
      by_cases hb : x = 91
      · subst hb
        simp only [true_and, if_true] at hs hn
        have hn2 : csiTailLen rest1 = none := by
          cases hr : csiTailLen rest1 with
          | none => rfl
          | some k => rw [hr] at hn; cases hn
        have hs2 : (csiTailLen (CleanANSIEscapes rest1)).isSome = true := by
          cases hr : csiTailLen (CleanANSIEscapes rest1) with
          | none => rw [hr] at hs; cases hs
          | some k => rfl
        obtain ⟨ps, m, post, e, hps, hmm⟩ := csiTailLen_joined rest1 hn2 hs2
        exact ⟨pre, 27 :: 91 :: ps, m, post, by rw [e]; simp, Or.inr ⟨ps, rfl, hps⟩, hmm⟩
      · simp [hb] at hs

theorem csiAfterParams_of_isSome (t : Bytes) (h : (csiMatchLen t).isSome = true) :
    csiAfterParams t = true := by
  cases t with
  | nil => simp [csiMatchLen] at h
  | cons b rest => rw [csiAfterParams, h]; rfl

theorem csiAfterIncomplete_of_isSome (t : Bytes) (h : (csiMatchLen t).isSome = true) :
    csiAfterIncomplete t = true := by
  cases t with
  | nil => simp [csiMatchLen] at h
  | cons b rest => rw [csiAfterIncomplete, h]; rfl

theorem csiAfterParams_of_append (ps m post : Bytes) (hps : ∀ p ∈ ps, isParamByte p = true)
    (hm : IsCSI m) : csiAfterParams (ps ++ (m ++ post)) = true := by
  induction ps with
  | nil =>
    apply csiAfterParams_of_isSome
    rw [List.nil_append, csiMatchLen_of_IsCSI m post hm]
    rfl
  | cons p ps ih =>
    have hp := hps p (List.mem_cons_self _ _)
    have ih2 := ih (fun q hq => hps q (List.mem_cons_of_mem _ hq))
    rw [List.cons_append, csiAfterParams, hp, ih2]
    simp

theorem hasIncompleteBeforeCSIB_of_HasIncompleteBeforeCSI (s : Bytes)
    (h : HasIncompleteBeforeCSI s) : hasIncompleteBeforeCSIB s = true := by
  obtain ⟨pre, d, m, post, rfl, hd, hm⟩ := h
  induction pre with
  | nil =>
    rcases hd with rfl | ⟨ps, rfl, hps⟩
    · have e : [] ++ [27] ++ m ++ post = 27 :: (m ++ post) := by simp
      have h : csiAfterIncomplete (m ++ post) = true := by
        apply csiAfterIncomplete_of_isSome
        rw [csiMatchLen_of_IsCSI m post hm]
        rfl
      rw [e, hasIncompleteBeforeCSIB, h]
      rfl
    · have e : [] ++ 27 :: 91 :: ps ++ m ++ post = 27 :: 91 :: (ps ++ (m ++ post)) := by simp
      have h := csiAfterParams_of_append ps m post hps hm
      rw [e, hasIncompleteBeforeCSIB, csiAfterIncomplete, h]
      simp
  | cons x pre ih =>
    simp only [List.cons_append, hasIncompleteBeforeCSIB, Bool.or_eq_true]
    right
    simpa using ih

/-- C15 fails as stated: in ESC ESC `[0m` `[1m` the only match is ESC `[0m`;
removing it joins the lone ESC with `[1m`, so the sanitized text is the CSI
sequence ESC `[1m`. -/
theorem C15_counterexample :
    CleanANSIEscapes (ascii "\x1b\x1b[0m[1m") = [27, 91, 49, 109] ∧
    ContainsCSI (CleanANSIEscapes (ascii "\x1b\x1b[0m[1m")) := by
  have h : CleanANSIEscapes (ascii "\x1b\x1b[0m[1m") = [27, 91, 49, 109] := by decide
  refine ⟨h, [], [27, 91, 49, 109], [], ?_, [49], 109, rfl, by decide, by decide⟩
  rw [h]
  rfl

/-- C15, amended: for every text, the sanitized text contains a CSI sequence
exactly when some ESC byte of the text that begins no CSI sequence there
begins one once what follows it is sanitized (a removal joins it to text that
completes a sequence). So the sanitized text contains no CSI sequence when no
CSI sequence of the text comes right after an incomplete one (ESC alone, or
ESC `[` and parameter bytes without the letter); and when every ESC byte of
the text begins a CSI sequence, the sanitized text contains no ESC byte and no
CSI sequence. -/
theorem C15_sequence_left_only_by_joining (s : Bytes) :
    (ContainsCSI (CleanANSIEscapes s) ↔ EscJoined s) ∧
    (¬ HasIncompleteBeforeCSI s → ¬ ContainsCSI (CleanANSIEscapes s)) ∧
    (EveryEscMatches s → 27 ∉ CleanANSIEscapes s ∧ ¬ ContainsCSI (CleanANSIEscapes s)) := by
  refine ⟨ContainsCSI_CleanANSIEscapes_iff s, ?_, ?_⟩
  · intro hn hc
    exact hn (HasIncompleteBeforeCSI_of_EscJoined s ((ContainsCSI_CleanANSIEscapes_iff s).mp hc))
  · intro hs
    have h1 := CleanANSIEscapes_no_esc_of_EveryEscMatches s.length s (Nat.le_refl _) hs
    refine ⟨h1, fun hc => ?_⟩
    have h2 := hasCSI_false_of_no_esc _ h1
    rw [(hasCSI_iff_ContainsCSI _).mpr hc] at h2
    cases h2

/-- Witness of C15: a prompt that sets the window title (ESC `]0;u@h` BEL, not
a CSI sequence), resets the colour and ends with a lone ESC. Two of its ESC
bytes begin no CSI sequence, no CSI sequence comes right after an incomplete
one, and the sanitized text keeps both ESC bytes and contains no CSI
sequence. -/
theorem C15_sequence_left_only_by_joining_witness :
    ¬ HasIncompleteBeforeCSI (ascii "\x1b]0;u@h\x07\x1b[0m$ \x1b") ∧
    ¬ EveryEscMatches (ascii "\x1b]0;u@h\x07\x1b[0m$ \x1b") ∧
    ¬ ContainsCSI (CleanANSIEscapes (ascii "\x1b]0;u@h\x07\x1b[0m$ \x1b")) ∧
    CleanANSIEscapes (ascii "\x1b]0;u@h\x07\x1b[0m$ \x1b") = ascii "\x1b]0;u@h\x07$ \x1b" :=
  have hn : ¬ HasIncompleteBeforeCSI (ascii "\x1b]0;u@h\x07\x1b[0m$ \x1b") := fun h =>
    absurd (hasIncompleteBeforeCSIB_of_HasIncompleteBeforeCSI _ h) (by decide)
  ⟨hn,
   fun h => absurd ((BeginsCSI_iff _).mp (h [] (ascii "]0;u@h\x07\x1b[0m$ \x1b") rfl))
     (by decide),
   (C15_sequence_left_only_by_joining (ascii "\x1b]0;u@h\x07\x1b[0m$ \x1b")).2.1 hn,
   by decide⟩

/-- C16: the sanitizer is a total function; a text without a CSI sequence, in
particular a text without an ESC byte, is returned as it is, for instance
ESC `]0;title` and ESC `[12`; and for every text the result is a subsequence
of the text (bytes are only deleted), so it is not longer than the text. -/
theorem C16_untouched_without_match (s : Bytes) :
    (¬ ContainsCSI s → CleanANSIEscapes s = s) ∧
    (27 ∉ s → CleanANSIEscapes s = s) ∧
    (CleanANSIEscapes s).Sublist s ∧
    (CleanANSIEscapes s).length ≤ s.length ∧
    CleanANSIEscapes (ascii "\x1b]0;title") = ascii "\x1b]0;title" ∧
    CleanANSIEscapes (ascii "\x1b[12") = ascii "\x1b[12" := by
  refine ⟨?_, ?_, cleanFrom_sublist s 0, (cleanFrom_sublist s 0).length_le, by decide, by decide⟩
  · intro hc
    apply CleanANSIEscapes_of_hasCSI_false
    cases hh : hasCSI s with
    | false => rfl
    | true => exact absurd ((hasCSI_iff_ContainsCSI _).mp hh) hc
  · intro hn
    exact CleanANSIEscapes_of_hasCSI_false s (hasCSI_false_of_no_esc s hn)

/-- Witness of C16: an operating-system-command sequence, which is not CSI. -/
theorem C16_untouched_without_match_witness :
    ¬ ContainsCSI (ascii "\x1b]0;title\x07$ ") ∧
    CleanANSIEscapes (ascii "\x1b]0;title\x07$ ") = ascii "\x1b]0;title\x07$ " :=
  ⟨fun hc => by
      have h := (hasCSI_iff_ContainsCSI _).mpr hc
      revert h
      decide,
   (C16_untouched_without_match (ascii "\x1b]0;title\x07$ ")).1 (fun hc => by
      have h := (hasCSI_iff_ContainsCSI _).mpr hc
      revert h
      decide)⟩

/-! ## Creation, identifiers, closing and the frame of the registry -/

theorem CreateSession_error_frame (env : Env) (ss : SessionService) (containerName : Bytes)
    (w : World) (err : GoError) (ss1 : SessionService) (w1 : World)
    (h : SessionService.CreateSession env ss containerName w = (Except.error err, ss1, w1)) :
    ss1 = ss := by
  unfold SessionService.CreateSession at h
  cases hc : env.execCreate w.nExecCreate with
  | error e =>
    simp only [clientExecCreate, hc, Prod.mk.injEq] at h
    exact h.2.1.symm
  | ok respID =>
    cases ha : env.execAttach w.nExecAttach with
    | error e =>
      simp only [clientExecCreate, clientExecAttach, hc, ha, Prod.mk.injEq] at h
      exact h.2.1.symm
    | ok hijack =>
      simp [clientExecCreate, clientExecAttach, hc, ha] at h

/-- C17: `CreateSession` is atomic on failure. If the creation of the exec
target fails, or it succeeds and the attach fails, `CreateSession` returns no
session and that error, and the registry it leaves is the registry it was
given. -/
theorem C17_create_atomic_on_failure (env : Env) (ss : SessionService) (containerName : Bytes)
    (w : World) :
    (∀ err, env.execCreate w.nExecCreate = Except.error err →
      (ss.CreateSession env containerName w).1 = Except.error err ∧
      (ss.CreateSession env containerName w).2.1 = ss) ∧
    (∀ respID err, env.execCreate w.nExecCreate = Except.ok respID →
      env.execAttach w.nExecAttach = Except.error err →
      (ss.CreateSession env containerName w).1 = Except.error err ∧
      (ss.CreateSession env containerName w).2.1 = ss) := by
  constructor
  · intro err hc
    unfold SessionService.CreateSession
    simp [clientExecCreate, hc]
  · intro respID err hc ha
    unfold SessionService.CreateSession
    simp [clientExecCreate, clientExecAttach, hc, ha]

/-- Witness of C17: the attach fails after the exec target was created, and
the one entry of the registry stays. -/
theorem C17_create_atomic_on_failure_witness :
    attachFailsEnv.execAttach freshWorld.nExecAttach
      = Except.error { msg := ascii "container is not running", netTimeout := false } ∧
    (SessionService.CreateSession attachFailsEnv
        { sessions := [(ascii "fedcba987654", db1Session)] } (ascii "c1") freshWorld).2.1
      = { sessions := [(ascii "fedcba987654", db1Session)] } :=
  ⟨rfl, ((C17_create_atomic_on_failure attachFailsEnv
      { sessions := [(ascii "fedcba987654", db1Session)] } (ascii "c1") freshWorld).2
      (ascii "0123456789abcdef") _ rfl rfl).2⟩

/-- C18: `GetSessionID` is the first 12 bytes of the exec identifier when that
is longer than 12 bytes and the identifier itself otherwise, hence a prefix of
it of length `min(len, 12)`; a successful `CreateSession` stores the session it
returns under exactly that id, and the `CreateSession` handler reports that id
as `exec_session_id`. -/
theorem C18_session_id_derivation (s : ExecSession) :
    (s.ExecID.length > 12 → s.GetSessionID = s.ExecID.take 12) ∧
    (s.ExecID.length ≤ 12 → s.GetSessionID = s.ExecID) ∧
    s.GetSessionID <+: s.ExecID ∧
    s.GetSessionID.length = min s.ExecID.length 12 ∧
    (∀ (env : Env) (ss : SessionService) (containerName : Bytes) (w : World)
        (ss1 : SessionService) (w1 : World),
      ss.CreateSession env containerName w = (Except.ok s, ss1, w1) →
      ss1.sessions = (s.GetSessionID, s) :: mapDelete ss.sessions s.GetSessionID ∧
      SessionHandler.CreateSession env ss (Except.ok { ContainerName := containerName }) w
        = ({ code := 200,
             body := [("status", ascii "success"), ("exec_session_id", s.GetSessionID)] },
           ss1, w1)) := by
  refine ⟨?_, ?_, ?_, ?_, ?_⟩
  · intro h
    unfold ExecSession.GetSessionID
    rw [if_pos h]
  · intro h
    unfold ExecSession.GetSessionID
    rw [if_neg (by omega)]
  · unfold ExecSession.GetSessionID
    by_cases h : s.ExecID.length > 12
    · rw [if_pos h]; exact List.take_prefix _ _
    · rw [if_neg h]
  · unfold ExecSession.GetSessionID
    by_cases h : s.ExecID.length > 12
    · rw [if_pos h, List.length_take]; omega
    · rw [if_neg h]; omega
  · intro env ss containerName w ss1 w1 h
    constructor
    · rw [CreateSession_ok_sessions env ss containerName w s ss1 w1 h]
      rfl
    · unfold SessionHandler.CreateSession
      simp only [h]

/-- Witness of C18: the 16-byte exec identifier `0123456789abcdef`. -/
theorem C18_session_id_derivation_witness :
    sampleSession.ExecID.length > 12 ∧
    sampleSession.GetSessionID = (ascii "0123456789abcdef").take 12 :=
  ⟨by decide, (C18_session_id_derivation sampleSession).1 (by decide)⟩

/-- C19: `Close` is best-effort. Whatever the outcome of the write, `Close`
writes `exit\n` and then closes the connection, and has no result; so
`CloseSession` on a present id returns true and removes the entry also when
the write of `exit\n` fails. -/
theorem C19_close_best_effort (env : Env) (s : ExecSession) (w : World) :
    (ExecSession.Close env s w).trace
      = w.trace ++ [Event.conn s.Hijack (Op.write (ascii "exit\n")), Event.conn s.Hijack Op.close] ∧
    (∀ (err : GoError) (ss : SessionService) (X : Bytes),
      env.write s.Hijack (w.nWrites s.Hijack) = some err → ss.GetSession X = some s →
      SessionService.CloseSession env ss X w
        = (true, { sessions := mapDelete ss.sessions X }, ExecSession.Close env s w) ∧
      SessionService.GetSession { sessions := mapDelete ss.sessions X } X = none) := by
  constructor
  · simp [ExecSession.Close, connWrite, connClose]
  · intro err ss X _ hg
    constructor
    · unfold SessionService.CloseSession
      unfold SessionService.GetSession at hg
      rw [hg]
    · exact mapGet_mapDelete_self _ _

/-- Witness of C19: the write of `exit\n` fails on a closed connection. -/
theorem C19_close_best_effort_witness :
    (sampleEnv (fun _ => some errClosed) silentRead).write 7 (freshWorld.nWrites 7)
      = some errClosed ∧
    SessionService.CloseSession (sampleEnv (fun _ => some errClosed) silentRead)
        { sessions := [(ascii "0123456789ab", sampleSession)] } (ascii "0123456789ab") freshWorld
      = (true, { sessions := mapDelete [(ascii "0123456789ab", sampleSession)] (ascii "0123456789ab") },
         ExecSession.Close (sampleEnv (fun _ => some errClosed) silentRead) sampleSession
           freshWorld) :=
  ⟨rfl, ((C19_close_best_effort (sampleEnv (fun _ => some errClosed) silentRead) sampleSession
      freshWorld).2 errClosed { sessions := [(ascii "0123456789ab", sampleSession)] }
      (ascii "0123456789ab") rfl rfl).1⟩

theorem mapGet_mapSet_ne (m : List (Bytes × ExecSession)) (k k2 : Bytes) (v : ExecSession)
    (hk : k2 ≠ k) : mapGet (mapSet m k v) k2 = mapGet m k2 := by
  unfold mapSet
  rw [mapGet]
  rw [if_neg (fun e => hk e.symm)]
  exact mapGet_mapDelete_ne m k2 k (fun e => hk e.symm)

theorem ExecuteCommand_frame (env : Env) (fuel : Nat) (ss : SessionService)
    (bound : Except GoError ExecRequest) (w : World) (resp : Response) (ss1 : SessionService)
    (w1 : World)
    (h : SessionHandler.ExecuteCommand env fuel ss bound w = some (resp, ss1, w1)) :
    ss1 = ss := by
  unfold SessionHandler.ExecuteCommand at h
  cases bound with
  | error err =>
    simp only [Option.some.injEq, Prod.mk.injEq] at h
    exact h.2.1.symm
  | ok req =>
    cases hg : ss.GetSession req.ExecSessionID with
    | none =>
      simp only [hg, Option.some.injEq, Prod.mk.injEq] at h
      exact h.2.1.symm
    | some session =>
      simp only [hg] at h
      by_cases hn : session.ContainerName ≠ req.ContainerName
      · rw [if_pos hn] at h
        simp only [Option.some.injEq, Prod.mk.injEq] at h
        exact h.2.1.symm
      · rw [if_neg hn] at h
        cases hr : session.ExecuteCommandWithTimeout env fuel req.Cmd 5 w with
        | none => simp [hr] at h
        | some r =>
          obtain ⟨⟨out, e⟩, w2⟩ := r
          cases e with
          | none =>
            simp only [hr, Option.some.injEq, Prod.mk.injEq] at h
            exact h.2.1.symm
          | some err =>
            simp only [hr, Option.some.injEq, Prod.mk.injEq] at h
            exact h.2.1.symm

theorem GetMoreOutput_frame (env : Env) (fuel : Nat) (ss : SessionService)
    (bound : Except GoError ExecRequest) (w : World) (resp : Response) (ss1 : SessionService)
    (w1 : World)
    (h : SessionHandler.GetMoreOutput env fuel ss bound w = some (resp, ss1, w1)) :
    ss1 = ss := by
  unfold SessionHandler.GetMoreOutput at h
  cases bound with
  | error err =>
    simp only [Option.some.injEq, Prod.mk.injEq] at h
    exact h.2.1.symm
  | ok req =>
    cases hg : ss.GetSession req.ExecSessionID with
    | none =>
      simp only [hg, Option.some.injEq, Prod.mk.injEq] at h
      exact h.2.1.symm
    | some session =>
      simp only [hg] at h
      by_cases hn : session.ContainerName ≠ req.ContainerName
      · rw [if_pos hn] at h
        simp only [Option.some.injEq, Prod.mk.injEq] at h
        exact h.2.1.symm
      · rw [if_neg hn] at h
        cases hr : session.GetSessionOutput env fuel w with
        | none => simp [hr] at h
        | some r =>
          obtain ⟨⟨out, e⟩, w2⟩ := r
          cases e with
          | none =>
            simp only [hr, Option.some.injEq, Prod.mk.injEq] at h
            exact h.2.1.symm
          | some err =>
            simp only [hr, Option.some.injEq, Prod.mk.injEq] at h
            exact h.2.1.symm

/-- C20: the frame of the registry. A `GetSession` call leaves it as it was;
the handlers `ExecuteCommand` and `GetMoreOutput`, the only callers of
`ExecuteCommandWithTimeout` and `GetSessionOutput`, return it as it was
whatever they answer; a successful `CreateSession` maps the new id to the new
session and leaves the lookup of every other id as it was, a failed one
changes nothing; `CloseSession(X)` leaves the lookup of every id other than `X`
as it was and never makes an absent id present. -/
theorem C20_registry_frame (env : Env) (fuel : Nat) (ss : SessionService) (w : World) :
    (∀ X, runCalls env [RegistryCall.get X] (ss, w) = (ss, w)) ∧
    (∀ bound resp ss1 w1,
      SessionHandler.ExecuteCommand env fuel ss bound w = some (resp, ss1, w1) → ss1 = ss) ∧
    (∀ bound resp ss1 w1,
      SessionHandler.GetMoreOutput env fuel ss bound w = some (resp, ss1, w1) → ss1 = ss) ∧
    (∀ containerName s ss1 w1,
      ss.CreateSession env containerName w = (Except.ok s, ss1, w1) →
      ss1.GetSession s.GetSessionID = some s ∧
      ∀ k, k ≠ s.GetSessionID → ss1.GetSession k = ss.GetSession k) ∧
    (∀ containerName err ss1 w1,
      ss.CreateSession env containerName w = (Except.error err, ss1, w1) → ss1 = ss) ∧
    (∀ X k, k ≠ X → (ss.CloseSession env X w).2.1.GetSession k = ss.GetSession k) ∧
    (∀ X k, ss.GetSession k = none → (ss.CloseSession env X w).2.1.GetSession k = none) := by
  refine ⟨fun _ => rfl, ?_, ?_, ?_, ?_, ?_, ?_⟩
  · intro bound resp ss1 w1 h
    exact ExecuteCommand_frame env fuel ss bound w resp ss1 w1 h
  · intro bound resp ss1 w1 h
    exact GetMoreOutput_frame env fuel ss bound w resp ss1 w1 h
  · intro containerName s ss1 w1 h
    have hs := CreateSession_ok_sessions env ss containerName w s ss1 w1 h
    constructor
    · unfold SessionService.GetSession
      rw [hs]
      exact mapGet_mapSet_self _ _ _
    · intro k hk
      unfold SessionService.GetSession
      rw [hs]
      exact mapGet_mapSet_ne _ _ _ _ hk
  · intro containerName err ss1 w1 h
    exact CreateSession_error_frame env ss containerName w err ss1 w1 h
  · intro X k hk
    exact CloseSession_get_other env ss w k X (fun e => hk e.symm)
  · intro X k hk
    exact CloseSession_get_none env ss w k X hk

/-- Witness of C20: closing the session of `c1` leaves the entry of `db1`. -/
theorem C20_registry_frame_witness :
    ascii "fedcba987654" ≠ ascii "0123456789ab" ∧
    (SessionService.CloseSession (sampleEnv (fun _ => none) silentRead)
        { sessions := [(ascii "0123456789ab", sampleSession), (ascii "fedcba987654", db1Session)] }
        (ascii "0123456789ab") freshWorld).2.1.GetSession (ascii "fedcba987654")
      = SessionService.GetSession
        { sessions := [(ascii "0123456789ab", sampleSession), (ascii "fedcba987654", db1Session)] }
        (ascii "fedcba987654") :=
  ⟨by decide, (C20_registry_frame (sampleEnv (fun _ => none) silentRead) 10
      { sessions := [(ascii "0123456789ab", sampleSession), (ascii "fedcba987654", db1Session)] }
      freshWorld).2.2.2.2.2.1 (ascii "0123456789ab") (ascii "fedcba987654") (by decide)⟩

/-! ## The `CloseSession` handler and identifier collisions -/

/-- C28: the `CloseSession` handler never answers 500. Its status is 400, 404
or 200; whenever the lookup finds the session and the container names match,
`SessionService.CloseSession` returns true, the handler answers 200
`success`, and the entry is removed. -/
theorem C28_close_handler_never_500 (env : Env) (ss : SessionService)
    (bound : Except GoError ExecRequest) (w : World) :
    ((SessionHandler.CloseSession env ss bound w).1.code = 400 ∨
      (SessionHandler.CloseSession env ss bound w).1.code = 404 ∨
      (SessionHandler.CloseSession env ss bound w).1.code = 200) ∧
    (SessionHandler.CloseSession env ss bound w).1.code ≠ 500 ∧
    (∀ req s, bound = Except.ok req → ss.GetSession req.ExecSessionID = some s →
      s.ContainerName = req.ContainerName →
      (ss.CloseSession env req.ExecSessionID w).1 = true ∧
      SessionHandler.CloseSession env ss bound w
        = ({ code := 200, body := [("status", ascii "success")] },
           { sessions := mapDelete ss.sessions req.ExecSessionID }, ExecSession.Close env s w) ∧
      (SessionHandler.CloseSession env ss bound w).2.1.GetSession req.ExecSessionID = none) := by
  have hkey : ∀ req s, bound = Except.ok req → ss.GetSession req.ExecSessionID = some s →
      s.ContainerName = req.ContainerName →
      SessionHandler.CloseSession env ss bound w
        = ({ code := 200, body := [("status", ascii "success")] },
           { sessions := mapDelete ss.sessions req.ExecSessionID },
           ExecSession.Close env s w) := by
    intro req s hb hg hn
    subst hb
    have hc : ss.CloseSession env req.ExecSessionID w
        = (true, { sessions := mapDelete ss.sessions req.ExecSessionID },
           ExecSession.Close env s w) := by
      unfold SessionService.CloseSession
      unfold SessionService.GetSession at hg
      rw [hg]
    unfold SessionHandler.CloseSession
    simp only [hg]
    rw [if_neg (not_not.mpr hn), hc]
  have hcases : (SessionHandler.CloseSession env ss bound w).1.code = 400 ∨
      (SessionHandler.CloseSession env ss bound w).1.code = 404 ∨
      (SessionHandler.CloseSession env ss bound w).1.code = 200 := by
    cases bound with
    | error err => left; rfl
    | ok req =>
      cases hg : ss.GetSession req.ExecSessionID with
      | none =>
        right; left
        unfold SessionHandler.CloseSession
        simp only [hg]
      | some s =>
        by_cases hn : s.ContainerName = req.ContainerName
        · right; right
          rw [hkey req s rfl hg hn]
        · left
          unfold SessionHandler.CloseSession
          simp only [hg]
          rw [if_pos hn]
  refine ⟨hcases, ?_, ?_⟩
  · rcases hcases with h | h | h <;> rw [h] <;> decide
  · intro req s hb hg hn
    have hh := hkey req s hb hg hn
    refine ⟨?_, hh, ?_⟩
    · unfold SessionService.CloseSession
      unfold SessionService.GetSession at hg
      rw [hg]
    · rw [hh]
      exact mapGet_mapDelete_self _ _

/-- Witness of C28: closing the session of `web1` with the right container. -/
theorem C28_close_handler_never_500_witness :
    SessionService.GetSession { sessions := [(ascii "0123456789ab", web1Session)] }
        (ascii "0123456789ab") = some web1Session ∧
    (SessionHandler.CloseSession (sampleEnv (fun _ => none) silentRead)
        { sessions := [(ascii "0123456789ab", web1Session)] }
        (Except.ok { ContainerName := ascii "web1", Cmd := [], ExecSessionID := ascii "0123456789ab" })
        freshWorld).1 = { code := 200, body := [("status", ascii "success")] } :=
  ⟨rfl, by
    have h := ((C28_close_handler_never_500 (sampleEnv (fun _ => none) silentRead)
      { sessions := [(ascii "0123456789ab", web1Session)] }
      (Except.ok { ContainerName := ascii "web1", Cmd := [], ExecSessionID := ascii "0123456789ab" })
      freshWorld).2.2 _ web1Session rfl rfl rfl).2.1
    rw [h]⟩

theorem mapGet_mem (m : List (Bytes × ExecSession)) (k : Bytes) (v : ExecSession)
    (h : mapGet m k = some v) : (k, v) ∈ m := by
  induction m with
  | nil => simp [mapGet] at h
  | cons e rest ih =>
    obtain ⟨k1, v1⟩ := e
    rw [mapGet] at h
    by_cases hk : k1 = k
    · simp only [hk, if_true, Option.some.injEq] at h
      rw [hk, h]
      exact List.mem_cons_self _ _
    · rw [if_neg hk] at h
      exact List.mem_cons_of_mem _ (ih h)

theorem mapDelete_length_lt (m : List (Bytes × ExecSession)) (k : Bytes) (v : ExecSession)
    (h : mapGet m k = some v) : (mapDelete m k).length < m.length := by
  induction m with
  | nil => simp [mapGet] at h
  | cons e rest ih =>
    obtain ⟨k1, v1⟩ := e
    unfold mapDelete at ih ⊢
    rw [mapGet] at h
    by_cases hk : k1 = k
    · have hle := List.length_filter_le (fun e : Bytes × ExecSession => decide (e.1 ≠ k)) rest
      simp only [List.filter_cons, hk, ne_eq, not_true_eq_false, decide_False,
        Bool.false_eq_true, if_false, List.length_cons]
      simp only [ne_eq] at hle
      omega
    · rw [if_neg hk] at h
      have := ih h
      simp only [List.filter_cons, hk, ne_eq, not_false_eq_true, decide_True, if_true,
        List.length_cons]
      simp only [ne_eq] at this
      omega

theorem CreateSession_ok_trace (env : Env) (ss : SessionService) (containerName : Bytes)
    (w : World) (s : ExecSession) (ss1 : SessionService) (w1 : World)
    (h : SessionService.CreateSession env ss containerName w = (Except.ok s, ss1, w1)) :
    env.execAttach w.nExecAttach = Except.ok s.Hijack ∧
    (∃ cfg, w1.trace = w.trace ++ [Event.execCreate containerName cfg, Event.execAttach s.ExecID]) ∧
    w1.nExecAttach = w.nExecAttach + 1 ∧ w1.nWrites = w.nWrites ∧ w1.nReads = w.nReads ∧
    w1.nNow = w.nNow := by
  unfold SessionService.CreateSession at h
  cases hc : env.execCreate w.nExecCreate with
  | error e => simp [clientExecCreate, hc] at h
  | ok respID =>
    cases ha : env.execAttach w.nExecAttach with
    | error e => simp [clientExecCreate, clientExecAttach, hc, ha] at h
    | ok hijack =>
      simp only [clientExecCreate, clientExecAttach, hc, ha, Prod.mk.injEq,
        Except.ok.injEq] at h
      obtain ⟨hs, _, hw⟩ := h
      rw [← hs, ← hw]
      exact ⟨rfl,
        ⟨{ AttachStdin := true, AttachStdout := true, AttachStderr := true,
           Cmd := [ascii "/bin/bash"], Tty := true }, by simp⟩, rfl, rfl, rfl, rfl⟩

theorem GetSessionID_eq_take (s : ExecSession) : s.GetSessionID = s.ExecID.take 12 := by
  unfold ExecSession.GetSessionID
  by_cases h : s.ExecID.length > 12
  · rw [if_pos h]
  · rw [if_neg h, List.take_of_length_le (by omega)]

/-- C26: truncated-identifier collision. When key `K` is mapped to `s1` and
`CreateSession` succeeds with a session `s2` whose exec identifier differs
from that of `s1` and has `K` as its first 12 bytes, then `K` is mapped to
`s2`, the registry has not more entries than before, the call has put no
operation on any connection in the trace (only the two calls of the runtime),
and a later `CloseSession(K)` returns true and writes to and closes the
connection of `s2` only. In a registry whose keys are the ids of their
sessions, `s1` is then found under no key, while `s1` and `s2` have the same
session id. -/
theorem C26_collision_overwrites (env : Env) (ss : SessionService) (containerName : Bytes)
    (w : World) (K : Bytes) (s1 s2 : ExecSession) (ss1 : SessionService) (w1 : World)
    (h1 : ss.GetSession K = some s1)
    (hc : ss.CreateSession env containerName w = (Except.ok s2, ss1, w1))
    (hid : s2.ExecID ≠ s1.ExecID) (hK : s2.ExecID.take 12 = K) :
    ss1.GetSession K = some s2 ∧ s2 ≠ s1 ∧
    ss1.sessions.length ≤ ss.sessions.length ∧
    (∃ cfg, w1.trace
      = w.trace ++ [Event.execCreate containerName cfg, Event.execAttach s2.ExecID]) ∧
    (ss1.CloseSession env K w1).1 = true ∧
    (ss1.CloseSession env K w1).2.2.trace
      = w1.trace ++ [Event.conn s2.Hijack (Op.write (ascii "exit\n")),
          Event.conn s2.Hijack Op.close] ∧
    ((∀ e ∈ ss.sessions, e.1 = e.2.GetSessionID) →
      (∀ k, ss1.GetSession k ≠ some s1) ∧ s1.GetSessionID = s2.GetSessionID) := by
  have hidK : s2.GetSessionID = K := by rw [GetSessionID_eq_take, hK]
  have hs := CreateSession_ok_sessions env ss containerName w s2 ss1 w1 hc
  rw [hidK] at hs
  have hne : s2 ≠ s1 := fun e => hid (by rw [e])
  have hg : ss1.GetSession K = some s2 := by
    unfold SessionService.GetSession
    rw [hs]
    exact mapGet_mapSet_self _ _ _
  have hother : ∀ k, k ≠ K → ss1.GetSession k = ss.GetSession k := by
    intro k hk
    unfold SessionService.GetSession
    rw [hs]
    exact mapGet_mapSet_ne _ _ _ _ hk
  refine ⟨hg, hne, ?_, (CreateSession_ok_trace env ss containerName w s2 ss1 w1 hc).2.1,
    ?_, ?_, ?_⟩
  · rw [hs]
    unfold mapSet
    have := mapDelete_length_lt ss.sessions K s1 h1
    simp only [List.length_cons]
    omega
  · unfold SessionService.CloseSession
    unfold SessionService.GetSession at hg
    rw [hg]
  · unfold SessionService.CloseSession
    unfold SessionService.GetSession at hg
    rw [hg]
    simp [ExecSession.Close, connWrite, connClose]
  · intro hdisc
    have hk1 : K = s1.GetSessionID := hdisc (K, s1) (mapGet_mem _ _ _ h1)
    refine ⟨?_, by rw [hidK, hk1]⟩
    intro k hk
    by_cases hkK : k = K
    · rw [hkK, hg] at hk
      exact hne (Option.some.inj hk)
    · rw [hother k hkK] at hk
      have := hdisc (k, s1) (mapGet_mem _ _ _ hk)
      exact hkK (by rw [hk1]; exact this)

/-- Witness of C26: exec `0123456789abXYZ` is created while `0123456789ab` is
the key of the session of exec `0123456789abcdef`. -/
theorem C26_collision_overwrites_witness :
    SessionService.CreateSession collidingEnv
        { sessions := [(ascii "0123456789ab", sampleSession)] } (ascii "c2") freshWorld
      = (Except.ok collidingSession, { sessions := [(ascii "0123456789ab", collidingSession)] },
         (SessionService.CreateSession collidingEnv
            { sessions := [(ascii "0123456789ab", sampleSession)] } (ascii "c2") freshWorld).2.2) ∧
    collidingSession.ExecID ≠ sampleSession.ExecID ∧
    SessionService.GetSession { sessions := [(ascii "0123456789ab", collidingSession)] }
        (ascii "0123456789ab") = some collidingSession :=
  ⟨rfl, by decide,
   (C26_collision_overwrites collidingEnv { sessions := [(ascii "0123456789ab", sampleSession)] }
      (ascii "c2") freshWorld (ascii "0123456789ab") sampleSession collidingSession _ _ rfl rfl
      (by decide) rfl).1⟩

/-! ## More on the polling loop -/

theorem pollLoop_break (env : Env) (c : Nat) (timeout : Int) (fuel : Nat) (counter : Int)
    (output : Bytes) (w : World) (hc : counter ≤ timeout)
    (he : readErrBreaks (env.read c (w.nReads c)).err = true) :
    pollLoop env c timeout (fuel + 1) counter output w = some (output, (connRead env c w).2) := by
  rw [pollLoop]
  simp [hc, connRead, he]

theorem pollLoop_output (env : Env) (c : Nat) (timeout : Int) (fuel : Nat) :
    ∀ (counter : Int) (output : Bytes) (w : World) (out : Bytes) (W : World),
      pollLoop env c timeout fuel counter output w = some (out, W) →
      out = output ∨
        ∃ i, out = output ++ (env.read c i).data ∧ readErrBreaks (env.read c i).err = false ∧
          (env.read c i).data ≠ [] := by
  induction fuel with
  | zero =>
    intro counter output w out W h
    simp [pollLoop] at h
  | succ fuel ih =>
    intro counter output w out W h
    rw [pollLoop] at h
    by_cases hc : counter ≤ timeout
    · simp only [hc, if_true] at h
      by_cases hb : readErrBreaks (connRead env c w).1.err = true
      · simp only [hb, if_true] at h
        left
        exact ((Prod.mk.inj (Option.some.inj h)).1).symm
      · simp only [hb] at h
        by_cases hd : (connRead env c w).1.data.length > 0
        · simp only [hd, if_true] at h
          right
          refine ⟨w.nReads c, ((Prod.mk.inj (Option.some.inj h)).1).symm, ?_, ?_⟩
          · simpa [connRead] using hb
          · exact List.length_pos.mp hd
        · simp only [hd] at h
          exact ih _ _ _ _ _ h
    · simp only [hc] at h
      left
      exact ((Prod.mk.inj (Option.some.inj h)).1).symm

theorem ExecuteCommandWithTimeout_write_fail (env : Env) (fuel : Nat) (s : ExecSession)
    (cmd : Bytes) (timeout : Int) (w : World) (err : GoError)
    (hw : env.write s.Hijack (w.nWrites s.Hijack) = some err) :
    s.ExecuteCommandWithTimeout env fuel cmd timeout w
      = some (([], some err), (connWrite env s.Hijack (cmd ++ ascii "\n") w).2) := by
  unfold ExecSession.ExecuteCommandWithTimeout
  simp [connWrite, hw]

theorem ExecuteCommandWithTimeout_write_ok (env : Env) (fuel : Nat) (s : ExecSession)
    (cmd : Bytes) (timeout : Int) (w : World)
    (hw : env.write s.Hijack (w.nWrites s.Hijack) = none) :
    s.ExecuteCommandWithTimeout env fuel cmd timeout w
      = (pollLoop env s.Hijack timeout fuel 1 []
          (timeSleep (2 * Second) (connWrite env s.Hijack (cmd ++ ascii "\n") w).2)).map
          (fun r => ((CleanANSIEscapes r.1, none), r.2)) := by
  unfold ExecSession.ExecuteCommandWithTimeout
  have e1 : connWrite env s.Hijack (cmd ++ ascii "\n") w
      = (none, (connWrite env s.Hijack (cmd ++ ascii "\n") w).2) := by
    simp [connWrite, hw]
  rw [e1]
  simp only []
  cases pollLoop env s.Hijack timeout fuel 1 []
    (timeSleep (2 * Second) (connWrite env s.Hijack (cmd ++ ascii "\n") w).2) with
  | none => rfl
  | some r => rfl

/-- `ExecuteCommandWithTimeout` when the write succeeds, `j` reads give
nothing and the next read ends the loop, by one of the two `break`s on the
error or by its bytes. -/
theorem ExecuteCommandWithTimeout_run (env : Env) (fuel : Nat) (s : ExecSession) (cmd : Bytes)
    (timeout : Int) (j : Nat) (w : World)
    (hk2 : ((j + 1 : Nat) : Int) ≤ timeout) (ht : timeout ≤ maxInt)
    (hw : env.write s.Hijack (w.nWrites s.Hijack) = none)
    (hidle : ∀ i, i < j →
      readErrBreaks (env.read s.Hijack (w.nReads s.Hijack + i)).err = false ∧
      (env.read s.Hijack (w.nReads s.Hijack + i)).data = [])
    (hstop : readErrBreaks (env.read s.Hijack (w.nReads s.Hijack + j)).err = true ∨
      (env.read s.Hijack (w.nReads s.Hijack + j)).data ≠ [])
    (hf : j + 1 ≤ fuel) :
    ∃ W : World,
      s.ExecuteCommandWithTimeout env fuel cmd timeout w
        = some ((CleanANSIEscapes
            (if readErrBreaks (env.read s.Hijack (w.nReads s.Hijack + j)).err = true then []
             else (env.read s.Hijack (w.nReads s.Hijack + j)).data), none), W) ∧
      W.nReads s.Hijack = w.nReads s.Hijack + (j + 1) ∧
      W.trace = w.trace
        ++ [Event.conn s.Hijack (Op.write (cmd ++ ascii "\n")), Event.sleep (2 * Second)]
        ++ idleTrace s.Hijack j ++ [Event.conn s.Hijack Op.read] := by
  obtain ⟨f, rfl⟩ : ∃ f, fuel = (f + 1) + j := ⟨fuel - (j + 1), by omega⟩
  generalize hc : s.Hijack = c at *
  obtain ⟨w2, hw2⟩ : ∃ w2 : World,
      w2 = timeSleep (2 * Second) (connWrite env c (cmd ++ ascii "\n") w).2 := ⟨_, rfl⟩
  have hn : w2.nReads c = w.nReads c := by rw [hw2]; rfl
  have hidx : (idleRounds env c j w2).nReads c = w.nReads c + j := by
    rw [idleRounds_nReads, hn]
  have hloop : pollLoop env c timeout ((f + 1) + j) 1 [] w2
      = some ((if readErrBreaks (env.read c (w.nReads c + j)).err = true then []
          else (env.read c (w.nReads c + j)).data),
          (connRead env c (idleRounds env c j w2)).2) := by
    rw [pollLoop_idle env c timeout j (f + 1) 1 [] w2]
    · by_cases hb : readErrBreaks (env.read c (w.nReads c + j)).err = true
      · rw [pollLoop_break]
        · rw [if_pos hb]
        · push_cast at hk2; omega
        · rw [hidx]; exact hb
      · have hd : (env.read c (w.nReads c + j)).data ≠ [] := by
          rcases hstop with h | h
          · exact absurd h hb
          · exact h
        rw [pollLoop_data]
        · rw [if_neg hb, hidx]; rfl
        · push_cast at hk2; omega
        · rw [hidx]; simpa using hb
        · rw [hidx]; exact hd
    · intro i hi
      rw [hn]
      exact hidle i hi
    · unfold minInt; omega
    · push_cast at hk2; omega
    · push_cast at hk2; omega
  refine ⟨(connRead env c (idleRounds env c j w2)).2, ?_, ?_, ?_⟩
  · rw [ExecuteCommandWithTimeout_write_ok env _ s cmd timeout w (by rw [hc]; exact hw), hc,
      ← hw2, hloop]
    rfl
  · simp only [connRead, Function.update_same]
    rw [hidx]
    omega
  · simp only [connRead]
    rw [idleRounds_trace, hw2]
    simp [timeSleep, connWrite]

/-- C23 fails as stated: with a budget of 5, a first read that yields `io.EOF`
(or an i/o timeout) with zero bytes ends the call after that one read with
`("", nil)`, although the next read would have given `hi`. -/
theorem C23_counterexample :
    eofThenDataRead 1 = { data := ascii "hi", err := none } ∧
    (sampleSession.ExecuteCommandWithTimeout (sampleEnv (fun _ => none) eofThenDataRead) 10
        (ascii "ls") 5 freshWorld).map Prod.fst = some ([], none) ∧
    (sampleSession.ExecuteCommandWithTimeout (sampleEnv (fun _ => none) eofThenDataRead) 10
        (ascii "ls") 5 freshWorld).map (fun r => r.2.nReads 7) = some 1 ∧
    (sampleSession.ExecuteCommandWithTimeout (sampleEnv (fun _ => none) timeoutThenDataRead) 10
        (ascii "ls") 5 freshWorld).map Prod.fst = some ([], none) ∧
    (sampleSession.ExecuteCommandWithTimeout (sampleEnv (fun _ => none) timeoutThenDataRead) 10
        (ascii "ls") 5 freshWorld).map (fun r => r.2.nReads 7) = some 1 := by
  refine ⟨by rfl, by rfl, by rfl, by rfl, by rfl⟩

/-- C23, amended: in the polling loop an end-of-stream or i/o-timeout read ends
the loop. If the write succeeds, the first `k - 1` reads give nothing, and read
number `k` (with `1 ≤ k ≤ timeout`) returns an error whose text is `EOF` or
contains `i/o timeout`, then the call returns `("", nil)` with that read as its
last event: no sleep follows it and no further read is performed, so what
later reads would return is not in the output. -/
theorem C23_eof_or_timeout_ends_polling (env : Env) (fuel : Nat) (s : ExecSession)
    (cmd : Bytes) (timeout : Int) (k : Nat) (w : World) (e : GoError)
    (hk1 : 1 ≤ k) (hk2 : (k : Int) ≤ timeout) (ht : timeout ≤ maxInt)
    (hw : env.write s.Hijack (w.nWrites s.Hijack) = none)
    (hidle : ∀ i, i + 1 < k →
      (env.read s.Hijack (w.nReads s.Hijack + i)).data = [] ∧
      readErrBreaks (env.read s.Hijack (w.nReads s.Hijack + i)).err = false)
    (herr : (env.read s.Hijack (w.nReads s.Hijack + (k - 1))).err = some e)
    (hclass : isEOFText e = true ∨ isIOTimeoutText e = true) (hf : k ≤ fuel) :
    ∃ W : World,
      s.ExecuteCommandWithTimeout env fuel cmd timeout w = some (([], none), W) ∧
      W.nReads s.Hijack = w.nReads s.Hijack + k ∧
      W.trace = w.trace
        ++ [Event.conn s.Hijack (Op.write (cmd ++ ascii "\n")), Event.sleep (2 * Second)]
        ++ idleTrace s.Hijack (k - 1) ++ [Event.conn s.Hijack Op.read] := by
  obtain ⟨j, rfl⟩ : ∃ j, k = j + 1 := ⟨k - 1, by omega⟩
  simp only [Nat.add_sub_cancel] at herr ⊢
  have hb : readErrBreaks (env.read s.Hijack (w.nReads s.Hijack + j)).err = true := by
    rw [herr]
    simpa [readErrBreaks] using hclass
  obtain ⟨W, h1, h2, h3⟩ := ExecuteCommandWithTimeout_run env fuel s cmd timeout j w hk2 ht hw
    (fun i hi => ⟨(hidle i (by omega)).2, (hidle i (by omega)).1⟩) (Or.inl hb) hf
  rw [if_pos hb] at h1
  exact ⟨W, h1, h2, h3⟩

/-- Witness of C23: the first read returns `io.EOF`. -/
theorem C23_eof_or_timeout_ends_polling_witness :
    (eofThenDataRead 0).err = some errEOF ∧ isEOFText errEOF = true ∧
    ∃ W : World,
      sampleSession.ExecuteCommandWithTimeout (sampleEnv (fun _ => none) eofThenDataRead) 10
          (ascii "ls") 5 freshWorld = some (([], none), W) ∧
      W.nReads 7 = 0 + 1 :=
  ⟨rfl, by decide, (C23_eof_or_timeout_ends_polling (sampleEnv (fun _ => none) eofThenDataRead)
      10 sampleSession (ascii "ls") 5 1 freshWorld errEOF (by decide) (by decide) (by decide) rfl
      (fun i hi => by omega) rfl (Or.inl (by decide)) (by decide)).imp
        (fun _ h => ⟨h.1, h.2.1⟩)⟩

/-- C24 fails as stated: a read that returns the bytes `hi` together with
`io.EOF`, or together with an i/o timeout, ends the call with `("", nil)`: the
error is tested before the byte count and the bytes are dropped. -/
theorem C24_counterexample :
    (dataWithEOFRead 0).data = ascii "hi" ∧
    (sampleSession.ExecuteCommandWithTimeout (sampleEnv (fun _ => none) dataWithEOFRead) 10
        (ascii "ls") 5 freshWorld).map Prod.fst = some ([], none) ∧
    (dataWithTimeoutRead 0).data = ascii "hi" ∧
    (sampleSession.ExecuteCommandWithTimeout (sampleEnv (fun _ => none) dataWithTimeoutRead) 10
        (ascii "ls") 5 freshWorld).map Prod.fst = some ([], none) := by
  refine ⟨by rfl, by rfl, by rfl, by rfl⟩

/-- C24, amended: in the polling loop the bytes of a read are kept when the
read comes with no error or with an error that is neither end-of-stream nor an
i/o timeout. If the write succeeds, the first `k - 1` reads give nothing, and
read number `k` (with `1 ≤ k ≤ timeout`) returns `n > 0` bytes with such an
error value, the loop stops at that read and the call returns
`(CleanANSIEscapes bytes, nil)`. -/
theorem C24_bytes_kept_unless_eof_or_timeout (env : Env) (fuel : Nat) (s : ExecSession)
    (cmd : Bytes) (timeout : Int) (k : Nat) (w : World)
    (hk1 : 1 ≤ k) (hk2 : (k : Int) ≤ timeout) (ht : timeout ≤ maxInt)
    (hw : env.write s.Hijack (w.nWrites s.Hijack) = none)
    (hidle : ∀ i, i + 1 < k →
      (env.read s.Hijack (w.nReads s.Hijack + i)).data = [] ∧
      readErrBreaks (env.read s.Hijack (w.nReads s.Hijack + i)).err = false)
    (hdata : (env.read s.Hijack (w.nReads s.Hijack + (k - 1))).data.length > 0)
    (herr : (env.read s.Hijack (w.nReads s.Hijack + (k - 1))).err = none ∨
      ∃ e, (env.read s.Hijack (w.nReads s.Hijack + (k - 1))).err = some e ∧
        isEOFText e = false ∧ isIOTimeoutText e = false)
    (hf : k ≤ fuel) :
    ∃ W : World,
      s.ExecuteCommandWithTimeout env fuel cmd timeout w
        = some ((CleanANSIEscapes (env.read s.Hijack (w.nReads s.Hijack + (k - 1))).data, none),
            W) ∧
      W.nReads s.Hijack = w.nReads s.Hijack + k ∧
      W.trace = w.trace
        ++ [Event.conn s.Hijack (Op.write (cmd ++ ascii "\n")), Event.sleep (2 * Second)]
        ++ idleTrace s.Hijack (k - 1) ++ [Event.conn s.Hijack Op.read] := by
  obtain ⟨j, rfl⟩ : ∃ j, k = j + 1 := ⟨k - 1, by omega⟩
  simp only [Nat.add_sub_cancel] at herr hdata ⊢
  have hb : ¬ readErrBreaks (env.read s.Hijack (w.nReads s.Hijack + j)).err = true := by
    rcases herr with h | ⟨e, h, h1, h2⟩
    · rw [h]; simp [readErrBreaks]
    · rw [h]; simp [readErrBreaks, h1, h2]
  obtain ⟨W, h1, h2, h3⟩ := ExecuteCommandWithTimeout_run env fuel s cmd timeout j w hk2 ht hw
    (fun i hi => ⟨(hidle i (by omega)).2, (hidle i (by omega)).1⟩)
    (Or.inr (List.length_pos.mp hdata)) hf
  rw [if_neg hb] at h1
  exact ⟨W, h1, h2, h3⟩

/-- Witness of C24: the read returns `hi` together with the error of a closed
connection. -/
theorem C24_bytes_kept_unless_eof_or_timeout_witness :
    (dataWithClosedRead 0).err = some errClosed ∧
    ∃ W : World,
      sampleSession.ExecuteCommandWithTimeout (sampleEnv (fun _ => none) dataWithClosedRead) 10
          (ascii "ls") 5 freshWorld
        = some ((CleanANSIEscapes (ascii "hi"), none), W) ∧
      W.nReads 7 = 0 + 1 :=
  ⟨rfl, (C24_bytes_kept_unless_eof_or_timeout (sampleEnv (fun _ => none) dataWithClosedRead)
      10 sampleSession (ascii "ls") 5 1 freshWorld (by decide) (by decide) (by decide) rfl
      (fun i hi => by omega) (by decide) (Or.inr ⟨errClosed, rfl, by decide, by decide⟩)
      (by decide)).imp (fun _ h => ⟨h.1, h.2.1⟩)⟩

theorem CleanANSIEscapes_length_le (t : Bytes) : (CleanANSIEscapes t).length ≤ t.length :=
  (cleanFrom_sublist t 0).length_le

/-- C25: `ExecuteCommandWithTimeout` returns a non-nil error exactly when the
write of the command fails. If the write fails the call returns `("", err)`.
If it succeeds, every return of the call, whatever the reads answered, has a
nil error and the sanitized form of what the loop accumulated, which is
nothing or the bytes of one read; and the call does return for every budget
below the largest `int` (any fuel above `max(timeout, 0)` is enough). -/
theorem C25_error_iff_write_fails (env : Env) (fuel : Nat) (s : ExecSession) (cmd : Bytes)
    (timeout : Int) (w : World) :
    (∀ err, env.write s.Hijack (w.nWrites s.Hijack) = some err →
      ∃ W, s.ExecuteCommandWithTimeout env fuel cmd timeout w = some (([], some err), W)) ∧
    (∀ res W, s.ExecuteCommandWithTimeout env fuel cmd timeout w = some (res, W) →
      (res.2 ≠ none ↔ env.write s.Hijack (w.nWrites s.Hijack) ≠ none)) ∧
    (env.write s.Hijack (w.nWrites s.Hijack) = none →
      (∀ res W, s.ExecuteCommandWithTimeout env fuel cmd timeout w = some (res, W) →
        res.2 = none ∧
        ∃ out, res.1 = CleanANSIEscapes out ∧
          (out = [] ∨ ∃ i, out = (env.read s.Hijack i).data)) ∧
      (timeout < maxInt → timeout.toNat < fuel →
        ∃ text W, s.ExecuteCommandWithTimeout env fuel cmd timeout w
          = some ((text, none), W))) := by
  have hok : env.write s.Hijack (w.nWrites s.Hijack) = none →
      ∀ res W, s.ExecuteCommandWithTimeout env fuel cmd timeout w = some (res, W) →
        res.2 = none ∧
        ∃ out, res.1 = CleanANSIEscapes out ∧
          (out = [] ∨ ∃ i, out = (env.read s.Hijack i).data) := by
    intro hw res W h
    rw [ExecuteCommandWithTimeout_write_ok env fuel s cmd timeout w hw] at h
    cases hp : pollLoop env s.Hijack timeout fuel 1 []
        (timeSleep (2 * Second) (connWrite env s.Hijack (cmd ++ ascii "\n") w).2) with
    | none => rw [hp] at h; cases h
    | some r =>
      obtain ⟨out, W2⟩ := r
      rw [hp] at h
      simp only [Option.map_some', Option.some.injEq, Prod.mk.injEq] at h
      rw [← h.1]
      refine ⟨rfl, out, rfl, ?_⟩
      rcases pollLoop_output env s.Hijack timeout fuel _ _ _ _ _ hp with h1 | ⟨i, h1, _, _⟩
      · left; exact h1
      · right; exact ⟨i, by simpa using h1⟩
  refine ⟨?_, ?_, ?_⟩
  · intro err hw
    exact ⟨_, ExecuteCommandWithTimeout_write_fail env fuel s cmd timeout w err hw⟩
  · intro res W h
    cases hw : env.write s.Hijack (w.nWrites s.Hijack) with
    | some err =>
      rw [ExecuteCommandWithTimeout_write_fail env fuel s cmd timeout w err hw] at h
      simp only [Option.some.injEq, Prod.mk.injEq] at h
      rw [← h.1]
    | none =>
      have := (hok hw res W h).1
      rw [this]
  · intro hw
    refine ⟨hok hw, ?_⟩
    intro ht hf
    obtain ⟨out, W, _, _, h1, _⟩ :=
      pollLoop_terminates env s.Hijack timeout ht timeout.toNat fuel 1 []
        (timeSleep (2 * Second) (connWrite env s.Hijack (cmd ++ ascii "\n") w).2)
        (by unfold minInt; omega) (by omega) hf
    refine ⟨CleanANSIEscapes out, W, ?_⟩
    rw [ExecuteCommandWithTimeout_write_ok env fuel s cmd timeout w hw, h1]
    rfl

/-- Witness of C25: the write succeeds and every read fails on a closed
connection; the call returns with a nil error. -/
theorem C25_error_iff_write_fails_witness :
    (sampleEnv (fun _ => none) closedRead).write 7 (freshWorld.nWrites 7) = none ∧
    (5 : Int) < maxInt ∧
    ∃ text W, sampleSession.ExecuteCommandWithTimeout (sampleEnv (fun _ => none) closedRead) 6
        (ascii "ls") 5 freshWorld = some ((text, none), W) :=
  ⟨rfl, by decide,
   ((C25_error_iff_write_fails (sampleEnv (fun _ => none) closedRead) 6 sampleSession
      (ascii "ls") 5 freshWorld).2.2 rfl).2 (by decide) (by decide)⟩

/-- C27: when every read returns at most 4096 bytes, every text returned by
`ExecuteCommandWithTimeout` is at most 4096 bytes long, and for every budget
below the largest `int` the call does return such a text (any fuel above
`max(timeout, 0)` is enough). -/
theorem C27_output_at_most_one_buffer (env : Env) (fuel : Nat) (s : ExecSession) (cmd : Bytes)
    (timeout : Int) (w : World)
    (hbuf : ∀ i, (env.read s.Hijack i).data.length ≤ 4096) :
    (∀ res W, s.ExecuteCommandWithTimeout env fuel cmd timeout w = some (res, W) →
      res.1.length ≤ 4096) ∧
    (timeout < maxInt → timeout.toNat < fuel →
      ∃ res W, s.ExecuteCommandWithTimeout env fuel cmd timeout w = some (res, W) ∧
        res.1.length ≤ 4096) := by
  have hall : ∀ res W, s.ExecuteCommandWithTimeout env fuel cmd timeout w = some (res, W) →
      res.1.length ≤ 4096 := by
    intro res W h
    cases hw : env.write s.Hijack (w.nWrites s.Hijack) with
    | some err =>
      rw [ExecuteCommandWithTimeout_write_fail env fuel s cmd timeout w err hw] at h
      simp only [Option.some.injEq, Prod.mk.injEq] at h
      rw [← h.1]
      simp
    | none =>
      rw [ExecuteCommandWithTimeout_write_ok env fuel s cmd timeout w hw] at h
      cases hp : pollLoop env s.Hijack timeout fuel 1 []
          (timeSleep (2 * Second) (connWrite env s.Hijack (cmd ++ ascii "\n") w).2) with
      | none => rw [hp] at h; cases h
      | some r =>
        obtain ⟨out, W2⟩ := r
        rw [hp] at h
        simp only [Option.map_some', Option.some.injEq, Prod.mk.injEq] at h
        rw [← h.1]
        have hlen := CleanANSIEscapes_length_le out
        have hout : out.length ≤ 4096 := by
          rcases pollLoop_output env s.Hijack timeout fuel _ _ _ _ _ hp with h1 | ⟨i, h1, _, _⟩
          · rw [h1]; simp
          · rw [h1]; simpa using hbuf i
        show (CleanANSIEscapes out).length ≤ 4096
        omega
  refine ⟨hall, ?_⟩
  intro ht hf
  cases hw : env.write s.Hijack (w.nWrites s.Hijack) with
  | some err =>
    have h := ExecuteCommandWithTimeout_write_fail env fuel s cmd timeout w err hw
    exact ⟨_, _, h, hall _ _ h⟩
  | none =>
    obtain ⟨out, W, _, _, h1, _⟩ :=
      pollLoop_terminates env s.Hijack timeout ht timeout.toNat fuel 1 []
        (timeSleep (2 * Second) (connWrite env s.Hijack (cmd ++ ascii "\n") w).2)
        (by unfold minInt; omega) (by omega) hf
    have h : s.ExecuteCommandWithTimeout env fuel cmd timeout w
        = some ((CleanANSIEscapes out, none), W) := by
      rw [ExecuteCommandWithTimeout_write_ok env fuel s cmd timeout w hw, h1]
      rfl
    exact ⟨_, _, h, hall _ _ h⟩

/-- Witness of C27: a stream whose second read gives six bytes. -/
theorem C27_output_at_most_one_buffer_witness :
    (∀ i, (burstRead i).data.length ≤ 4096) ∧
    ∃ res W, sampleSession.ExecuteCommandWithTimeout (sampleEnv (fun _ => none) burstRead) 6
        (ascii "echo hi") 5 freshWorld = some (res, W) ∧ res.1.length ≤ 4096 :=
  ⟨fun i => by
      unfold burstRead
      split
      · decide
      · split <;> decide,
   (C27_output_at_most_one_buffer (sampleEnv (fun _ => none) burstRead) 6 sampleSession
      (ascii "echo hi") 5 freshWorld (fun i => by
        show (burstRead i).data.length ≤ 4096
        unfold burstRead
        split
        · decide
        · split <;> decide)).2 (by decide) (by decide)⟩

/-! ## The end-to-end scenario -/

/-- C22: the end-to-end scenario. Start from the empty registry; let the
runtime create an exec target and attach connection `h`, let the write on `h`
succeed, let the first read give bytes `data` that contain `hi` and no ESC
byte, and let the stream then be idle (the next read runs into the deadline
or gives zero bytes without error). Then `CreateSession("c1")` succeeds with a
session `s`, `ExecuteCommandWithTimeout("echo hi", 5)` returns `(data, nil)`,
`GetSessionOutput()` returns `("", nil)`, `CloseSession` on the id of `s`
returns true, and `GetSession` on that id then reports absence. -/
theorem C22_end_to_end (env : Env) (fuel : Nat) (w0 : World) (execID : Bytes) (h : Nat)
    (data : Bytes)
    (hcreate : env.execCreate w0.nExecCreate = Except.ok execID)
    (hattach : env.execAttach w0.nExecAttach = Except.ok h)
    (hwrite : env.write h (w0.nWrites h) = none)
    (hread : env.read h (w0.nReads h) = { data := data, err := none })
    (hhi : bytesContains data (ascii "hi") = true) (hesc : 27 ∉ data)
    (hidle : ((env.read h (w0.nReads h + 1)).err = none ∧
        (env.read h (w0.nReads h + 1)).data = []) ∨
      ∃ e, (env.read h (w0.nReads h + 1)).err = some e ∧ e.netTimeout = true)
    (hf : 1 ≤ fuel) :
    ∃ (s : ExecSession) (ss1 : SessionService) (w1 w2 w3 : World),
      NewSessionService.CreateSession env (ascii "c1") w0 = (Except.ok s, ss1, w1) ∧
      s.ContainerName = ascii "c1" ∧
      s.ExecuteCommandWithTimeout env fuel (ascii "echo hi") 5 w1 = some ((data, none), w2) ∧
      s.GetSessionOutput env fuel w2 = some (([], none), w3) ∧
      (ss1.CloseSession env s.GetSessionID w3).1 = true ∧
      (ss1.CloseSession env s.GetSessionID w3).2.1.GetSession s.GetSessionID = none := by
  obtain ⟨s, hs⟩ : ∃ s : ExecSession,
      s = { ContainerName := ascii "c1", ExecID := execID, Hijack := h } := ⟨_, rfl⟩
  have hsh : s.Hijack = h := by rw [hs]
  obtain ⟨ss1, w1, hc⟩ : ∃ ss1 w1,
      NewSessionService.CreateSession env (ascii "c1") w0 = (Except.ok s, ss1, w1) := by
    unfold SessionService.CreateSession
    simp only [clientExecCreate, hcreate, clientExecAttach, hattach]
    rw [hs]
    exact ⟨_, _, rfl⟩
  obtain ⟨_, _, _, hnw, hnr, _⟩ :=
    CreateSession_ok_trace env NewSessionService (ascii "c1") w0 s ss1 w1 hc
  have hne : data ≠ [] := by
    intro e
    rw [e] at hhi
    revert hhi
    decide
  have hr1 : env.read s.Hijack (w1.nReads s.Hijack + 0) = { data := data, err := none } := by
    rw [hsh, hnr]; exact hread
  obtain ⟨w2, h2, h2n, _⟩ := ExecuteCommandWithTimeout_run env fuel s (ascii "echo hi") 5 0 w1
    (by decide) (by decide) (by rw [hsh, hnw]; exact hwrite) (fun i hi => by omega)
    (Or.inr (by rw [hr1]; exact hne)) hf
  have hnb : ¬ readErrBreaks (env.read s.Hijack (w1.nReads s.Hijack + 0)).err = true := by
    rw [hr1]; simp [readErrBreaks]
  rw [if_neg hnb, hr1] at h2
  have hclean : CleanANSIEscapes data = data :=
    CleanANSIEscapes_of_hasCSI_false data (hasCSI_false_of_no_esc data hesc)
  simp only [hclean] at h2
  have hidx : w2.nReads s.Hijack + 0 = w0.nReads h + 1 := by
    rw [h2n, hsh, hnr]
  have hstop : isDataRead (env.read s.Hijack (w2.nReads s.Hijack + 0)) = false := by
    rw [hidx, hsh]
    rcases hidle with ⟨e1, e2⟩ | ⟨e, e1, _⟩
    · simp [isDataRead, e1, e2]
    · simp [isDataRead, e1]
  obtain ⟨w3, h3, _, _, _⟩ := GetSessionOutput_run env fuel s w2 0 (fun i hi => by omega) hstop
    (by omega)
  have hdone : drainStop (readBytes env s.Hijack 0 (w2.nReads s.Hijack))
      (env.read s.Hijack (w2.nReads s.Hijack + 0)) = DrainExit.done [] := by
    rw [hidx, hsh]
    rcases hidle with ⟨e1, _⟩ | ⟨e, e1, e2⟩
    · simp [drainStop, e1, readBytes]
    · simp [drainStop, e1, e2, readBytes]
  rw [hdone] at h3
  have hg : ss1.GetSession s.GetSessionID = some s := by
    unfold SessionService.GetSession
    rw [CreateSession_ok_sessions env NewSessionService (ascii "c1") w0 s ss1 w1 hc]
    exact mapGet_mapSet_self _ _ _
  refine ⟨s, ss1, w1, w2, w3, hc, by rw [hs], h2, h3, ?_, ?_⟩
  · unfold SessionService.CloseSession
    unfold SessionService.GetSession at hg
    rw [hg]
  · unfold SessionService.CloseSession
    unfold SessionService.GetSession at hg
    rw [hg]
    exact mapGet_mapDelete_self _ _

/-- Witness of C22: the stream answers `hi` and a line end, then is idle. -/
theorem C22_end_to_end_witness :
    bytesContains (ascii "hi\r\n") (ascii "hi") = true ∧ 27 ∉ ascii "hi\r\n" ∧
    ∃ (s : ExecSession) (ss1 : SessionService) (w1 w2 w3 : World),
      NewSessionService.CreateSession (sampleEnv (fun _ => none) hiThenIdleRead) (ascii "c1")
        freshWorld = (Except.ok s, ss1, w1) ∧
      s.ContainerName = ascii "c1" ∧
      s.ExecuteCommandWithTimeout (sampleEnv (fun _ => none) hiThenIdleRead) 10
        (ascii "echo hi") 5 w1 = some ((ascii "hi\r\n", none), w2) ∧
      s.GetSessionOutput (sampleEnv (fun _ => none) hiThenIdleRead) 10 w2
        = some (([], none), w3) ∧
      (ss1.CloseSession (sampleEnv (fun _ => none) hiThenIdleRead) s.GetSessionID w3).1 = true ∧
      (ss1.CloseSession (sampleEnv (fun _ => none) hiThenIdleRead) s.GetSessionID
        w3).2.1.GetSession s.GetSessionID = none :=
  ⟨by decide, by decide,
   C22_end_to_end (sampleEnv (fun _ => none) hiThenIdleRead) 10 freshWorld
     (ascii "0123456789abcdef") 7 (ascii "hi\r\n") rfl rfl rfl rfl (by decide) (by decide)
     (Or.inr ⟨errDeadline, rfl, rfl⟩) (by decide)⟩

/-! ## No session is closed twice -/

theorem closeCount_append (c : Nat) (a b : List Event) :
    closeCount c (a ++ b) = closeCount c a + closeCount c b := by
  induction a with
  | nil => simp [closeCount]
  | cons e rest ih =>
    cases e with
    | conn c1 op =>
      cases op with
      | close =>
        by_cases h : c1 = c
        · simp [closeCount, h, ih]; omega
        · simp [closeCount, h, ih]
      | write p => simp [closeCount, ih]
      | read => simp [closeCount, ih]
      | setReadDeadline t => simp [closeCount, ih]
    | sleep d => simp [closeCount, ih]
    | execCreate x y => simp [closeCount, ih]
    | execAttach x => simp [closeCount, ih]

theorem CreateSession_step (env : Env) (ss : SessionService) (containerName : Bytes)
    (w : World) :
    (∀ c, closeCount c (ss.CreateSession env containerName w).2.2.trace
      = closeCount c w.trace) ∧
    w.nExecAttach ≤ (ss.CreateSession env containerName w).2.2.nExecAttach ∧
    ((ss.CreateSession env containerName w).2.1 = ss ∨
      ∃ s2, (ss.CreateSession env containerName w).2.1.sessions
          = mapSet ss.sessions s2.GetSessionID s2 ∧
        env.execAttach w.nExecAttach = Except.ok s2.Hijack ∧
        (ss.CreateSession env containerName w).2.2.nExecAttach = w.nExecAttach + 1) := by
  unfold SessionService.CreateSession
  cases hc : env.execCreate w.nExecCreate with
  | error e =>
    simp only [clientExecCreate, hc]
    refine ⟨fun c => ?_, Nat.le_refl _, Or.inl ?_⟩
    · simp [closeCount_append, closeCount]
    · trivial
  | ok respID =>
    cases ha : env.execAttach w.nExecAttach with
    | error e =>
      simp only [clientExecCreate, clientExecAttach, hc, ha]
      refine ⟨fun c => ?_, Nat.le_succ _, Or.inl ?_⟩
      · simp [closeCount_append, closeCount]
      · trivial
    | ok hijack =>
      simp only [clientExecCreate, clientExecAttach, hc, ha]
      refine ⟨fun c => ?_, Nat.le_succ _, Or.inr
        ⟨{ ContainerName := containerName, ExecID := respID, Hijack := hijack }, ?_⟩⟩
      · simp [closeCount_append, closeCount]
      · simp [ExecSession.GetSessionID]

theorem CloseSession_step (env : Env) (ss : SessionService) (X : Bytes) (w : World) :
    ss.CloseSession env X w = (false, ss, w) ∨
    ∃ s1, ss.GetSession X = some s1 ∧
      (ss.CloseSession env X w).2.1.sessions = mapDelete ss.sessions X ∧
      (∀ c, closeCount c (ss.CloseSession env X w).2.2.trace
        = closeCount c w.trace + (if s1.Hijack = c then 1 else 0)) ∧
      (ss.CloseSession env X w).2.2.nExecAttach = w.nExecAttach := by
  unfold SessionService.CloseSession
  cases hg : mapGet ss.sessions X with
  | none => left; rfl
  | some s1 =>
    right
    refine ⟨s1, hg, rfl, fun c => ?_, rfl⟩
    simp only [ExecSession.Close, connWrite, connClose]
    by_cases h : s1.Hijack = c
    · simp [closeCount_append, closeCount, h]
    · simp [closeCount_append, closeCount, h]

theorem mapDelete_sublist (m : List (Bytes × ExecSession)) (k : Bytes) :
    (mapDelete m k).Sublist m := by
  unfold mapDelete
  exact List.filter_sublist m

theorem RegistryInv_create (env : Env) (w0 : World)
    (hinj : ∀ i j c, w0.nExecAttach ≤ i → w0.nExecAttach ≤ j →
      env.execAttach i = Except.ok c → env.execAttach j = Except.ok c → i = j)
    (st : SessionService × World) (containerName : Bytes) (hinv : RegistryInv env w0 st) :
    RegistryInv env w0
      ((st.1.CreateSession env containerName st.2).2.1,
       (st.1.CreateSession env containerName st.2).2.2) := by
  obtain ⟨hcc, hle, hcase⟩ := CreateSession_step env st.1 containerName st.2
  have hlift : ∀ c, (∃ i, w0.nExecAttach ≤ i ∧ i < st.2.nExecAttach ∧
        env.execAttach i = Except.ok c) →
      ∃ i, w0.nExecAttach ≤ i ∧
        i < (st.1.CreateSession env containerName st.2).2.2.nExecAttach ∧
        env.execAttach i = Except.ok c := by
    rintro c ⟨i, h1, h2, h3⟩
    exact ⟨i, h1, by omega, h3⟩
  rcases hcase with hsame | ⟨s2, hsess, hatt, hn⟩
  · refine ⟨by have := hinv.attachLe; simp only; omega, ?_, ?_, ?_, ?_, ?_⟩
    · simp only [hsame]; exact hinv.nodup
    · intro e he
      simp only [hsame] at he
      obtain ⟨h1, h2⟩ := hinv.live e he
      exact ⟨hlift _ h1, by simp only [hcc]; exact h2⟩
    · intro c; simp only [hcc]; exact hinv.once c
    · intro c hlt
      simp only [hcc] at hlt
      exact hlift c (hinv.closedAttached c hlt)
    · intro c; simp only [hcc]; exact hinv.mono c
  · have hfresh : ∀ e ∈ st.1.sessions, e.2.Hijack ≠ s2.Hijack := by
      intro e he heq
      obtain ⟨⟨i, h1, h2, h3⟩, _⟩ := hinv.live e he
      rw [heq] at h3
      have := hinj i st.2.nExecAttach s2.Hijack h1 hinv.attachLe h3 hatt
      omega
    have hnew : closeCount s2.Hijack st.2.trace = closeCount s2.Hijack w0.trace := by
      have hm := hinv.mono s2.Hijack
      by_cases hlt : closeCount s2.Hijack w0.trace < closeCount s2.Hijack st.2.trace
      · obtain ⟨i, h1, h2, h3⟩ := hinv.closedAttached s2.Hijack hlt
        have := hinj i st.2.nExecAttach s2.Hijack h1 hinv.attachLe h3 hatt
        omega
      · omega
    refine ⟨by have := hinv.attachLe; simp only; omega, ?_, ?_, ?_, ?_, ?_⟩
    · simp only [hsess, mapSet, List.map_cons, List.nodup_cons]
      constructor
      · intro hmem
        obtain ⟨e, he, heq⟩ := List.mem_map.mp hmem
        exact hfresh e ((mapDelete_sublist _ _).subset he) heq
      · exact List.Nodup.sublist ((mapDelete_sublist _ _).map _) hinv.nodup
    · intro e he
      simp only [hsess, mapSet, List.mem_cons] at he
      rcases he with he | he
      · rw [he]
        simp only [hcc]
        exact ⟨⟨st.2.nExecAttach, hinv.attachLe, by simp only [hn]; omega, hatt⟩, hnew⟩
      · obtain ⟨h1, h2⟩ := hinv.live e ((mapDelete_sublist _ _).subset he)
        exact ⟨hlift _ h1, by simp only [hcc]; exact h2⟩
    · intro c; simp only [hcc]; exact hinv.once c
    · intro c hlt
      simp only [hcc] at hlt
      exact hlift c (hinv.closedAttached c hlt)
    · intro c; simp only [hcc]; exact hinv.mono c

theorem RegistryInv_close (env : Env) (w0 : World) (st : SessionService × World) (X : Bytes)
    (hinv : RegistryInv env w0 st) :
    RegistryInv env w0
      ((st.1.CloseSession env X st.2).2.1, (st.1.CloseSession env X st.2).2.2) := by
  rcases CloseSession_step env st.1 X st.2 with hsame | ⟨s1, hg, hsess, hcc, hn⟩
  · rw [hsame]
    exact hinv
  · have hmem : (X, s1) ∈ st.1.sessions := mapGet_mem _ _ _ hg
    have hs1 := hinv.live (X, s1) hmem
    have hother : ∀ e ∈ mapDelete st.1.sessions X, e.2.Hijack ≠ s1.Hijack := by
      intro e he heq
      have he2 := List.mem_filter.mp he
      have hex : e = (X, s1) := List.inj_on_of_nodup_map hinv.nodup he2.1 hmem heq
      have hk : e.1 ≠ X := by simpa using he2.2
      rw [hex] at hk
      exact hk rfl
    refine ⟨by simp only [hn]; exact hinv.attachLe, ?_, ?_, ?_, ?_, ?_⟩
    · simp only [hsess]
      exact List.Nodup.sublist ((mapDelete_sublist _ _).map _) hinv.nodup
    · intro e he
      simp only [hsess] at he
      obtain ⟨h1, h2⟩ := hinv.live e ((mapDelete_sublist _ _).subset he)
      refine ⟨by simp only [hn]; exact h1, ?_⟩
      simp only [hcc]
      rw [if_neg (fun h => hother e he h.symm)]
      exact h2
    · intro c
      simp only [hcc]
      by_cases hc : s1.Hijack = c
      · rw [if_pos hc, ← hc]
        have := hs1.2
        simp only at this
        omega
      · rw [if_neg hc]
        exact hinv.once c
    · intro c hlt
      simp only [hcc, hn] at hlt ⊢
      by_cases hc : s1.Hijack = c
      · rw [← hc]
        exact hs1.1
      · rw [if_neg hc] at hlt
        exact hinv.closedAttached c hlt
    · intro c
      simp only [hcc]
      have := hinv.mono c
      omega

theorem CloseSession_of_get_none (env : Env) (ss : SessionService) (w : World) (X : Bytes)
    (h : ss.GetSession X = none) : ss.CloseSession env X w = (false, ss, w) := by
  unfold SessionService.CloseSession
  unfold SessionService.GetSession at h
  rw [h]

theorem RegistryInv_run (env : Env) (w0 : World)
    (hinj : ∀ i j c, w0.nExecAttach ≤ i → w0.nExecAttach ≤ j →
      env.execAttach i = Except.ok c → env.execAttach j = Except.ok c → i = j)
    (calls : List ServiceCall) :
    ∀ st, RegistryInv env w0 st → RegistryInv env w0 (runService env calls st) := by
  induction calls with
  | nil => intro st h; exact h
  | cons call rest ih =>
    intro st h
    cases call with
    | create containerName =>
      exact ih _ (RegistryInv_create env w0 hinj st containerName h)
    | get id => exact ih st h
    | close id => exact ih _ (RegistryInv_close env w0 st id h)

/-- C21: the registry prevents a double close. Let every attach of the runtime
give a connection of its own. Then after every sequence of `CreateSession`,
`GetSession` and `CloseSession` calls on a new session service, every
connection, hence the connection of every created session, has been closed
at most once by these calls. And of two successive `CloseSession(X)` calls,
on any registry, the second returns false and leaves registry and world as
they were, so it performs no stream operation. -/
theorem C21_no_double_close (env : Env) (w0 : World) (calls : List ServiceCall)
    (hinj : ∀ i j c, w0.nExecAttach ≤ i → w0.nExecAttach ≤ j →
      env.execAttach i = Except.ok c → env.execAttach j = Except.ok c → i = j) :
    (∀ c, closeCount c (runService env calls (NewSessionService, w0)).2.trace
      ≤ closeCount c w0.trace + 1) ∧
    (∀ (ss : SessionService) (w : World) (X : Bytes),
      SessionService.CloseSession env (ss.CloseSession env X w).2.1 X
          (ss.CloseSession env X w).2.2
        = (false, (ss.CloseSession env X w).2.1, (ss.CloseSession env X w).2.2)) := by
  constructor
  · have h0 : RegistryInv env w0 (NewSessionService, w0) :=
      { attachLe := Nat.le_refl _
        nodup := List.nodup_nil
        live := fun e he => by cases he
        once := fun c => Nat.le_succ _
        closedAttached := fun c h => absurd h (Nat.lt_irrefl _)
        mono := fun c => Nat.le_refl _ }
    exact (RegistryInv_run env w0 hinj calls _ h0).once
  · intro ss w X
    have hnone : (ss.CloseSession env X w).2.1.GetSession X = none := by
      rcases CloseSession_step env ss X w with hsame | ⟨s1, _, hsess, _, _⟩
      · rw [hsame]
        cases hg : ss.GetSession X with
        | none => rfl
        | some s1 =>
          unfold SessionService.CloseSession at hsame
          unfold SessionService.GetSession at hg
          rw [hg] at hsame
          cases hsame
      · unfold SessionService.GetSession
        rw [hsess]
        exact mapGet_mapDelete_self _ _
    exact CloseSession_of_get_none env _ _ X hnone

/-- Witness of C21: two sessions are created and the first is closed twice;
its connection 100 has one close in the trace. -/
theorem C21_no_double_close_witness :
    (∀ i j c, freshWorld.nExecAttach ≤ i → freshWorld.nExecAttach ≤ j →
      freshConnEnv.execAttach i = Except.ok c → freshConnEnv.execAttach j = Except.ok c →
      i = j) ∧
    closeCount 100 (runService freshConnEnv
        [ServiceCall.create (ascii "c1"), ServiceCall.create (ascii "c2"),
         ServiceCall.close (List.replicate 12 97), ServiceCall.get (List.replicate 12 97),
         ServiceCall.close (List.replicate 12 97)]
        (NewSessionService, freshWorld)).2.trace ≤ closeCount 100 freshWorld.trace + 1 ∧
    closeCount 100 (runService freshConnEnv
        [ServiceCall.create (ascii "c1"), ServiceCall.create (ascii "c2"),
         ServiceCall.close (List.replicate 12 97), ServiceCall.get (List.replicate 12 97),
         ServiceCall.close (List.replicate 12 97)]
        (NewSessionService, freshWorld)).2.trace = 1 :=
  ⟨fun i j c _ _ hi hj => by
      simp only [freshConnEnv, Except.ok.injEq] at hi hj
      omega,
   (C21_no_double_close freshConnEnv freshWorld
      [ServiceCall.create (ascii "c1"), ServiceCall.create (ascii "c2"),
       ServiceCall.close (List.replicate 12 97), ServiceCall.get (List.replicate 12 97),
       ServiceCall.close (List.replicate 12 97)]
      (fun i j c _ _ hi hj => by
        simp only [freshConnEnv, Except.ok.injEq] at hi hj
        omega)).1 100,
   by rfl⟩

/-! ## The token whitelist -/

theorem mem_whitelistAdd (wl : List Bytes) (line t : Bytes) :
    t ∈ whitelistAdd wl line ↔ t ∈ wl ∨ t = line := by
  unfold whitelistAdd
  by_cases h : line ∈ wl
  · rw [if_pos h]
    constructor
    · intro ht; exact Or.inl ht
    · rintro (ht | ht)
      · exact ht
      · rw [ht]; exact h
  · rw [if_neg h]
    simp

theorem mem_whitelist_foldl (trimSpace : Bytes → Bytes) (lines : List Bytes) :
    ∀ (wl : List Bytes) (t : Bytes),
      t ∈ lines.foldl
          (fun wl text =>
            if trimSpace text = [] ∨ hasHashPrefix (trimSpace text) = true then wl
            else whitelistAdd wl (trimSpace text)) wl
        ↔ t ∈ wl ∨ ∃ l ∈ lines, trimSpace l = t ∧ t ≠ [] ∧ hasHashPrefix t = false := by
  induction lines with
  | nil => intro wl t; simp
  | cons l rest ih =>
    intro wl t
    rw [List.foldl_cons, ih]
    by_cases hskip : trimSpace l = [] ∨ hasHashPrefix (trimSpace l) = true
    · rw [if_pos hskip]
      constructor
      · rintro (h | ⟨l2, hl2, h⟩)
        · exact Or.inl h
        · exact Or.inr ⟨l2, List.mem_cons_of_mem _ hl2, h⟩
      · rintro (h | ⟨l2, hl2, h1, h2, h3⟩)
        · exact Or.inl h
        · rcases List.mem_cons.mp hl2 with e | e
          · exfalso
            rw [e] at h1
            rcases hskip with hs | hs
            · exact h2 (by rw [← h1]; exact hs)
            · rw [h1, h3] at hs; cases hs
          · exact Or.inr ⟨l2, e, h1, h2, h3⟩
    · rw [if_neg hskip, mem_whitelistAdd]
      have hk : trimSpace l ≠ [] ∧ hasHashPrefix (trimSpace l) = false := by
        constructor
        · exact fun e => hskip (Or.inl e)
        · cases hh : hasHashPrefix (trimSpace l) with
          | false => rfl
          | true => exact absurd (Or.inr hh) hskip
      constructor
      · rintro ((h | h) | ⟨l2, hl2, h⟩)
        · exact Or.inl h
        · exact Or.inr ⟨l, List.mem_cons_self _ _, h.symm, by rw [h]; exact hk.1,
            by rw [h]; exact hk.2⟩
        · exact Or.inr ⟨l2, List.mem_cons_of_mem _ hl2, h⟩
      · rintro (h | ⟨l2, hl2, h1, h2, h3⟩)
        · exact Or.inl (Or.inl h)
        · rcases List.mem_cons.mp hl2 with e | e
          · exact Or.inl (Or.inr (by rw [← h1, e]))
          · exact Or.inr ⟨l2, e, h1, h2, h3⟩

/-- C29: the token whitelist. When the token file exists and `LoadFromFile`
returns nil, checking is enabled and the whitelist is exactly the set of the
trimmed lines that are not empty and do not start with `#`; it does not
contain the empty string. Then `IsValidToken(t)` is true exactly for those
lines and `IsValidToken("")` is false; the middleware lets `GET /api` pass
and answers 401 to every other request without an `Authorization` header.
With checking disabled `IsValidToken` is true for every token. -/
theorem C29_token_whitelist (trimSpace : Bytes → Bytes) (tm : TokenManager)
    (lines : List Bytes) :
    (tm.LoadFromFile trimSpace (TokenFile.opened lines none)).1 = none ∧
    (tm.LoadFromFile trimSpace (TokenFile.opened lines none)).2.enabled = true ∧
    (∀ t, t ∈ (tm.LoadFromFile trimSpace (TokenFile.opened lines none)).2.whitelist
      ↔ ∃ l ∈ lines, trimSpace l = t ∧ t ≠ [] ∧ hasHashPrefix t = false) ∧
    [] ∉ (tm.LoadFromFile trimSpace (TokenFile.opened lines none)).2.whitelist ∧
    (∀ t, (tm.LoadFromFile trimSpace (TokenFile.opened lines none)).2.IsValidToken t = true
      ↔ ∃ l ∈ lines, trimSpace l = t ∧ t ≠ [] ∧ hasHashPrefix t = false) ∧
    (tm.LoadFromFile trimSpace (TokenFile.opened lines none)).2.IsValidToken [] = false ∧
    (∀ req : AuthRequest, req.Authorization = none →
      ¬ (req.Method = ascii "GET" ∧ req.Path = ascii "/api") →
      (tm.LoadFromFile trimSpace (TokenFile.opened lines none)).2.Middleware req
        = MiddlewareOutcome.abort
            { code := 401,
              body := [("error", ascii "invalid or missing token"), ("status", ascii "fail")] }) ∧
    (∀ req : AuthRequest, req.Method = ascii "GET" → req.Path = ascii "/api" →
      (tm.LoadFromFile trimSpace (TokenFile.opened lines none)).2.Middleware req
        = MiddlewareOutcome.next) ∧
    (∀ (tm2 : TokenManager) (t : Bytes), tm2.enabled = false → tm2.IsValidToken t = true) := by
  have hmem : ∀ t, t ∈ (tm.LoadFromFile trimSpace (TokenFile.opened lines none)).2.whitelist
      ↔ ∃ l ∈ lines, trimSpace l = t ∧ t ≠ [] ∧ hasHashPrefix t = false := by
    intro t
    have := mem_whitelist_foldl trimSpace lines [] t
    simp only [List.not_mem_nil, false_or] at this
    exact this
  have hen : (tm.LoadFromFile trimSpace (TokenFile.opened lines none)).2.enabled = true := rfl
  have hempty : [] ∉ (tm.LoadFromFile trimSpace (TokenFile.opened lines none)).2.whitelist := by
    intro h
    obtain ⟨l, _, _, h2, _⟩ := (hmem []).mp h
    exact h2 rfl
  have hvalid : ∀ t,
      (tm.LoadFromFile trimSpace (TokenFile.opened lines none)).2.IsValidToken t = true
        ↔ t ∈ (tm.LoadFromFile trimSpace (TokenFile.opened lines none)).2.whitelist := by
    intro t
    unfold TokenManager.IsValidToken
    rw [hen]
    simp
  have hfalse :
      (tm.LoadFromFile trimSpace (TokenFile.opened lines none)).2.IsValidToken [] = false := by
    cases hv : (tm.LoadFromFile trimSpace (TokenFile.opened lines none)).2.IsValidToken [] with
    | false => rfl
    | true => exact absurd ((hvalid []).mp hv) hempty
  refine ⟨rfl, hen, hmem, hempty, fun t => (hvalid t).trans (hmem t), hfalse, ?_, ?_, ?_⟩
  · intro req hauth hroute
    unfold TokenManager.Middleware
    rw [hen, if_neg (by decide), if_neg hroute]
    simp only [hauth, Option.getD_none, hfalse, if_true]
  · intro req hm hp
    unfold TokenManager.Middleware
    rw [hen, if_neg (by decide), if_pos ⟨hm, hp⟩]
  · intro tm2 t h
    unfold TokenManager.IsValidToken
    rw [if_pos h]

/-- Witness of C29: a token file with a padded token, a comment, an empty
line and a repeated token. -/
theorem C29_token_whitelist_witness :
    (NewTokenManager.LoadFromFile trimSpaceASCII
        (TokenFile.opened [ascii "  abc  ", ascii "# note", ascii "", ascii "abc"] none)).2
      = { whitelist := [ascii "abc"], enabled := true } ∧
    (NewTokenManager.LoadFromFile trimSpaceASCII
        (TokenFile.opened [ascii "  abc  ", ascii "# note", ascii "", ascii "abc"]
          none)).2.IsValidToken [] = false :=
  ⟨by decide, (C29_token_whitelist trimSpaceASCII NewTokenManager
      [ascii "  abc  ", ascii "# note", ascii "", ascii "abc"]).2.2.2.2.2.1⟩

/-! ## Port mapping -/

theorem splitByte_of_not_mem (sep : Nat) (t : Bytes) (h : sep ∉ t) : splitByte sep t = [t] := by
  induction t with
  | nil => rfl
  | cons b rest ih =>
    have hb : b ≠ sep := fun e => h (by rw [e]; exact List.mem_cons_self _ _)
    have hr : sep ∉ rest := fun e => h (List.mem_cons_of_mem _ e)
    rw [splitByte, if_neg hb, ih hr]

theorem splitByte_pair (sep : Nat) (H C : Bytes) (hH : sep ∉ H) (hC : sep ∉ C) :
    splitByte sep (H ++ sep :: C) = [H, C] := by
  induction H with
  | nil =>
    rw [List.nil_append, splitByte, if_pos rfl, splitByte_of_not_mem sep C hC]
  | cons b rest ih =>
    have hb : b ≠ sep := fun e => hH (by rw [e]; exact List.mem_cons_self _ _)
    have hr : sep ∉ rest := fun e => hH (List.mem_cons_of_mem _ e)
    rw [List.cons_append, splitByte, if_neg hb, ih hr]

theorem exists_pair_of_count_one (sep : Nat) (p : Bytes) (h : p.count sep = 1) :
    ∃ H C, p = H ++ sep :: C ∧ sep ∉ H ∧ sep ∉ C := by
  induction p with
  | nil => simp at h
  | cons b rest ih =>
    by_cases hb : b = sep
    · rw [hb, List.count_cons_self] at h
      have h0 : rest.count sep = 0 := by omega
      exact ⟨[], rest, by rw [hb]; rfl, List.not_mem_nil _, List.count_eq_zero.mp h0⟩
    · rw [List.count_cons_of_ne (fun e => hb e.symm)] at h
      obtain ⟨H, C, h1, h2, h3⟩ := ih h
      refine ⟨b :: H, C, by rw [h1]; rfl, ?_, h3⟩
      intro hm
      rcases List.mem_cons.mp hm with e | e
      · exact hb e.symm
      · exact h2 e

theorem count_pair (sep : Nat) (H C : Bytes) (hH : sep ∉ H) (hC : sep ∉ C) :
    (H ++ sep :: C).count sep = 1 := by
  rw [List.count_append, List.count_cons_self, List.count_eq_zero.mpr hH,
    List.count_eq_zero.mpr hC]

theorem bindingsGet_filter_ne (m : List (Bytes × List PortBinding)) (k k2 : Bytes)
    (hk : k ≠ k2) :
    bindingsGet (m.filter (fun e => decide (e.1 ≠ k))) k2 = bindingsGet m k2 := by
  induction m with
  | nil => rfl
  | cons e rest ih =>
    obtain ⟨k1, v⟩ := e
    by_cases h : k1 = k
    · subst h
      have h2 : bindingsGet ((k1, v) :: rest) k2 = bindingsGet rest k2 := by
        simp [bindingsGet, hk]
      rw [h2, ← ih]
      simp [List.filter_cons]
    · by_cases h1 : k1 = k2
      · subst h1
        simp [List.filter_cons, h, bindingsGet]
      · simpa [List.filter_cons, h, bindingsGet, h1] using ih

theorem bindingsGet_bindingsSet (m : List (Bytes × List PortBinding)) (k k2 : Bytes)
    (v : List PortBinding) :
    bindingsGet (bindingsSet m k v) k2 = if k = k2 then some v else bindingsGet m k2 := by
  unfold bindingsSet
  rw [bindingsGet]
  by_cases h : k = k2
  · rw [if_pos h, if_pos h]
  · rw [if_neg h, if_neg h]
    exact bindingsGet_filter_ne m k k2 h

theorem mem_portSetAdd (st : List Bytes) (k k2 : Bytes) :
    k2 ∈ portSetAdd st k ↔ k2 ∈ st ∨ k2 = k := by
  unfold portSetAdd
  by_cases h : k ∈ st
  · rw [if_pos h]
    constructor
    · intro hm; exact Or.inl hm
    · rintro (hm | hm)
      · exact hm
      · rw [hm]; exact h
  · rw [if_neg h]
    simp only [List.mem_cons]
    constructor
    · rintro (hm | hm)
      · exact Or.inr hm
      · exact Or.inl hm
    · rintro (hm | hm)
      · exact Or.inr hm
      · exact Or.inl hm

theorem processPortLoop_error (portMap : List Bytes) :
    ∀ acc : List (Bytes × List PortBinding) × List Bytes,
      (∀ e, processPortLoop portMap acc = Except.error e →
        e = { msg := ascii "portMap error", netTimeout := false }) ∧
      ((∃ e, processPortLoop portMap acc = Except.error e) ↔ ∃ p ∈ portMap, p.count 58 ≠ 1) := by
  induction portMap with
  | nil =>
    intro acc
    constructor
    · intro e h; simp [processPortLoop] at h
    · simp [processPortLoop]
  | cons p rest ih =>
    intro acc
    obtain ⟨pb, ep⟩ := acc
    by_cases hp : p.count 58 ≠ 1
    · constructor
      · intro e h
        rw [processPortLoop, if_pos hp] at h
        exact (Except.error.inj h).symm
      · constructor
        · intro _
          exact ⟨p, List.mem_cons_self _ _, hp⟩
        · intro _
          rw [processPortLoop, if_pos hp]
          exact ⟨_, rfl⟩
    · rw [processPortLoop, if_neg hp]
      obtain ⟨h1, h2⟩ := ih
        (bindingsSet pb ((splitByte 58 p).getD 1 [] ++ ascii "/tcp")
          [{ HostIP := ascii "0.0.0.0", HostPort := (splitByte 58 p).getD 0 [] }],
         portSetAdd ep ((splitByte 58 p).getD 1 [] ++ ascii "/tcp"))
      refine ⟨h1, h2.trans ?_⟩
      constructor
      · rintro ⟨q, hq, hc⟩
        exact ⟨q, List.mem_cons_of_mem _ hq, hc⟩
      · rintro ⟨q, hq, hc⟩
        rcases List.mem_cons.mp hq with e | e
        · rw [e] at hc; exact absurd hc hp
        · exact ⟨q, e, hc⟩

theorem processPortLoop_ok (portMap : List Bytes) :
    ∀ (pb : List (Bytes × List PortBinding)) (ep : List Bytes)
      (pb2 : List (Bytes × List PortBinding)) (ep2 : List Bytes),
      processPortLoop portMap (pb, ep) = Except.ok (pb2, ep2) →
      (∀ k, bindingsGet pb2 k
        = match lastHostPort portMap k with
          | some h => some [{ HostIP := ascii "0.0.0.0", HostPort := h }]
          | none => bindingsGet pb k) ∧
      (∀ k, k ∈ ep2 ↔ k ∈ ep ∨ (lastHostPort portMap k).isSome = true) := by
  induction portMap with
  | nil =>
    intro pb ep pb2 ep2 h
    simp only [processPortLoop, Except.ok.injEq, Prod.mk.injEq] at h
    rw [← h.1, ← h.2]
    exact ⟨fun k => rfl, fun k => by simp [lastHostPort]⟩
  | cons p rest ih =>
    intro pb ep pb2 ep2 h
    by_cases hp : p.count 58 ≠ 1
    · rw [processPortLoop, if_pos hp] at h
      cases h
    · rw [processPortLoop, if_neg hp] at h
      obtain ⟨h1, h2⟩ := ih _ _ _ _ h
      constructor
      · intro k
        rw [h1 k, lastHostPort]
        cases hl : lastHostPort rest k with
        | some hh => rfl
        | none =>
          simp only []
          rw [bindingsGet_bindingsSet]
          by_cases hk : (splitByte 58 p).getD 1 [] ++ ascii "/tcp" = k
          · rw [if_pos hk, if_pos hk]
          · rw [if_neg hk, if_neg hk]
      · intro k
        rw [h2 k, mem_portSetAdd, lastHostPort]
        cases hl : lastHostPort rest k with
        | some hh => simp
        | none =>
          simp only []
          by_cases hk : (splitByte 58 p).getD 1 [] ++ ascii "/tcp" = k
          · rw [if_pos hk]
            constructor
            · intro _; exact Or.inr rfl
            · intro _; exact Or.inl (Or.inr hk.symm)
          · rw [if_neg hk]
            simp only [Option.isSome_none, Bool.false_eq_true, or_false]
            constructor
            · rintro (hm | hm)
              · exact hm
              · exact absurd hm.symm hk
            · intro hm; exact Or.inl hm

theorem lastHostPort_some (portMap : List Bytes) (k h : Bytes)
    (hl : lastHostPort portMap k = some h) :
    ∃ p ∈ portMap, (splitByte 58 p).getD 1 [] ++ ascii "/tcp" = k ∧
      (splitByte 58 p).getD 0 [] = h := by
  induction portMap with
  | nil => simp [lastHostPort] at hl
  | cons p rest ih =>
    rw [lastHostPort] at hl
    cases hr : lastHostPort rest k with
    | some h2 =>
      rw [hr] at hl
      simp only [Option.some.injEq] at hl
      obtain ⟨q, hq, h1, h3⟩ := ih (by rw [hr, hl])
      exact ⟨q, List.mem_cons_of_mem _ hq, h1, h3⟩
    | none =>
      rw [hr] at hl
      simp only [] at hl
      by_cases hk : (splitByte 58 p).getD 1 [] ++ ascii "/tcp" = k
      · rw [if_pos hk] at hl
        exact ⟨p, List.mem_cons_self _ _, hk, Option.some.inj hl⟩
      · rw [if_neg hk] at hl
        cases hl

theorem lastHostPort_isSome (portMap : List Bytes) (k p : Bytes) (hp : p ∈ portMap)
    (hk : (splitByte 58 p).getD 1 [] ++ ascii "/tcp" = k) :
    (lastHostPort portMap k).isSome = true := by
  induction portMap with
  | nil => cases hp
  | cons q rest ih =>
    rw [lastHostPort]
    cases hr : lastHostPort rest k with
    | some h2 => rfl
    | none =>
      simp only []
      rcases List.mem_cons.mp hp with e | e
      · rw [← e, if_pos hk]
        rfl
      · have := ih e
        rw [hr] at this
        cases this

theorem lastHostPort_last (pre post : List Bytes) (p k : Bytes)
    (hk : (splitByte 58 p).getD 1 [] ++ ascii "/tcp" = k)
    (hpost : ∀ q ∈ post, (splitByte 58 q).getD 1 [] ++ ascii "/tcp" ≠ k) :
    lastHostPort (pre ++ p :: post) k = some ((splitByte 58 p).getD 0 []) := by
  have hnone : lastHostPort post k = none := by
    cases hr : lastHostPort post k with
    | none => rfl
    | some h =>
      obtain ⟨q, hq, h1, _⟩ := lastHostPort_some post k h hr
      exact absurd h1 (hpost q hq)
  induction pre with
  | nil =>
    rw [List.nil_append, lastHostPort, hnone]
    simp only []
    rw [if_pos hk]
  | cons x pre ih =>
    rw [List.cons_append, lastHostPort, ih]

theorem pair_parts (H C : Bytes) (hH : 58 ∉ H) (hC : 58 ∉ C) :
    (splitByte 58 (H ++ 58 :: C)).getD 0 [] = H ∧
    (splitByte 58 (H ++ 58 :: C)).getD 1 [] ++ ascii "/tcp" = C ++ ascii "/tcp" := by
  rw [splitByte_pair 58 H C hH hC]
  exact ⟨rfl, rfl⟩

/-- C30: `processPortMapping` fails, and then with `portMap error`, exactly
when some entry of the port list does not contain exactly one `:`. When it
succeeds, every entry is `H:C`; for every entry `H:C` the bindings map
`C/tcp` to the single binding with host IP `0.0.0.0` and the host port of an
entry whose container port is `C`, namely of the last such entry; and the
exposed-port set has the keys of the bindings. The empty list gives empty
maps and no error. -/
theorem C30_port_mapping (portMap : List Bytes) :
    ((∃ e, processPortMapping portMap = Except.error e) ↔ ∃ p ∈ portMap, p.count 58 ≠ 1) ∧
    (∀ e, processPortMapping portMap = Except.error e →
      e = { msg := ascii "portMap error", netTimeout := false }) ∧
    (∀ pb ep, processPortMapping portMap = Except.ok (pb, ep) →
      (∀ p ∈ portMap, ∃ H C, p = H ++ 58 :: C ∧ 58 ∉ H ∧ 58 ∉ C) ∧
      (∀ H C, 58 ∉ H → 58 ∉ C → H ++ 58 :: C ∈ portMap →
        ∃ H2, 58 ∉ H2 ∧ H2 ++ 58 :: C ∈ portMap ∧
          bindingsGet pb (C ++ ascii "/tcp")
            = some [{ HostIP := ascii "0.0.0.0", HostPort := H2 }]) ∧
      (∀ pre post H C, portMap = pre ++ (H ++ 58 :: C) :: post → 58 ∉ H → 58 ∉ C →
        (∀ H2, H2 ++ 58 :: C ∉ post) →
        bindingsGet pb (C ++ ascii "/tcp")
          = some [{ HostIP := ascii "0.0.0.0", HostPort := H }]) ∧
      (∀ k, k ∈ ep ↔ (bindingsGet pb k).isSome = true)) ∧
    processPortMapping [] = Except.ok ([], []) := by
  obtain ⟨herr, hiff⟩ := processPortLoop_error portMap ([], [])
  refine ⟨hiff, herr, ?_, rfl⟩
  intro pb ep hok
  have hall : ∀ p ∈ portMap, p.count 58 = 1 := by
    intro p hp
    by_cases hc : p.count 58 = 1
    · exact hc
    · obtain ⟨e, he⟩ := hiff.mpr ⟨p, hp, hc⟩
      unfold processPortMapping at hok
      rw [hok] at he
      cases he
  have hform : ∀ p ∈ portMap, ∃ H C, p = H ++ 58 :: C ∧ 58 ∉ H ∧ 58 ∉ C :=
    fun p hp => exists_pair_of_count_one 58 p (hall p hp)
  obtain ⟨hget, hexp⟩ := processPortLoop_ok portMap [] [] pb ep hok
  refine ⟨hform, ?_, ?_, ?_⟩
  · intro H C hH hC hmem
    obtain ⟨_, hkey⟩ := pair_parts H C hH hC
    have hsome := lastHostPort_isSome portMap (C ++ ascii "/tcp") (H ++ 58 :: C) hmem hkey
    cases hl : lastHostPort portMap (C ++ ascii "/tcp") with
    | none => rw [hl] at hsome; cases hsome
    | some h =>
      obtain ⟨q, hq, h1, h2⟩ := lastHostPort_some portMap _ h hl
      obtain ⟨H2, C2, hq2, hH2, hC2⟩ := hform q hq
      obtain ⟨p0, p1⟩ := pair_parts H2 C2 hH2 hC2
      rw [hq2, p1] at h1
      rw [hq2, p0] at h2
      have hCC : C2 = C := List.append_cancel_right h1
      refine ⟨H2, hH2, by rw [← hCC, ← hq2]; exact hq, ?_⟩
      rw [hget, hl, ← h2]
  · intro pre post H C hpm hH hC hlast
    obtain ⟨p0, p1⟩ := pair_parts H C hH hC
    have hpost : ∀ q ∈ post, (splitByte 58 q).getD 1 [] ++ ascii "/tcp" ≠ C ++ ascii "/tcp" := by
      intro q hq hk
      have hqm : q ∈ portMap := by
        rw [hpm]
        exact List.mem_append_right _ (List.mem_cons_of_mem _ hq)
      obtain ⟨H2, C2, hq2, hH2, hC2⟩ := hform q hqm
      obtain ⟨_, q1⟩ := pair_parts H2 C2 hH2 hC2
      rw [hq2, q1] at hk
      have hCC : C2 = C := List.append_cancel_right hk
      apply hlast H2
      rw [← hCC, ← hq2]
      exact hq
    have hl := lastHostPort_last pre post (H ++ 58 :: C) (C ++ ascii "/tcp") p1 hpost
    rw [hget, hpm, hl, p0]
  · intro k
    rw [hexp k, hget k]
    cases hl : lastHostPort portMap k with
    | none => simp [bindingsGet]
    | some h => simp

/-- Witness of C30: host ports 8080 and 9090 both name container port 80; the
later entry wins. -/
theorem C30_port_mapping_witness :
    processPortMapping [ascii "8080:80", ascii "9090:80", ascii "53:53"]
      = Except.ok
          ([(ascii "53/tcp", [{ HostIP := ascii "0.0.0.0", HostPort := ascii "53" }]),
            (ascii "80/tcp", [{ HostIP := ascii "0.0.0.0", HostPort := ascii "9090" }])],
           [ascii "53/tcp", ascii "80/tcp"]) ∧
    bindingsGet
        [(ascii "53/tcp", [{ HostIP := ascii "0.0.0.0", HostPort := ascii "53" }]),
         (ascii "80/tcp", [{ HostIP := ascii "0.0.0.0", HostPort := ascii "9090" }])]
        (ascii "80" ++ ascii "/tcp")
      = some [{ HostIP := ascii "0.0.0.0", HostPort := ascii "9090" }] :=
  ⟨rfl,
   ((C30_port_mapping [ascii "8080:80", ascii "9090:80", ascii "53:53"]).2.2.1
      [(ascii "53/tcp", [{ HostIP := ascii "0.0.0.0", HostPort := ascii "53" }]),
       (ascii "80/tcp", [{ HostIP := ascii "0.0.0.0", HostPort := ascii "9090" }])]
      [ascii "53/tcp", ascii "80/tcp"]
      rfl).2.2.1 [ascii "8080:80"] [ascii "53:53"] (ascii "9090") (ascii "80")
      (by decide) (by decide) (by decide)
      (fun H2 hm => by
        have h1 := List.mem_singleton.mp hm
        have h2 : (H2 ++ 58 :: ascii "80").getLast? = (ascii "53:53").getLast? := by rw [h1]
        simp [ascii] at h2)⟩

end DockerManager
